import Mathlib

/-!
# NFT marketplace front end: the transaction orchestration layer of `src/App.js`

A shallow embedding of the orchestration code of `src/App.js` (the catalog build
`fetchListings`, the owned-token enumeration `fetchMyNFTs`, and the mutation workflows
`buyNFT` and `handleListNFT`) together with theorems about it.

Everything the component does not own is an explicit input:

* the contract as seen through the ABI is a record of read results (`Contract`);
* state-changing calls, the wallet provider, the metadata gateway and the `ethers`
  unit conversions are fields of `World`;
* every remote call, alert and React state setter that a run performs is recorded, in
  program order, in the trace of the run (`Run.trace`), so that "no call is submitted"
  is a statement about the trace.
-/

namespace NFTMarket

/-! ## Strings and addresses -/

/-- Chain addresses are the strings that `ethers` hands to the component. -/
abbrev Address := String

/-- The zero-address sentinel compared against in `App.js`. -/
def ZERO_ADDRESS : Address := "0x0000000000000000000000000000000000000000"

/-- JavaScript `s.toLowerCase()` on the characters of an address (ASCII letters). -/
def toLowerCase (s : String) : String := ⟨s.data.map Char.toLower⟩

/-- Substring test on character lists. -/
def includesChars (needle : List Char) : List Char → Bool
  | [] => needle.isEmpty
  | c :: cs => needle.isPrefixOf (c :: cs) || includesChars needle cs

/-- JavaScript `hay.includes(needle)`. -/
def includes (hay needle : String) : Bool := includesChars needle.data hay.data

/-- Replace the first occurrence of `pat` by `rep` in a character list. -/
def replaceFirstChars (pat rep : List Char) : List Char → List Char
  | [] => if pat.isEmpty then rep else []
  | c :: cs =>
    if pat.isPrefixOf (c :: cs) then rep ++ (c :: cs).drop pat.length
    else c :: replaceFirstChars pat rep cs

/-- JavaScript `s.replace(pat, rep)` with a string pattern: only the first occurrence. -/
def replaceFirst (s pat rep : String) : String := ⟨replaceFirstChars pat.data rep.data s.data⟩

/-! ## Errors -/

deriving instance DecidableEq for Except


/-- A thrown JavaScript error value. A field that is absent (`undefined`) is the empty
string, which JavaScript treats as falsy exactly like `undefined`. -/
structure Err where
  message : String
  reason : String := ""
  code : String := ""
  deriving DecidableEq, Repr

/-- The `TypeError` raised by the runtime itself (property access on `null` or
`undefined`, mixing `BigInt` with another type, calling a missing method). -/
def typeError : Err := { message := "TypeError" }

/-! ## Data model -/

/-- A row of the contract's listing table (`listings(id)`, `getAllListings()`): the price
is a `uint256`, so `Number(price) === 0` holds exactly when the price is `0` and
`Number(price) > 0` exactly when it is not. -/
structure RawListing where
  seller : Address
  price : Nat
  deriving DecidableEq, Repr

/-- The value stored in the `metadata` field of a record: either a document with the three
displayed fields, or some other JSON value, kept as its text. -/
inductive MetaValue where
  | record (name description : String) (image : Option String)
  | other (raw : String)
  deriving DecidableEq, Repr

/-- An entry of the `listings` collection built by `fetchListings`. -/
structure Listing where
  tokenId : Nat
  seller : Address
  price : String
  metadata : MetaValue
  deriving DecidableEq, Repr

/-- An entry of the `myNFTs` collection built by `fetchMyNFTs`. -/
structure TokenRecord where
  tokenId : Nat
  metadata : MetaValue
  isListed : Bool
  listingPrice : String
  deriving DecidableEq, Repr

/-- The response of `fetch(url)`: `ok`, `status`, and the outcome of `response.json()`. -/
structure Response where
  ok : Bool
  status : Nat
  json : Except Err MetaValue

/-! ## The contract and the rest of the outside world -/

/-- The contract as the component reads it, in one chain state. Token ids and counts are
natural numbers (`Number(...)` of a count is exact below `2^53`, and the decimal text of an
id identifies it). A capability that the ABI lacks is a read that fails; the two
capabilities the code tests for before calling carry a presence flag. -/
structure Contract where
  tokensOfOwner : Address → Except Err (List Nat)
  balanceOf : Address → Except Err Nat
  tokenOfOwnerByIndex : Address → Nat → Except Err Nat
  hasGetTotalSupply : Bool
  getTotalSupply : Except Err Nat
  totalSupply : Except Err Nat
  ownerOf : Nat → Except Err Address
  tokenURI : Nat → Except Err String
  hasGetListingInfo : Bool
  getListingInfo : Nat → Except Err (Bool × Address × Nat)
  listings : Nat → Except Err RawListing
  getAllListings : Except Err (List RawListing × List Nat)
  getApproved : Nat → Except Err Address
  isApprovedForAll : Address → Address → Except Err Bool

/-- A submitted transaction: awaiting its finality either fails or leaves the contract in
the state given here. -/
structure Tx where
  hash : String
  wait : Except Err Contract

/-- Everything outside `App.js` that a run talks to. `CONTRACT_ADDRESS` is the constant
imported from `./contract`; `parseEther` and `formatEther` are the `ethers` conversions;
`parseFloatLeZero s` is the test `parseFloat(s) <= 0`. The pinning service answers an upload
with the content identifier `IpfsHash` of its response, which may be absent; `hasEthereum` is
the test `window.ethereum && window.ethereum.request`, and the two wallet requests are the
ones `disconnectWallet` issues; `getSigner` is `provider.getSigner()`, answered with the
address of the signer. -/
structure World where
  CONTRACT_ADDRESS : Address
  contract : Contract
  approve : Address → Nat → Except Err Tx
  listing : Nat → Nat → Except Err Tx
  buyNFT : Nat → Nat → Nat → Except Err Tx
  buyNFTEstimateGas : Nat → Nat → Except Err Nat
  getBalance : Address → Except Err Nat
  getFeeData : Except Err (Option Nat)
  fetch : String → Except Err Response
  parseEther : String → Except Err Nat
  formatEther : Nat → String
  parseFloatLeZero : String → Bool
  mintNFT : String → Except Err Tx
  cancelListing : Nat → Except Err Tx
  pinFileToIPFS : String → Except Err (Option String)
  pinJSONToIPFS : String → String → String → Except Err (Option String)
  hasEthereum : Bool
  walletRequestPermissions : Except Err Unit
  ethRequestAccounts : Except Err Unit
  getSigner : Except Err Address

/-! ## Client state and the trace of a run -/

/-- The React state of the component. -/
structure App where
  account : Option Address := none
  contract : Option Address := none
  provider : Bool := false
  loading : Bool := false
  nftName : String := ""
  nftDescription : String := ""
  imageFile : Option String := none
  imagePreview : Option String := none
  listings : List Listing := []
  myNFTs : List TokenRecord := []
  activeTab : String := "mint"
  showListingModal : Bool := false
  selectedNFT : Option TokenRecord := none
  listingPrice : String := ""
  deriving DecidableEq, Repr

/-- A remote call issued by the component. -/
inductive Call where
  | tokensOfOwner (account : Address)
  | balanceOf (account : Address)
  | tokenOfOwnerByIndex (account : Address) (i : Nat)
  | getTotalSupply
  | totalSupply
  | ownerOf (id : Nat)
  | tokenURI (id : Nat)
  | getListingInfo (id : Nat)
  | listings (id : Nat)
  | getAllListings
  | getApproved (id : Nat)
  | isApprovedForAll (owner operator : Address)
  | estimateGas (id value : Nat)
  | buyNFT (id value gasLimit : Nat)
  | approve (operator : Address) (id : Nat)
  | listing (id price : Nat)
  | wait (hash : String)
  | getBalance (account : Address)
  | getFeeData
  | fetch (url : String)
  | mintNFT (uri : String)
  | cancelListing (id : Nat)
  | pinFileToIPFS (file : String)
  | pinJSONToIPFS (name description imageCID : String)
  | walletRequestPermissions
  | ethRequestAccounts
  | getSigner
  deriving DecidableEq, Repr

/-- What a run does that is visible outside it, in program order. -/
inductive Event where
  | call (c : Call)
  | alert (msg : String)
  | connectWallet
  | refreshListings
  | refreshMyNFTs
  | setLoading (b : Bool)
  | setListings (l : List Listing)
  | setMyNFTs (l : List TokenRecord)
  | setShowListingModal (b : Bool)
  | setSelectedNFT (t : Option TokenRecord)
  | setListingPrice (p : String)
  | setAccount (a : Option Address)
  | setContract (c : Option Address)
  | setProvider (p : Bool)
  | setNftName (n : String)
  | setNftDescription (d : String)
  | setImageFile (f : Option String)
  | setImagePreview (f : Option String)
  | setActiveTab (t : String)
  deriving DecidableEq, Repr

/-- The effect of one state setter on the client state; other events leave it alone. -/
def App.apply (s : App) : Event → App
  | .setLoading b => { s with loading := b }
  | .setListings l => { s with listings := l }
  | .setMyNFTs l => { s with myNFTs := l }
  | .setShowListingModal b => { s with showListingModal := b }
  | .setSelectedNFT t => { s with selectedNFT := t }
  | .setListingPrice p => { s with listingPrice := p }
  | .setAccount a => { s with account := a }
  | .setContract c => { s with contract := c }
  | .setProvider p => { s with provider := p }
  | .setNftName n => { s with nftName := n }
  | .setNftDescription d => { s with nftDescription := d }
  | .setImageFile f => { s with imageFile := f }
  | .setImagePreview f => { s with imagePreview := f }
  | .setActiveTab t => { s with activeTab := t }
  | _ => s

/-- The client state after the setters of a trace have been applied in order. -/
def App.after (s : App) (tr : List Event) : App := tr.foldl App.apply s

/-- A run of asynchronous code: what it returned or threw, and the trace it left. The trace
survives a throw, which is what `try`/`catch`/`finally` need. -/
structure Run (α : Type) where
  result : Except Err α
  trace : List Event

namespace Run

/-- Return a value without any effect. -/
def ret {α : Type} (a : α) : Run α := ⟨.ok a, []⟩

/-- Sequencing: the second part runs only when the first one did not throw. -/
def andThen {α β : Type} (x : Run α) (f : α → Run β) : Run β :=
  match x.result with
  | .ok a => ⟨(f a).result, x.trace ++ (f a).trace⟩
  | .error e => ⟨.error e, x.trace⟩

instance : Monad Run where
  pure := ret
  bind := andThen

/-- The statement `throw e`. -/
def raise {α : Type} (e : Err) : Run α := ⟨.error e, []⟩

/-- Record one event. -/
def emit (ev : Event) : Run Unit := ⟨.ok (), [ev]⟩

/-- Issue a remote call whose outcome is `r`. -/
def call {α : Type} (c : Call) (r : Except Err α) : Run α := ⟨r, [.call c]⟩

/-- An effect-free step that may throw (a library conversion, `response.json()`). -/
def ofExcept {α : Type} (r : Except Err α) : Run α := ⟨r, []⟩

/-- The block `try { x } catch (e) { h e }`. -/
def tryCatch {α : Type} (x : Run α) (h : Err → Run α) : Run α :=
  match x.result with
  | .ok a => ⟨.ok a, x.trace⟩
  | .error e => ⟨(h e).result, x.trace ++ (h e).trace⟩

/-- The block `try { x } finally { fin }` for a `fin` that does not throw. -/
def tryFinally {α : Type} (x : Run α) (fin : Run Unit) : Run α :=
  ⟨x.result, x.trace ++ fin.trace⟩

end Run

open Run

/-! ## `fetchListings`: the listing catalog -/

/-- The metadata placeholder both refresh functions start from. -/
def unknownMetadata : MetaValue := .record "Unknown" "Metadata unavailable" none

/-- The gateway URL for a token URI. -/
def gatewayURL (tokenURI : String) : String :=
  replaceFirst tokenURI "ipfs://" "https://gateway.pinata.cloud/ipfs/"

/-- Lines 443-454: the metadata of a listing, `unknownMetadata` unless the fetch succeeds
with an ok status and a parsable body. -/
def fetchListings.metadata (w : World) (tokenURI : String) : Run MetaValue :=
  tryCatch
    (do
      let response ← call (.fetch (gatewayURL tokenURI)) (w.fetch (gatewayURL tokenURI))
      if response.ok then ofExcept response.json else pure unknownMetadata)
    (fun _ => pure unknownMetadata)

/-- Lines 431-466: the `try` block for one surviving row; `none` is `continue`. -/
def fetchListings.entry (w : World) (listing : RawListing) (tokenId : Nat) :
    Run (Option Listing) :=
  tryCatch
    (do
      let currentOwner ← call (.ownerOf tokenId) (w.contract.ownerOf tokenId)
      if toLowerCase currentOwner ≠ toLowerCase listing.seller then pure none
      else do
        let tokenURI ← call (.tokenURI tokenId) (w.contract.tokenURI tokenId)
        let metadata ← fetchListings.metadata w tokenURI
        pure (some { tokenId := tokenId, seller := listing.seller,
                     price := w.formatEther listing.price, metadata := metadata }))
    (fun _ => pure none)

/-- Line 426: the test that skips an empty or invalid row. -/
def fetchListings.skip (listing : RawListing) : Bool :=
  listing.seller = "" || listing.seller = ZERO_ADDRESS || listing.price = 0

/-- Lines 421-467: the loop over `listingsData`, reading `tokenIds[i]` alongside; a missing
`tokenIds[i]` makes `tokenIds[i].toString()` throw. -/
def fetchListings.loop (w : World) :
    List RawListing → List Nat → List Listing → Run (List Listing)
  | [], _, validListings => pure validListings
  | _ :: _, [], _ => raise typeError
  | listing :: rest, tokenId :: ids, validListings =>
    if fetchListings.skip listing then fetchListings.loop w rest ids validListings
    else do
      let r ← fetchListings.entry w listing tokenId
      match r with
      | some e => fetchListings.loop w rest ids (validListings ++ [e])
      | none => fetchListings.loop w rest ids validListings

/-- Lines 405-479. -/
def fetchListings (s : App) (w : World) : Run Unit :=
  if s.contract.isNone then pure ()
  else do
    emit (.setLoading true)
    tryFinally
      (tryCatch
        (do
          let (listingsData, tokenIds) ← call .getAllListings w.contract.getAllListings
          let validListings ← fetchListings.loop w listingsData tokenIds []
          emit (.setListings validListings))
        (fun error => do
          emit (.alert ("Error fetching listings: " ++ error.message))
          emit (.setListings [])))
      (emit (.setLoading false))

/-! ## `fetchMyNFTs`: the owned-token enumeration -/

/-- A block that pushes onto the local array `tokenIds`: the array as the block left it
(also when it threw part-way) and the run of the block. -/
structure Pushes where
  tokenIds : List Nat
  run : Run Unit

/-- Lines 298-301: `for (let i = 0; i < Number(balance); i++)`, from index `i` with `k`
iterations left, pushing each looked-up id onto `tokenIds`. -/
def fetchMyNFTs.byIndex (c : Contract) (account : Address) : Nat → Nat → List Nat → Pushes
  | _, 0, tokenIds => ⟨tokenIds, pure ()⟩
  | i, k + 1, tokenIds =>
    match c.tokenOfOwnerByIndex account i with
    | .ok tokenId =>
      let r := fetchMyNFTs.byIndex c account (i + 1) k (tokenIds ++ [tokenId])
      ⟨r.tokenIds, ⟨r.run.result, .call (.tokenOfOwnerByIndex account i) :: r.run.trace⟩⟩
    | .error e => ⟨tokenIds, ⟨.error e, [.call (.tokenOfOwnerByIndex account i)]⟩⟩

/-- Lines 294-302: the body of the `try` of method 2, starting from the empty array that a
failed method 1 leaves. -/
def fetchMyNFTs.method2 (c : Contract) (account : Address) : Pushes :=
  match c.balanceOf account with
  | .ok balance =>
    let r := fetchMyNFTs.byIndex c account 0 balance []
    ⟨r.tokenIds, ⟨r.run.result, .call (.balanceOf account) :: r.run.trace⟩⟩
  | .error e => ⟨[], ⟨.error e, [.call (.balanceOf account)]⟩⟩

/-- Lines 313-323: the manual scan from id `tokenId` with `k` ids left; a failing `ownerOf`
is caught and the id skipped. -/
def fetchMyNFTs.scan (c : Contract) (account : Address) : Nat → Nat → List Nat → Run (List Nat)
  | _, 0, tokenIds => pure tokenIds
  | tokenId, k + 1, tokenIds => do
    let pushed ← tryCatch
      (do
        let owner ← call (.ownerOf tokenId) (c.ownerOf tokenId)
        pure (toLowerCase owner == toLowerCase account))
      (fun _ => pure false)
    fetchMyNFTs.scan c account (tokenId + 1) k (if pushed then tokenIds ++ [tokenId] else tokenIds)

/-- Lines 307-328: method 3, run on the array `tokenIds` as method 2 left it. -/
def fetchMyNFTs.method3 (c : Contract) (account : Address) (tokenIds : List Nat) :
    Run (List Nat) :=
  tryCatch
    (do
      let totalSupply ←
        if c.hasGetTotalSupply then call .getTotalSupply c.getTotalSupply
        else call .totalSupply c.totalSupply
      fetchMyNFTs.scan c account 0 totalSupply tokenIds)
    (fun _ => raise { message := "Could not fetch your NFTs. Please check contract implementation." })

/-- Lines 283-330: the value of the local `tokenIds` at line 332. -/
def fetchMyNFTs.tokenIds (c : Contract) (account : Address) : Run (List Nat) :=
  tryCatch (call (.tokensOfOwner account) (c.tokensOfOwner account))
    (fun _ =>
      let m2 := fetchMyNFTs.method2 c account
      match m2.run.result with
      | .ok _ => ⟨.ok m2.tokenIds, m2.run.trace⟩
      | .error _ =>
        let m3 := fetchMyNFTs.method3 c account m2.tokenIds
        ⟨m3.result, m2.run.trace ++ m3.trace⟩)

/-- Lines 345-361: listing status and price text of an owned token. -/
def fetchMyNFTs.listingStatus (w : World) (account : Address) (tokenId : Nat) :
    Run (Bool × String) :=
  tryCatch
    (if w.contract.hasGetListingInfo then do
      let (listed, seller, price) ← call (.getListingInfo tokenId) (w.contract.getListingInfo tokenId)
      let isListed := listed && toLowerCase seller == toLowerCase account
      pure (isListed, if isListed then w.formatEther price else "0")
    else do
      let listing ← call (.listings tokenId) (w.contract.listings tokenId)
      let isListed := toLowerCase listing.seller == toLowerCase account && decide (listing.price > 0)
      pure (isListed, if isListed then w.formatEther listing.price else "0"))
    (fun _ => pure (false, "0"))

/-- Lines 364-377: the metadata of an owned token. -/
def fetchMyNFTs.metadata (w : World) (tokenURI : String) : Run MetaValue :=
  tryCatch
    (do
      let response ← call (.fetch (gatewayURL tokenURI)) (w.fetch (gatewayURL tokenURI))
      if !response.ok then raise { message := "HTTP " ++ toString response.status }
      else ofExcept response.json)
    (fun _ => pure unknownMetadata)

/-- Lines 336-389: the record of one enumerated token. -/
def fetchMyNFTs.record (w : World) (account : Address) (tokenId : Nat) : Run TokenRecord :=
  tryCatch
    (do
      let tokenURI ← call (.tokenURI tokenId) (w.contract.tokenURI tokenId)
      let status ← fetchMyNFTs.listingStatus w account tokenId
      let metadata ← fetchMyNFTs.metadata w tokenURI
      pure { tokenId := tokenId, metadata := metadata, isListed := status.1, listingPrice := status.2 })
    (fun _ => pure { tokenId := tokenId,
                     metadata := .record "Error" "Failed to load NFT data" none,
                     isListed := false, listingPrice := "0" })

/-- Line 335: `Promise.all(tokenIds.map(...))`. The reads of different tokens are independent,
so only the order of the trace depends on how the promises interleave; it is given here
token by token. -/
def fetchMyNFTs.records (w : World) (account : Address) : List Nat → Run (List TokenRecord)
  | [] => pure []
  | tokenId :: rest => do
    let r ← fetchMyNFTs.record w account tokenId
    let rs ← fetchMyNFTs.records w account rest
    pure (r :: rs)

/-- Lines 272-402. -/
def fetchMyNFTs (s : App) (w : World) : Run Unit :=
  match s.contract, s.account with
  | some _, some account => do
    emit (.setLoading true)
    tryFinally
      (tryCatch
        (do
          let tokenIds ← fetchMyNFTs.tokenIds w.contract account
          let nfts ← fetchMyNFTs.records w account tokenIds
          emit (.setMyNFTs nfts))
        (fun error => do
          emit (.alert ("Error fetching your NFTs: " ++ error.message))
          emit (.setMyNFTs [])))
      (emit (.setLoading false))
  | _, _ => pure ()

/-! ## `buyNFT` -/

/-- Lines 535-540: the `catch` of the gas estimation block. -/
def buyNFT.gasCatch (gasError : Err) : Run Unit :=
  if gasError.reason ≠ "" then raise { message := "Transaction would fail: " ++ gasError.reason }
  else pure ()

/-- Lines 528-534: fee data, total cost and the balance test, after a successful estimate.
A `null` gas price makes the `BigInt` product throw. -/
def buyNFT.costCheck (w : World) (priceInWei balance gasEstimate : Nat) : Run Unit := do
  let feeData ← call .getFeeData w.getFeeData
  match feeData with
  | none => raise typeError
  | some gasPrice =>
    let gasCost := gasEstimate * gasPrice
    let totalCost := priceInWei + gasCost
    if balance < totalCost then
      raise { message := "Insufficient balance. Need " ++ w.formatEther totalCost ++ " ETH (including gas)" }
    else pure ()

/-- Lines 525-540: the gas estimation block. -/
def buyNFT.estimation (w : World) (tokenId priceInWei balance : Nat) : Run Unit :=
  tryCatch
    (do
      let gasEstimate ← call (.estimateGas tokenId priceInWei) (w.buyNFTEstimateGas tokenId priceInWei)
      buyNFT.costCheck w priceInWei balance gasEstimate)
    buyNFT.gasCatch

/-- The local `gasEstimate` after the block: assigned exactly when the estimate call returned. -/
def buyNFT.gasEstimate (w : World) (tokenId priceInWei : Nat) : Option Nat :=
  match w.buyNFTEstimateGas tokenId priceInWei with
  | .ok g => some g
  | .error _ => none

/-- Line 555: `gasEstimate ? Math.floor(Number(gasEstimate) * 1.2) : 500000`. The estimate `0n`
is falsy; for the estimates a node returns the floored double product is `6 * g / 5`. -/
def buyNFT.gasLimit : Option Nat → Nat
  | some g => if g = 0 then 500000 else g * 6 / 5
  | none => 500000

/-- Lines 572-590: the message chosen by the `catch` of `buyNFT`. -/
def buyNFT.errorMessage (error : Err) : String :=
  "Purchase failed: " ++
    (if includes error.message "insufficient funds" then "Insufficient funds in your wallet"
    else if includes error.message "user rejected" then "Transaction cancelled by user"
    else if includes error.message "NFT is no longer listed" then
      "This NFT is no longer available for purchase"
    else if includes error.message "Seller no longer owns" then "The seller no longer owns this NFT"
    else if includes error.message "cannot buy your own" then "You cannot purchase your own NFT"
    else if includes error.message "Marketplace is not approved" then
      "The marketplace is not approved to transfer this NFT"
    else if error.code = "INSUFFICIENT_FUNDS" then "Insufficient ETH balance to cover transaction cost"
    else if error.reason ≠ "" then error.reason
    else if error.message ≠ "" then error.message
    else "Unknown error occurred")

/-- Lines 490-567: the `try` block of `buyNFT`. -/
def buyNFT.body (s : App) (w : World) (account : Address) (tokenId : Nat) (price : String) :
    Run Unit := do
  let priceInWei ← ofExcept (w.parseEther price)
  let listing ← call (.listings tokenId) (w.contract.listings tokenId)
  if listing.seller = "" || listing.seller = ZERO_ADDRESS || listing.price = 0 then
    raise { message := "NFT is no longer listed for sale" }
  else do
    let currentOwner ← call (.ownerOf tokenId) (w.contract.ownerOf tokenId)
    if toLowerCase currentOwner ≠ toLowerCase listing.seller then
      raise { message := "Seller no longer owns this NFT" }
    else if toLowerCase account = toLowerCase listing.seller then
      raise { message := "You cannot buy your own NFT" }
    else do
      let balance ←
        if s.provider then call (.getBalance account) (w.getBalance account) else raise typeError
      buyNFT.estimation w tokenId priceInWei balance
      let approved ← call (.getApproved tokenId) (w.contract.getApproved tokenId)
      let isApprovedForAll ← call (.isApprovedForAll listing.seller w.CONTRACT_ADDRESS)
        (w.contract.isApprovedForAll listing.seller w.CONTRACT_ADDRESS)
      if toLowerCase approved ≠ toLowerCase w.CONTRACT_ADDRESS ∧ isApprovedForAll = false then
        raise { message :=
          "Marketplace is not approved to transfer this NFT. Seller needs to approve first." }
      else do
        let gasLimit := buyNFT.gasLimit (buyNFT.gasEstimate w tokenId priceInWei)
        let tx ← call (.buyNFT tokenId priceInWei gasLimit) (w.buyNFT tokenId priceInWei gasLimit)
        let _ ← call (.wait tx.hash) tx.wait
        emit (.alert ("🎉 Successfully purchased NFT #" ++ toString tokenId ++ " for " ++ price ++ " ETH!"))
        emit .refreshListings
        emit .refreshMyNFTs

/-- Lines 482-596. The refresh `Promise.all([fetchListings(), fetchMyNFTs()])` is recorded as
the two refresh events; neither refresh function ever rejects. -/
def buyNFT (s : App) (w : World) (tokenId : Nat) (price : String) : Run Unit :=
  match s.contract, s.account with
  | some _, some account => do
    emit (.setLoading true)
    tryFinally
      (tryCatch (buyNFT.body s w account tokenId price)
        (fun error => emit (.alert (buyNFT.errorMessage error))))
      (emit (.setLoading false))
  | _, _ => do
    emit (.alert "❌ Please connect your wallet first!")
    emit .connectWallet

/-! ## `handleListNFT` -/

/-- Lines 678-694: the message chosen by the `catch` of `handleListNFT`. -/
def handleListNFT.errorMessage (error : Err) : String :=
  "Listing failed: " ++
    (if includes error.message "Already listed" then "This NFT is already listed for sale"
    else if includes error.message "Not the owner" then "You do not own this NFT"
    else if includes error.message "user rejected" then "Transaction cancelled by user"
    else if includes error.message "You no longer own" then "You no longer own this NFT"
    else if includes error.message "already listed" then "This NFT is already listed for sale"
    else if includes error.message "Approval failed" then
      "Failed to approve marketplace - please try again"
    else if error.reason ≠ "" then error.reason
    else if error.message ≠ "" then error.message
    else "Unknown error occurred")

/-- Lines 640-656: the approval step, taken when neither approval is in place. -/
def handleListNFT.approval (w : World) (tokenId : Nat) : Run Unit := do
  emit (.alert "Please approve the marketplace contract in the next transaction to list your NFT.")
  let approveTx ← call (.approve w.CONTRACT_ADDRESS tokenId) (w.approve w.CONTRACT_ADDRESS tokenId)
  let after ← call (.wait approveTx.hash) approveTx.wait
  let newApproval ← call (.getApproved tokenId) (after.getApproved tokenId)
  if toLowerCase newApproval ≠ toLowerCase w.CONTRACT_ADDRESS then
    raise { message := "Approval failed - please try again" }
  else pure ()

/-- Lines 658-673: the listing call, its finality, and the reset of the draft with the
refresh `Promise.all([fetchListings(), fetchMyNFTs()])` recorded as the two refresh events. -/
def handleListNFT.submit (s : App) (w : World) (selectedNFT : TokenRecord) (priceInWei : Nat) :
    Run Unit := do
  let listTx ← call (.listing selectedNFT.tokenId priceInWei) (w.listing selectedNFT.tokenId priceInWei)
  let _ ← call (.wait listTx.hash) listTx.wait
  emit (.alert ("NFT #" ++ toString selectedNFT.tokenId ++ " listed for " ++ s.listingPrice ++ " ETH!"))
  emit (.setShowListingModal false)
  emit (.setSelectedNFT none)
  emit (.setListingPrice "")
  emit .refreshListings
  emit .refreshMyNFTs

/-- Lines 613-673: the `try` block of `handleListNFT`. `account.toLowerCase()` throws when no
account is set. -/
def handleListNFT.body (s : App) (w : World) (selectedNFT : TokenRecord) : Run Unit := do
  let priceInWei ← ofExcept (w.parseEther s.listingPrice)
  let currentOwner ← call (.ownerOf selectedNFT.tokenId) (w.contract.ownerOf selectedNFT.tokenId)
  let account ← (match s.account with
    | some a => pure a
    | none => raise typeError : Run Address)
  if toLowerCase currentOwner ≠ toLowerCase account then
    raise { message := "You no longer own this NFT" }
  else do
    let existingListing ← call (.listings selectedNFT.tokenId) (w.contract.listings selectedNFT.tokenId)
    if existingListing.seller ≠ ZERO_ADDRESS ∧ existingListing.price > 0 then
      raise { message := "This NFT is already listed for sale" }
    else do
      let currentApproval ← call (.getApproved selectedNFT.tokenId)
        (w.contract.getApproved selectedNFT.tokenId)
      let isApprovedForAll ← call (.isApprovedForAll account w.CONTRACT_ADDRESS)
        (w.contract.isApprovedForAll account w.CONTRACT_ADDRESS)
      let _ ← (if toLowerCase currentApproval ≠ toLowerCase w.CONTRACT_ADDRESS ∧
          isApprovedForAll = false then
        handleListNFT.approval w selectedNFT.tokenId
      else pure ())
      handleListNFT.submit s w selectedNFT priceInWei

/-- Lines 606-700. -/
def handleListNFT (s : App) (w : World) : Run Unit :=
  match s.contract, s.selectedNFT with
  | some _, some selectedNFT =>
    if s.listingPrice = "" || w.parseFloatLeZero s.listingPrice then
      emit (.alert "❌ Please enter a valid price greater than 0")
    else do
      emit (.setLoading true)
      tryFinally
        (tryCatch (handleListNFT.body s w selectedNFT)
          (fun error => emit (.alert (handleListNFT.errorMessage error))))
        (emit (.setLoading false))
  | _, _ => emit (.alert "❌ Please enter a valid price greater than 0")

/-! ## `handleMint` and the uploads -/

/-- A content identifier as JavaScript tests it with `!cid`: absent or empty is falsy. -/
def truthyCID : Option String → Option String
  | some cid => if cid = "" then none else some cid
  | none => none

/-- Lines 197-219: `uploadToIPFS`. It sets the busy flag itself and clears it in its own
`finally`; any failure of the request yields `null`. -/
def uploadToIPFS (w : World) (file : Option String) : Run (Option String) :=
  match file with
  | none => pure none
  | some f =>
    tryFinally
      (tryCatch
        (do
          emit (.setLoading true)
          call (.pinFileToIPFS f) (w.pinFileToIPFS f))
        (fun _ => pure none))
      (emit (.setLoading false))

/-- Lines 222-242: `pinJSONToIPFS`; any failure of the request yields `null`. -/
def pinJSONToIPFS (w : World) (name description imageCID : String) : Run (Option String) :=
  tryCatch
    (call (.pinJSONToIPFS name description imageCID) (w.pinJSONToIPFS name description imageCID))
    (fun _ => pure none)

/-- Lines 255-263: the mint call, its finality, the reset of the form, and the refresh
`fetchMyNFTs()`, which is started and not awaited. -/
def handleMint.submit (w : World) (metadataCID : String) : Run Unit := do
  let tx ← call (.mintNFT ("https://gateway.pinata.cloud/ipfs/" ++ metadataCID))
    (w.mintNFT ("https://gateway.pinata.cloud/ipfs/" ++ metadataCID))
  let _ ← call (.wait tx.hash) tx.wait
  emit (.alert "NFT minted successfully!")
  emit (.setNftName "")
  emit (.setNftDescription "")
  emit (.setImageFile none)
  emit (.setImagePreview none)
  emit .refreshMyNFTs

/-- Lines 250-263: the `try` block of `handleMint`; `return alert(...)` leaves it normally. -/
def handleMint.body (s : App) (w : World) : Run Unit := do
  emit (.setLoading true)
  let imageCID ← uploadToIPFS w s.imageFile
  match truthyCID imageCID with
  | none => emit (.alert "Image upload failed.")
  | some imageCID => do
    let metadataCID ← pinJSONToIPFS w s.nftName s.nftDescription imageCID
    match truthyCID metadataCID with
    | none => emit (.alert "Metadata upload failed.")
    | some metadataCID => handleMint.submit w metadataCID

/-- Lines 245-269. -/
def handleMint (s : App) (w : World) : Run Unit :=
  if s.contract.isNone then emit (.alert "Contract not connected.")
  else if s.nftName = "" || s.nftDescription = "" || s.imageFile.isNone then
    emit (.alert "Fill all fields.")
  else
    tryFinally
      (tryCatch (handleMint.body s w)
        (fun error => emit (.alert ("Minting failed: " ++ error.message))))
      (emit (.setLoading false))

/-! ## `cancelListing` -/

/-- Lines 709-719: the `try` block of `cancelListing`, the refresh
`Promise.all([fetchListings(), fetchMyNFTs()])` recorded as the two refresh events. -/
def cancelListing.body (w : World) (tokenId : Nat) : Run Unit := do
  emit (.setLoading true)
  let tx ← call (.cancelListing tokenId) (w.cancelListing tokenId)
  let _ ← call (.wait tx.hash) tx.wait
  emit (.alert "Listing cancelled successfully!")
  emit .refreshListings
  emit .refreshMyNFTs

/-- Lines 703-726. -/
def cancelListing (s : App) (w : World) (tokenId : Nat) : Run Unit :=
  match s.contract, s.account with
  | some _, some _ =>
    tryFinally
      (tryCatch (cancelListing.body w tokenId)
        (fun error => emit (.alert ("Cancel failed: " ++
          (if error.reason ≠ "" then error.reason else error.message)))))
      (emit (.setLoading false))
  | _, _ => emit (.alert "Please connect your wallet first!")

/-! ## `disconnectWallet` -/

/-- Lines 135-153 (and again 164-176): the setters that clear the client state. -/
def disconnectWallet.clear : Run Unit := do
  emit (.setAccount none)
  emit (.setContract none)
  emit (.setProvider false)
  emit (.setMyNFTs [])
  emit (.setListings [])
  emit (.setShowListingModal false)
  emit (.setSelectedNFT none)
  emit (.setListingPrice "")
  emit (.setNftName "")
  emit (.setNftDescription "")
  emit (.setImageFile none)
  emit (.setImagePreview none)
  emit (.setActiveTab "mint")

/-- Lines 110-132: the attempts to revoke the wallet session; each failure is caught. -/
def disconnectWallet.revoke (w : World) : Run Unit :=
  if w.hasEthereum then
    tryCatch (call .walletRequestPermissions w.walletRequestPermissions)
      (fun _ => tryCatch (call .ethRequestAccounts w.ethRequestAccounts) (fun _ => pure ()))
  else pure ()

/-- The notice shown after a disconnect (line 158). -/
def disconnectWallet.notice : String :=
  "🔓 App disconnected! To fully disconnect from MetaMask, please:\n\n1. Open MetaMask extension\n2. Click on 'Connected' tab\n3. Click 'Disconnect' next to this site\n\nOr refresh the page to reset connection."

/-- Lines 107-181. -/
def disconnectWallet (w : World) : Run Unit :=
  tryCatch
    (do
      disconnectWallet.revoke w
      disconnectWallet.clear
      emit (.alert disconnectWallet.notice))
    (fun _ => do
      disconnectWallet.clear
      emit (.alert "🔓 App disconnected! To fully disconnect from MetaMask, please manually disconnect from the MetaMask extension."))

/-! ## `handleAccountsChanged` -/

/-- Lines 740-755: the listener of the wallet event `accountsChanged`. It reads the `contract`
and the `provider` of the render that registered it. With a non-empty list it rebinds the
account and, when a contract and a provider are present, the contract to the signer the
provider returns; with an empty list it calls five setters. -/
def handleAccountsChanged (s : App) (w : World) (accounts : List Address) : Run Unit :=
  match accounts with
  | first :: _ => do
    emit (.setAccount (some first))
    if s.contract.isSome && s.provider then do
      let signer ← call .getSigner w.getSigner
      emit (.setContract (some signer))
    else pure ()
  | [] => do
    emit (.setAccount none)
    emit (.setContract none)
    emit (.setProvider false)
    emit (.setMyNFTs [])
    emit (.setListings [])

/-! ## Vocabulary of the statements -/

/-- Every event of the trace is a remote call. -/
def onlyCalls (tr : List Event) : Prop := ∀ ev ∈ tr, ∃ c, ev = Event.call c

/-- The read `ownerOf(id)` succeeds and names `a`, compared as the code compares addresses. -/
def ownedBy (c : Contract) (id : Nat) (a : Address) : Bool :=
  match c.ownerOf id with
  | .ok owner => toLowerCase owner == toLowerCase a
  | .error _ => false

/-- The row of the catalog that the specification keeps for a raw row and its token id:
seller not the zero address, price not zero, `ownerOf` naming the seller. -/
def catalogRow (w : World) (p : RawListing × Nat) : Option (Nat × Address × String) :=
  if p.1.seller ≠ ZERO_ADDRESS ∧ p.1.price ≠ 0 ∧ ownedBy w.contract p.2 p.1.seller = true then
    some (p.2, p.1.seller, w.formatEther p.1.price)
  else none

/-- The displayed part of a catalog entry: token id, seller, price text. -/
def Listing.row (e : Listing) : Nat × Address × String := (e.tokenId, e.seller, e.price)


/-- The total-supply read of the manual scan: `getTotalSupply()` when the contract has it,
`totalSupply()` otherwise. -/
def totalSupplyRead (c : Contract) : Except Err Nat :=
  if c.hasGetTotalSupply then c.getTotalSupply else c.totalSupply

/-- An event of the manual scan: a total-supply read or an `ownerOf` read. -/
def Event.isManualScanRead : Event → Bool
  | .call .getTotalSupply => true
  | .call .totalSupply => true
  | .call (.ownerOf _) => true
  | _ => false

/-- All three enumeration strategies fail for the account: `tokensOfOwner` fails, the
balance read or an indexed lookup below the balance fails, and the total-supply read fails. -/
def allStrategiesFail (c : Contract) (account : Address) : Prop :=
  (∃ e, c.tokensOfOwner account = .error e) ∧
  ((∃ e, c.balanceOf account = .error e) ∨
    ∃ n i e, c.balanceOf account = .ok n ∧ i < n ∧ c.tokenOfOwnerByIndex account i = .error e) ∧
  (∃ e, totalSupplyRead c = .error e)

/-- The record that `fetchMyNFTs` stores for a token whose processing threw. -/
def degradedRecord (tokenId : Nat) : TokenRecord :=
  { tokenId := tokenId, metadata := .record "Error" "Failed to load NFT data" none,
    isListed := false, listingPrice := "0" }

/-- What the contract said about a token that `fetchMyNFTs` marks as listed at the price text
`listingPrice`: through `getListingInfo`, that it is listed and sold by the account; through
the raw `listings` read, a row of the account with a positive price. -/
def listingEvidence (w : World) (account : Address) (id : Nat) (listingPrice : String) : Prop :=
  (w.contract.hasGetListingInfo = true ∧
    ∃ seller price, w.contract.getListingInfo id = .ok (true, seller, price) ∧
      toLowerCase seller = toLowerCase account ∧ listingPrice = w.formatEther price) ∨
  (w.contract.hasGetListingInfo = false ∧
    ∃ l, w.contract.listings id = .ok l ∧ toLowerCase l.seller = toLowerCase account ∧
      0 < l.price ∧ listingPrice = w.formatEther l.price)

/-- The value is a metadata record: a document with name, description and image reference. -/
def MetaValue.isRecord : MetaValue → Bool
  | .record _ _ _ => true
  | .other _ => false

/-- The busy flag at the moment the event `ev` is first recorded in the trace `tr` of a run
started in state `s`. -/
def loadingBefore (s : App) (tr : List Event) (ev : Event) : Bool :=
  (s.after (tr.takeWhile (· != ev))).loading

/-- Line 810: the submit button of the mint form is `disabled={loading || !account}`. -/
def mintButtonDisabled (s : App) : Bool := s.loading || s.account.isNone

/-- Lines 878 and 957: the cancel buttons are `disabled={loading}`. -/
def cancelButtonDisabled (s : App) : Bool := s.loading

/-- Line 887: the buy button is `disabled={loading}`. -/
def buyButtonDisabled (s : App) : Bool := s.loading

/-- Line 1029: the list button of the modal is
`disabled={loading || !listingPrice || parseFloat(listingPrice) <= 0}`. -/
def listButtonDisabled (s : App) (w : World) : Bool :=
  s.loading || s.listingPrice = "" || w.parseFloatLeZero s.listingPrice

/-- The session state of the specification: account, contract handle, provider, owned-token
collection, listings collection, pending-operation flag and the selected listing draft
(selected token, proposed price, open-modal flag). -/
structure Session where
  account : Option Address
  contract : Option Address
  provider : Bool
  myNFTs : List TokenRecord
  listings : List Listing
  loading : Bool
  selectedNFT : Option TokenRecord
  listingPrice : String
  showListingModal : Bool
  deriving DecidableEq, Repr

/-- The session state held in a client state. -/
def App.session (s : App) : Session :=
  { account := s.account, contract := s.contract, provider := s.provider, myNFTs := s.myNFTs,
    listings := s.listings, loading := s.loading, selectedNFT := s.selectedNFT,
    listingPrice := s.listingPrice, showListingModal := s.showListingModal }

/-- The specification of `onAccountsChanged` for an empty account list, "acts as disconnect":
the session state that `disconnectWallet` produces from the same starting state. -/
def onAccountsChangedEmpty_spec (s : App) (w : World) : Session :=
  (s.after (disconnectWallet w).trace).session

/-! ## Concrete worlds for the scenarios -/

namespace Sample

/-- The `k` low decimal digits of `n`, most significant first. -/
def digits : Nat → Nat → List Char
  | 0, _ => []
  | k + 1, n => digits k (n / 10) ++ [Char.ofNat (48 + n % 10)]

/-- Drop trailing zeros of a fraction, keeping one digit. -/
def trimFraction (ds : List Char) : List Char :=
  match (ds.reverse.dropWhile (· == '0')).reverse with
  | [] => ['0']
  | r => r

/-- Decimal ether text of an amount of wei, as `ethers.formatEther` prints it: the whole
part, a point, and the fraction without trailing zeros (`"2.0"`, `"1.5"`). -/
def formatEther (wei : Nat) : String :=
  ⟨(Nat.repr (wei / 10 ^ 18)).data ++ ['.'] ++ trimFraction (digits 18 (wei % 10 ^ 18))⟩

/-- Value of a string of decimal digits, the empty string counting as zero. -/
def readDigits (cs : List Char) : Option Nat :=
  cs.foldl (fun acc c => acc.bind fun n => if c.isDigit then some (10 * n + (c.toNat - 48)) else none)
    (some 0)

/-- Amount of wei for a non-negative decimal ether text, as `ethers.parseEther` reads it:
digits, optionally a point and more digits, at least one digit in all and at most 18 after
the point; other texts are rejected. -/
def parseEther (s : String) : Except Err Nat :=
  let whole := s.data.takeWhile (· != '.')
  let frac := (s.data.dropWhile (· != '.')).drop 1
  match readDigits whole, readDigits frac with
  | some n, some f =>
    if whole.length + frac.length = 0 then
      .error { message := "invalid FixedNumber string value", code := "INVALID_ARGUMENT" }
    else if frac.length ≤ 18 then .ok (n * 10 ^ 18 + f * 10 ^ (18 - frac.length))
    else .error { message := "too many decimals for format", code := "NUMERIC_FAULT" }
  | _, _ => .error { message := "invalid FixedNumber string value", code := "INVALID_ARGUMENT" }

/-- The test `parseFloat(s) <= 0` on plain decimal texts: a text that is not a number is
`NaN`, which is not below zero. -/
def parseFloatLeZero (s : String) : Bool :=
  match s.data with
  | '-' :: rest =>
    match parseEther ⟨rest⟩ with
    | .ok _ => true
    | .error _ => false
  | _ =>
    match parseEther s with
    | .ok n => n == 0
    | .error _ => false

/-- An error of a capability that the contract does not have. -/
def missing : Err := { message := "contract.method is not a function" }

/-- The revert of a read on a token that does not exist. -/
def reverted : Err :=
  { message := "execution reverted: ERC721: invalid token ID", reason := "ERC721: invalid token ID",
    code := "CALL_EXCEPTION" }

/-- An account, in mixed case as wallets report addresses. -/
def alice : Address := "0xAAaAaAaaAaAaAaaAaAAAAAAAAaaaAaAaAaaAaaAa"

/-- A second account. -/
def bob : Address := "0xbBbBBBBbbBBBbbbBbbBbbbbBBbBbbbbBbBbbBBbB"

/-- A third account. -/
def carol : Address := "0xCcCCccccCCCCcCCCCCCcCcCccCcCCCcCcccccccC"

/-- The address of the marketplace contract. -/
def market : Address := "0x5FbDB2315678afecb367f032d93F642f64180aa3"

/-- A contract without enumeration capability and without tokens: the token reads revert, the
listing table is empty and no approval is set. -/
def noContract : Contract where
  tokensOfOwner := fun _ => .error missing
  balanceOf := fun _ => .error missing
  tokenOfOwnerByIndex := fun _ _ => .error missing
  hasGetTotalSupply := false
  getTotalSupply := .error missing
  totalSupply := .error missing
  ownerOf := fun _ => .error reverted
  tokenURI := fun _ => .error reverted
  hasGetListingInfo := false
  getListingInfo := fun _ => .error missing
  listings := fun _ => .ok ⟨ZERO_ADDRESS, 0⟩
  getAllListings := .ok ([], [])
  getApproved := fun _ => .ok ZERO_ADDRESS
  isApprovedForAll := fun _ _ => .ok false

/-- A world around a contract in which the user rejects every transaction and wallet request,
the node refuses to simulate, and the gateway and the pinning service are down. -/
def worldOf (c : Contract) : World where
  CONTRACT_ADDRESS := market
  contract := c
  approve := fun _ _ => .error { message := "user rejected action", code := "ACTION_REJECTED" }
  listing := fun _ _ => .error { message := "user rejected action", code := "ACTION_REJECTED" }
  buyNFT := fun _ _ _ => .error { message := "user rejected action", code := "ACTION_REJECTED" }
  buyNFTEstimateGas := fun _ _ => .error { message := "missing revert data", code := "CALL_EXCEPTION" }
  getBalance := fun _ => .ok 0
  getFeeData := .ok (some 1000000000)
  fetch := fun _ => .error { message := "Failed to fetch" }
  parseEther := parseEther
  formatEther := formatEther
  parseFloatLeZero := parseFloatLeZero
  mintNFT := fun _ => .error { message := "user rejected action", code := "ACTION_REJECTED" }
  cancelListing := fun _ => .error { message := "user rejected action", code := "ACTION_REJECTED" }
  pinFileToIPFS := fun _ => .error { message := "Network Error" }
  pinJSONToIPFS := fun _ _ _ => .error { message := "Failed to fetch" }
  hasEthereum := true
  walletRequestPermissions := .error { message := "User rejected the request.", code := "4001" }
  ethRequestAccounts := .error { message := "User rejected the request.", code := "4001" }
  getSigner := .error { message := "User rejected the request.", code := "4001" }

/-- A client connected as `a`. -/
def connected (a : Address) : App := { account := some a, contract := some a, provider := true }

/-- Scenario S5: a tombstoned slot for token 3 (held by `bob`) and a listing of token 9 by its
owner `alice`. -/
def catalogS5 : Contract :=
  { noContract with
    getAllListings := .ok ([⟨ZERO_ADDRESS, 0⟩, ⟨alice, 2 * 10 ^ 18⟩], [3, 9])
    ownerOf := fun id => if id = 9 then .ok alice else if id = 3 then .ok bob else .error reverted
    tokenURI := fun id => if id = 9 ∨ id = 3 then .ok "ipfs://QmToken" else .error reverted }

/-- A table with a stale row: token 4 is still listed by `bob` but now belongs to `carol`;
token 9 is listed by `alice`, whom `ownerOf` reports in lower case. -/
def catalogStale : Contract :=
  { noContract with
    getAllListings := .ok ([⟨alice, 2 * 10 ^ 18⟩, ⟨bob, 10 ^ 18⟩], [9, 4])
    ownerOf := fun id =>
      if id = 9 then .ok "0xaaaaaaaaaaaaaaaaaaaaaaaaaaaaaaaaaaaaaaaa"
      else if id = 4 then .ok carol else .error reverted
    tokenURI := fun id => if id = 9 ∨ id = 4 then .ok "ipfs://QmToken" else .error reverted }

/-- Token 9 is owned and listed by `alice` for 1.5 ether; the marketplace holds the
token-specific approval when `approved` is set. -/
def saleOf9 (approved : Bool) : Contract :=
  { noContract with
    listings := fun id => if id = 9 then .ok ⟨alice, 15 * 10 ^ 17⟩ else .ok ⟨ZERO_ADDRESS, 0⟩
    ownerOf := fun id => if id = 9 then .ok alice else .error reverted
    getApproved := fun id => if id = 9 ∧ approved then .ok market else .ok ZERO_ADDRESS }

/-- Scenario S3: the buyer holds 1.2 ether, the listing costs 1.5 ether, the node estimates
100000 gas at a gas price of 1 gwei, and the wallet answers a submitted purchase with its
insufficient-funds error. -/
def buyS3 : World :=
  { worldOf (saleOf9 true) with
    getBalance := fun _ => .ok (12 * 10 ^ 17)
    buyNFTEstimateGas := fun _ _ => .ok 100000
    getFeeData := .ok (some 1000000000)
    buyNFT := fun _ _ _ => .error
      { message := "insufficient funds for intrinsic transaction cost",
        code := "INSUFFICIENT_FUNDS" } }

/-- The marketplace is not approved for token 9 and the node reports the revert of the
simulated purchase with its reason. -/
def buyUnapproved : World :=
  { worldOf (saleOf9 false) with
    getBalance := fun _ => .ok (2 * 10 ^ 18)
    buyNFTEstimateGas := fun _ _ => .error
      { message := "execution reverted: ERC721: caller is not token owner or approved",
        reason := "ERC721: caller is not token owner or approved", code := "CALL_EXCEPTION" } }

/-- The marketplace is not approved for token 9 and the node refuses to simulate. -/
def buyUnapprovedNoEstimate : World :=
  { worldOf (saleOf9 false) with getBalance := fun _ => .ok (2 * 10 ^ 18) }

/-- A client connected as `a` with the listing modal open on token `id` and the proposed
price `price`. -/
def draft (a : Address) (id : Nat) (price : String) : App :=
  { connected a with
    showListingModal := true
    selectedNFT := some ⟨id, unknownMetadata, false, "0"⟩
    listingPrice := price }

/-- Token 5 is owned by `alice`, not listed, and the marketplace has no approval for it. -/
def unlisted5 : Contract :=
  { noContract with ownerOf := fun id => if id = 5 then .ok alice else .error reverted }

/-- The contract `unlisted5` once the marketplace holds the approval for token 5. -/
def approved5 : Contract :=
  { unlisted5 with getApproved := fun id => if id = 5 then .ok market else .ok ZERO_ADDRESS }

/-- The wallet signs both transactions and the approval takes effect. -/
def listWorld : World :=
  { worldOf unlisted5 with
    approve := fun _ _ => .ok ⟨"0xa01", .ok approved5⟩
    listing := fun _ _ => .ok ⟨"0xc01", .ok approved5⟩ }

/-- The wallet signs the approval but the approval read afterwards is still empty. -/
def listWorldNoEffect : World :=
  { worldOf unlisted5 with
    approve := fun _ _ => .ok ⟨"0xa01", .ok unlisted5⟩
    listing := fun _ _ => .ok ⟨"0xc01", .ok unlisted5⟩ }

/-- The owners of scenario S2: tokens 0, 2 and 4 belong to `alice`, tokens 1 and 3 to `bob`. -/
def ownersS2 (id : Nat) : Except Err Address :=
  if id = 0 ∨ id = 2 ∨ id = 4 then .ok alice
  else if id = 1 ∨ id = 3 then .ok bob else .error reverted

/-- Scenario S2: neither `tokensOfOwner` nor the indexed lookup is available, the total
supply is 5. -/
def enumS2 : Contract :=
  { noContract with totalSupply := .ok 5, ownerOf := ownersS2 }

/-- Scenario S1: `tokensOfOwner` is absent, the balance of `alice` is 2 and the indexed
lookups return 7 and 19. -/
def enumS1 : Contract :=
  { noContract with
    balanceOf := fun _ => .ok 2
    tokenOfOwnerByIndex := fun _ i => if i = 0 then .ok 7 else if i = 1 then .ok 19 else .error reverted
    totalSupply := .ok 20
    ownerOf := fun id => if id = 7 ∨ id = 19 then .ok alice else .ok bob }

/-- The contract of scenario S2 with the indexed enumeration present, on a node that answers
the balance read and the first lookup and then times out: `alice` holds 3 tokens, the lookup
at index 0 returns token 0, the lookup at index 1 fails. -/
def enumInterrupted : Contract :=
  { enumS2 with
    balanceOf := fun _ => .ok 3
    tokenOfOwnerByIndex := fun _ i =>
      if i = 0 then .ok 0 else .error { message := "request timeout", code := "TIMEOUT" } }

/-- A contract whose `tokensOfOwner` lists for `alice` token 7, which `ownerOf` gives to `bob`
(a list of the tokens an account minted, say). -/
def enumOfMinter : Contract :=
  { noContract with
    tokensOfOwner := fun _ => .ok [7]
    ownerOf := fun id => if id = 7 then .ok bob else .error reverted
    tokenURI := fun _ => .ok "ipfs://QmSeven" }

/-- `alice` holds tokens 7 and 8; the content-URI read of token 7 reverts. -/
def enumMixed : Contract :=
  { noContract with
    tokensOfOwner := fun _ => .ok [7, 8]
    ownerOf := fun id => if id = 7 ∨ id = 8 then .ok alice else .error reverted
    tokenURI := fun id => if id = 8 then .ok "ipfs://QmEight" else .error reverted }

/-- The sale of token 9 as `alice` sees it in the owned collection: the contract has no
`getListingInfo`, so the raw `listings` row is read. -/
def ownedSale9 : Contract :=
  { saleOf9 true with
    tokensOfOwner := fun _ => .ok [9]
    tokenURI := fun _ => .ok "ipfs://QmNine" }

/-- A contract whose `getListingInfo` reports token 7 as listed by `alice` at price zero. -/
def listedAtZero : Contract :=
  { noContract with
    tokensOfOwner := fun _ => .ok [7]
    ownerOf := fun id => if id = 7 then .ok alice else .error reverted
    tokenURI := fun _ => .ok "ipfs://QmSeven"
    hasGetListingInfo := true
    getListingInfo := fun id => if id = 7 then .ok (true, alice, 0) else .ok (false, ZERO_ADDRESS, 0) }

/-- A gateway that answers every request with status 200 and the JSON body `null`. -/
def nullGateway (c : Contract) : World :=
  { worldOf c with fetch := fun _ => .ok ⟨true, 200, .ok (.other "null")⟩ }

/-- A client connected as `alice` with the mint form filled in. -/
def minting : App :=
  { connected alice with nftName := "Art", nftDescription := "A picture", imageFile := some "art.png" }

/-- The pinning service stores both uploads and the wallet signs the mint transaction. -/
def mintWorld : World :=
  { worldOf noContract with
    pinFileToIPFS := fun _ => .ok (some "QmImage")
    pinJSONToIPFS := fun _ _ _ => .ok (some "QmMeta")
    mintNFT := fun _ => .ok ⟨"0xd01", .ok noContract⟩ }

/-- The wallet signs the cancellation of a listing. -/
def cancelWorld : World :=
  { worldOf (saleOf9 true) with cancelListing := fun _ => .ok ⟨"0xe01", .ok noContract⟩ }

/-- A client connected as `alice` while a mutation workflow is in flight: the busy flag is
set. -/
def busy : App := { connected alice with loading := true }

/-- Token 9 after `alice` has raised its price from 1.5 to 2 ether; the marketplace is
approved. -/
def repriced9 : Contract :=
  { saleOf9 true with
    listings := fun id => if id = 9 then .ok ⟨alice, 2 * 10 ^ 18⟩ else .ok ⟨ZERO_ADDRESS, 0⟩ }

/-- The marketplace is approved for token 9, the buyer holds 2 ether and the node refuses to
simulate, its error carrying no reason. -/
def buyNoEstimate : World :=
  { worldOf (saleOf9 true) with getBalance := fun _ => .ok (2 * 10 ^ 18) }

/-- The marketplace is approved for token 9, the buyer holds 2 ether and the simulated
purchase reverts with a reason. -/
def buyRevertingEstimate : World :=
  { worldOf (saleOf9 true) with
    getBalance := fun _ => .ok (2 * 10 ^ 18)
    buyNFTEstimateGas := fun _ _ => .error
      { message := "execution reverted: Marketplace: sale is paused",
        reason := "Marketplace: sale is paused", code := "CALL_EXCEPTION" } }

end Sample

/-! # Theorems -/

/-! ## The run combinators

`do` blocks unfold to `Run.andThen`; the trace of a composed run and its result are described
piece by piece. -/

@[simp] theorem Run.pure_eq {α : Type} (a : α) : (pure a : Run α) = Run.ret a := rfl

@[simp] theorem Run.bind_eq {α β : Type} (x : Run α) (f : α → Run β) :
    (x >>= f) = Run.andThen x f := rfl

namespace Run

theorem mem_trace_andThen {α β : Type} (x : Run α) (f : α → Run β) (ev : Event) :
    ev ∈ (andThen x f).trace ↔ ev ∈ x.trace ∨ ∃ a, x.result = .ok a ∧ ev ∈ (f a).trace := by
  unfold andThen
  cases h : x.result with
  | ok a => simp
  | error e => simp

theorem result_andThen_ok {α β : Type} (x : Run α) (f : α → Run β) (b : β) :
    (andThen x f).result = .ok b ↔ ∃ a, x.result = .ok a ∧ (f a).result = .ok b := by
  unfold andThen
  cases h : x.result with
  | ok a => simp
  | error e => simp

theorem result_andThen_error {α β : Type} (x : Run α) (f : α → Run β) (e : Err) :
    (andThen x f).result = .error e ↔
      x.result = .error e ∨ ∃ a, x.result = .ok a ∧ (f a).result = .error e := by
  unfold andThen
  cases h : x.result with
  | ok a => simp
  | error e => simp

theorem mem_trace_tryCatch {α : Type} (x : Run α) (h : Err → Run α) (ev : Event) :
    ev ∈ (tryCatch x h).trace ↔ ev ∈ x.trace ∨ ∃ e, x.result = .error e ∧ ev ∈ (h e).trace := by
  unfold tryCatch
  cases hx : x.result with
  | ok a => simp
  | error e => simp

theorem result_tryCatch_ok {α : Type} (x : Run α) (h : Err → Run α) (a : α) :
    (tryCatch x h).result = .ok a ↔
      x.result = .ok a ∨ ∃ e, x.result = .error e ∧ (h e).result = .ok a := by
  unfold tryCatch
  cases hx : x.result with
  | ok a => simp
  | error e => simp

theorem result_tryCatch_error {α : Type} (x : Run α) (h : Err → Run α) (e : Err) :
    (tryCatch x h).result = .error e ↔ ∃ e', x.result = .error e' ∧ (h e').result = .error e := by
  unfold tryCatch
  cases hx : x.result with
  | ok a => simp
  | error e => simp

theorem tryCatch_result_of_ok {α : Type} {x : Run α} {a : α} (h : Err → Run α)
    (hx : x.result = .ok a) : (tryCatch x h).result = .ok a := by
  simp [tryCatch, hx]

theorem tryCatch_result_of_error {α : Type} {x : Run α} {e : Err} (h : Err → Run α)
    (hx : x.result = .error e) : (tryCatch x h).result = (h e).result := by
  simp [tryCatch, hx]

theorem mem_trace_tryFinally {α : Type} (x : Run α) (fin : Run Unit) (ev : Event) :
    ev ∈ (tryFinally x fin).trace ↔ ev ∈ x.trace ∨ ev ∈ fin.trace := by
  simp [tryFinally]

@[simp] theorem mem_trace_call {α : Type} (c : Call) (r : Except Err α) (ev : Event) :
    ev ∈ (call c r).trace ↔ ev = .call c := by simp [call]

@[simp] theorem result_call {α : Type} (c : Call) (r : Except Err α) : (call c r).result = r := rfl

@[simp] theorem mem_trace_emit (e ev : Event) : ev ∈ (emit e).trace ↔ ev = e := by simp [emit]

@[simp] theorem result_emit (e : Event) : (emit e).result = .ok () := rfl

@[simp] theorem trace_raise {α : Type} (e : Err) : (raise e : Run α).trace = [] := rfl

@[simp] theorem result_raise {α : Type} (e : Err) : (raise e : Run α).result = .error e := rfl

@[simp] theorem trace_ret {α : Type} (a : α) : (ret a).trace = [] := rfl

@[simp] theorem result_ret {α : Type} (a : α) : (ret a).result = .ok a := rfl

@[simp] theorem trace_ofExcept {α : Type} (r : Except Err α) : (ofExcept r).trace = [] := rfl

@[simp] theorem result_ofExcept {α : Type} (r : Except Err α) : (ofExcept r).result = r := rfl

end Run

/-! ## Traces that consist of remote calls -/


theorem onlyCalls_nil : onlyCalls [] := by intro ev h; simp at h

theorem onlyCalls_append {a b : List Event} (ha : onlyCalls a) (hb : onlyCalls b) :
    onlyCalls (a ++ b) := by
  intro ev h
  rcases List.mem_append.mp h with h | h
  · exact ha ev h
  · exact hb ev h

theorem onlyCalls_call {α : Type} (c : Call) (r : Except Err α) :
    onlyCalls (Run.call c r).trace := by
  intro ev h; simp [Run.call] at h; exact ⟨c, h⟩

theorem onlyCalls_single (c : Call) : onlyCalls [Event.call c] := by
  intro ev h; simp at h; exact ⟨c, h⟩

theorem onlyCalls_andThen {α β : Type} (x : Run α) (f : α → Run β) (hx : onlyCalls x.trace)
    (hf : ∀ a, onlyCalls (f a).trace) : onlyCalls (Run.andThen x f).trace := by
  unfold Run.andThen
  split
  · exact onlyCalls_append hx (hf _)
  · exact hx

theorem onlyCalls_tryCatch {α : Type} (x : Run α) (h : Err → Run α) (hx : onlyCalls x.trace)
    (hh : ∀ e, onlyCalls (h e).trace) : onlyCalls (Run.tryCatch x h).trace := by
  unfold Run.tryCatch
  split
  · exact hx
  · exact onlyCalls_append hx (hh _)

/-! ## `fetchListings` -/

theorem metadata_onlyCalls (w : World) (u : String) : onlyCalls (fetchListings.metadata w u).trace := by
  unfold fetchListings.metadata
  apply onlyCalls_tryCatch
  · simp only [Run.bind_eq]
    apply onlyCalls_andThen
    · exact onlyCalls_call _ _
    · intro a; split
      · simp [Run.ofExcept, onlyCalls_nil]
      · simp [Run.ret, onlyCalls_nil]
  · intro e; simp [Run.ret, onlyCalls_nil]

/-- Metadata resolution in the catalog build always yields a value. -/
theorem metadata_total (w : World) (u : String) :
    ∃ m, (fetchListings.metadata w u).result = .ok m := by
  unfold fetchListings.metadata
  simp only [Run.bind_eq, Run.pure_eq, Run.tryCatch, Run.andThen, Run.call, Run.ofExcept, Run.ret]
  cases h : w.fetch (gatewayURL u) with
  | error e => exact ⟨_, rfl⟩
  | ok r =>
    by_cases hok : r.ok = true
    · simp only [hok, if_true]
      cases hj : r.json with
      | error e => exact ⟨_, rfl⟩
      | ok m => exact ⟨_, rfl⟩
    · simp only [hok]
      exact ⟨_, rfl⟩

theorem entry_onlyCalls (w : World) (l : RawListing) (t : Nat) :
    onlyCalls (fetchListings.entry w l t).trace := by
  unfold fetchListings.entry
  apply onlyCalls_tryCatch
  · simp only [Run.bind_eq]
    apply onlyCalls_andThen
    · exact onlyCalls_call _ _
    · intro a; split
      · simp [Run.ret, onlyCalls_nil]
      · apply onlyCalls_andThen
        · exact onlyCalls_call _ _
        · intro u
          apply onlyCalls_andThen
          · exact metadata_onlyCalls _ _
          · intro m; simp [Run.ret, onlyCalls_nil]
  · intro e; simp [Run.ret, onlyCalls_nil]

theorem loop_onlyCalls (w : World) (ls : List RawListing) :
    ∀ (ts : List Nat) (acc : List Listing), onlyCalls (fetchListings.loop w ls ts acc).trace := by
  induction ls with
  | nil => intro ts acc; simp [fetchListings.loop, Run.ret, onlyCalls_nil]
  | cons l rest ih =>
    intro ts acc
    cases ts with
    | nil => simp [fetchListings.loop, Run.raise, onlyCalls_nil]
    | cons t ids =>
      unfold fetchListings.loop
      split
      · exact ih _ _
      · simp only [Run.bind_eq]
        apply onlyCalls_andThen
        · exact entry_onlyCalls _ _ _
        · intro r
          cases r with
          | none => exact ih _ _
          | some e => exact ih _ _

/-- What `fetchListings.entry` returns: never an error, and an entry only for a row whose
seller is the owner that `ownerOf` reported. -/
theorem entry_result (w : World) (l : RawListing) (t : Nat) :
    (fetchListings.entry w l t).result = .ok none ∨
    ∃ owner uri m, w.contract.ownerOf t = .ok owner ∧ toLowerCase owner = toLowerCase l.seller ∧
      w.contract.tokenURI t = .ok uri ∧
      (fetchListings.entry w l t).result =
        .ok (some { tokenId := t, seller := l.seller, price := w.formatEther l.price, metadata := m }) := by
  unfold fetchListings.entry
  simp only [Run.bind_eq, Run.pure_eq, Run.tryCatch, Run.andThen, Run.call, Run.ret]
  cases ho : w.contract.ownerOf t with
  | error e => left; rfl
  | ok owner =>
    by_cases hm : toLowerCase owner = toLowerCase l.seller
    · simp only [hm, ne_eq, not_true_eq_false, if_false]
      cases hu : w.contract.tokenURI t with
      | error e => left; rfl
      | ok uri =>
        obtain ⟨m, hmeta⟩ := metadata_total w uri
        right
        refine ⟨owner, uri, m, rfl, hm, rfl, ?_⟩
        simp only [hmeta]
    · left
      simp only [ne_eq, hm, not_false_eq_true, if_true]

theorem ownedBy_iff (c : Contract) (id : Nat) (a : Address) :
    ownedBy c id a = true ↔ ∃ owner, c.ownerOf id = .ok owner ∧ toLowerCase owner = toLowerCase a := by
  unfold ownedBy
  cases h : c.ownerOf id with
  | error e => simp
  | ok owner => simp

theorem after_append (s : App) (a b : List Event) : s.after (a ++ b) = (s.after a).after b := by
  simp [App.after, List.foldl_append]

/-- Remote calls set no client state. -/
theorem after_onlyCalls (s : App) (tr : List Event) (h : onlyCalls tr) : s.after tr = s := by
  induction tr generalizing s with
  | nil => rfl
  | cons ev rest ih =>
    obtain ⟨c, hc⟩ := h ev (List.mem_cons_self _ _)
    subst hc
    have : onlyCalls rest := fun e he => h e (List.mem_cons_of_mem _ he)
    simpa [App.after, App.apply] using ih s this

/-- The loop keeps the invariant that every collected entry has a seller whom `ownerOf` names. -/
theorem loop_sellers (w : World) (ls : List RawListing) :
    ∀ (ts : List Nat) (acc v : List Listing),
      (fetchListings.loop w ls ts acc).result = .ok v →
      (∀ e ∈ acc, ownedBy w.contract e.tokenId e.seller = true) →
      ∀ e ∈ v, ownedBy w.contract e.tokenId e.seller = true := by
  induction ls with
  | nil =>
    intro ts acc v h hacc
    simp [fetchListings.loop, Run.ret] at h
    subst h; exact hacc
  | cons l rest ih =>
    intro ts acc v h hacc
    cases ts with
    | nil => simp [fetchListings.loop, Run.raise] at h
    | cons t ids =>
      unfold fetchListings.loop at h
      split at h
      · exact ih _ _ _ h hacc
      · simp only [Run.bind_eq, Run.andThen] at h
        rcases entry_result w l t with hn | ⟨owner, uri, m, ho, hm, _, hs⟩
        · rw [hn] at h
          exact ih _ _ _ h hacc
        · rw [hs] at h
          refine ih _ _ _ h ?_
          intro e he
          rcases List.mem_append.mp he with he | he
          · exact hacc e he
          · simp at he
            subst he
            exact (ownedBy_iff _ _ _).mpr ⟨owner, ho, hm⟩

theorem isNone_of_isSome {α : Type} {o : Option α} (h : o.isSome = true) : o.isNone = false := by
  cases o with
  | none => simp at h
  | some a => rfl

/-- The trace of `fetchListings` when the table is read and the loop completes. -/
theorem fetchListings_trace_ok (s : App) (w : World) (rows : List RawListing) (ids : List Nat)
    (v : List Listing) (hc : s.contract.isSome = true)
    (hg : w.contract.getAllListings = .ok (rows, ids))
    (hl : (fetchListings.loop w rows ids []).result = .ok v) :
    (fetchListings s w).trace =
      [.setLoading true, .call .getAllListings] ++ (fetchListings.loop w rows ids []).trace ++
        [.setListings v, .setLoading false] := by
  simp [fetchListings, isNone_of_isSome hc, Run.andThen, Run.emit, Run.tryFinally, Run.tryCatch,
    Run.call, hg, hl]

/-- The trace of `fetchListings` when the table read or the loop throws. -/
theorem fetchListings_trace_error (s : App) (w : World) (hc : s.contract.isSome = true)
    (hl : ∀ v, (w.contract.getAllListings.bind fun p => (fetchListings.loop w p.1 p.2 []).result) ≠ .ok v) :
    ∃ tr msg, onlyCalls tr ∧ (fetchListings s w).trace =
      [.setLoading true] ++ tr ++ [.alert msg, .setListings [], .setLoading false] := by
  cases hg : w.contract.getAllListings with
  | error e =>
    refine ⟨[.call .getAllListings], "Error fetching listings: " ++ e.message,
      onlyCalls_single _, ?_⟩
    simp [fetchListings, isNone_of_isSome hc, Run.andThen, Run.emit, Run.tryFinally, Run.tryCatch,
      Run.call, hg]
  | ok p =>
    obtain ⟨rows, ids⟩ := p
    cases hr : (fetchListings.loop w rows ids []).result with
    | ok v => exact absurd (by simp [hg, Except.bind, hr]) (hl v)
    | error e =>
      refine ⟨[.call .getAllListings] ++ (fetchListings.loop w rows ids []).trace,
        "Error fetching listings: " ++ e.message,
        onlyCalls_append (onlyCalls_single _) (loop_onlyCalls _ _ _ _), ?_⟩
      simp [fetchListings, isNone_of_isSome hc, Run.andThen, Run.emit, Run.tryFinally, Run.tryCatch,
        Run.call, hg, hr]

/-- The outcome of `fetchListings.entry` when both reads succeed. -/
theorem entry_result_reads (w : World) (l : RawListing) (t : Nat) (owner uri : String)
    (ho : w.contract.ownerOf t = .ok owner) (hu : w.contract.tokenURI t = .ok uri) :
    ∃ m, (fetchListings.entry w l t).result =
      .ok (if toLowerCase owner = toLowerCase l.seller then
            some { tokenId := t, seller := l.seller, price := w.formatEther l.price, metadata := m }
          else none) := by
  obtain ⟨m, hmeta⟩ := metadata_total w uri
  refine ⟨m, ?_⟩
  unfold fetchListings.entry
  simp only [Run.bind_eq, Run.pure_eq, Run.tryCatch, Run.andThen, Run.call, Run.ret, ho, hu]
  by_cases hm : toLowerCase owner = toLowerCase l.seller
  · simp [hm, hmeta]
  · simp [hm]

/-- When the reads succeed for every row, the loop appends exactly the kept rows, in order. -/
theorem loop_exact (w : World) (ls : List RawListing) :
    ∀ (ts : List Nat) (acc : List Listing), ls.length = ts.length →
      (∀ r ∈ ls, r.seller ≠ "") →
      (∀ p ∈ ls.zip ts, (∃ o, w.contract.ownerOf p.2 = .ok o) ∧ ∃ u, w.contract.tokenURI p.2 = .ok u) →
      ∃ v, (fetchListings.loop w ls ts acc).result = .ok v ∧
        v.map Listing.row = acc.map Listing.row ++ (ls.zip ts).filterMap (catalogRow w) := by
  induction ls with
  | nil =>
    intro ts acc _ _ _
    exact ⟨acc, by simp [fetchListings.loop, Run.ret], by simp⟩
  | cons l rest ih =>
    intro ts acc hlen haddr hreads
    cases ts with
    | nil => simp at hlen
    | cons t ids =>
      have hlen' : rest.length = ids.length := by simpa using hlen
      have haddr' : ∀ r ∈ rest, r.seller ≠ "" := fun r hr => haddr r (List.mem_cons_of_mem _ hr)
      have hreads' : ∀ p ∈ rest.zip ids,
          (∃ o, w.contract.ownerOf p.2 = .ok o) ∧ ∃ u, w.contract.tokenURI p.2 = .ok u :=
        fun p hp => hreads p (by simp [List.zip_cons_cons, hp])
      obtain ⟨⟨owner, ho⟩, ⟨uri, hu⟩⟩ := hreads (l, t) (by simp [List.zip_cons_cons])
      have hne : l.seller ≠ "" := haddr l (List.mem_cons_self _ _)
      unfold fetchListings.loop
      by_cases hskip : fetchListings.skip l = true
      · simp only [hskip, if_true]
        obtain ⟨v, hv, hrow⟩ := ih ids acc hlen' haddr' hreads'
        refine ⟨v, hv, ?_⟩
        have hnone : catalogRow w (l, t) = none := by
          simp only [fetchListings.skip, Bool.or_eq_true, decide_eq_true_eq] at hskip
          unfold catalogRow
          rcases hskip with (h | h) | h
          · exact absurd h hne
          · simp [h]
          · simp [h]
        simp [List.zip_cons_cons, List.filterMap_cons, hnone, hrow]
      · simp only [hskip, Bool.false_eq_true, if_false, Run.bind_eq, Run.andThen]
        have hkeep : l.seller ≠ ZERO_ADDRESS ∧ l.price ≠ 0 := by
          simp only [fetchListings.skip, Bool.or_eq_true, decide_eq_true_eq, not_or] at hskip
          exact ⟨hskip.1.2, hskip.2⟩
        obtain ⟨m, hm⟩ := entry_result_reads w l t owner uri ho hu
        rw [hm]
        by_cases hown : toLowerCase owner = toLowerCase l.seller
        · simp only [hown, if_true]
          obtain ⟨v, hv, hrow⟩ := ih ids (acc ++ [Listing.mk t l.seller (w.formatEther l.price) m])
            hlen' haddr' hreads'
          refine ⟨v, hv, ?_⟩
          have hsome : catalogRow w (l, t) = some (t, l.seller, w.formatEther l.price) := by
            have : ownedBy w.contract t l.seller = true := (ownedBy_iff _ _ _).mpr ⟨owner, ho, hown⟩
            simp [catalogRow, hkeep.1, hkeep.2, this]
          simp [List.zip_cons_cons, List.filterMap_cons, hsome, hrow, Listing.row]
        · simp only [hown, if_false]
          obtain ⟨v, hv, hrow⟩ := ih ids acc hlen' haddr' hreads'
          refine ⟨v, hv, ?_⟩
          have hnone : catalogRow w (l, t) = none := by
            have : ownedBy w.contract t l.seller = false := by
              simp [ownedBy, ho, hown]
            simp [catalogRow, this]
          simp [List.zip_cons_cons, List.filterMap_cons, hnone, hrow]

/-- C1. Every entry that `fetchListings` places in the listings collection has a seller
equal, case-insensitively, to the owner that `ownerOf` reported for the entry's token id;
hence a row whose seller differs from the current owner of its token is not in the result. -/
theorem fetchListings_seller_owns_token (s : App) (w : World) (l : List Listing)
    (h : Event.setListings l ∈ (fetchListings s w).trace) :
    (∀ e ∈ l, ∃ owner, w.contract.ownerOf e.tokenId = .ok owner ∧
        toLowerCase owner = toLowerCase e.seller) ∧
    (∀ (id : Nat) (seller owner : Address), w.contract.ownerOf id = .ok owner →
        toLowerCase owner ≠ toLowerCase seller → ∀ e ∈ l, ¬ (e.tokenId = id ∧ e.seller = seller)) := by
  have key : ∀ e ∈ l, ownedBy w.contract e.tokenId e.seller = true := by
    by_cases hc : s.contract.isSome = true
    · cases hr : (w.contract.getAllListings.bind fun p => (fetchListings.loop w p.1 p.2 []).result) with
      | ok v =>
        cases hg : w.contract.getAllListings with
        | error e => simp [hg, Except.bind] at hr
        | ok p =>
          obtain ⟨rows, ids⟩ := p
          have hl : (fetchListings.loop w rows ids []).result = .ok v := by
            simpa [hg, Except.bind] using hr
          rw [fetchListings_trace_ok s w rows ids v hc hg hl] at h
          simp only [List.mem_append, List.mem_cons, List.mem_singleton, List.not_mem_nil,
            or_false, Event.setListings.injEq] at h
          rcases h with (h | h) | h
          · rcases h with h | h <;> cases h
          · obtain ⟨c, hcall⟩ := loop_onlyCalls w rows ids [] _ h
            cases hcall
          · rcases h with h | h
            · rw [h]
              exact loop_sellers w rows ids [] v hl (by simp)
            · cases h
      | error e =>
        obtain ⟨tr, msg, htr, heq⟩ := fetchListings_trace_error s w hc (by intro v; simp [hr])
        rw [heq] at h
        simp only [List.mem_append, List.mem_cons, List.mem_singleton, List.not_mem_nil,
          or_false, Event.setListings.injEq] at h
        rcases h with (h | h) | h
        · cases h
        · obtain ⟨c, hcall⟩ := htr _ h
          cases hcall
        · rcases h with h | h | h
          · cases h
          · subst h; simp
          · cases h
    · have hn : s.contract.isNone = true := by
        cases hs : s.contract with
        | none => rfl
        | some a => simp [hs] at hc
      simp [fetchListings, hn, Run.ret] at h
  constructor
  · intro e he
    exact (ownedBy_iff _ _ _).mp (key e he)
  · intro id seller owner ho hne e he hcon
    obtain ⟨o, ho', hm⟩ := (ownedBy_iff _ _ _).mp (key e he)
    rw [hcon.1, ho] at ho'
    cases ho'
    exact hne (by rw [hm, hcon.2])


/-- Witness of C1: with a stale row for token 4 in the table, the catalog holds only the entry of
token 9, whose seller is the owner reported for it. -/
theorem fetchListings_seller_owns_token_witness :
    Event.setListings [⟨9, Sample.alice, "2.0", unknownMetadata⟩] ∈
        (fetchListings (Sample.connected Sample.carol) (Sample.worldOf Sample.catalogStale)).trace ∧
      ∀ e ∈ [(⟨9, Sample.alice, "2.0", unknownMetadata⟩ : Listing)],
        ∃ owner, (Sample.worldOf Sample.catalogStale).contract.ownerOf e.tokenId = .ok owner ∧
          toLowerCase owner = toLowerCase e.seller :=
  ⟨by decide,
    (fetchListings_seller_owns_token (Sample.connected Sample.carol)
      (Sample.worldOf Sample.catalogStale) _ (by decide)).1⟩

/-- C2. When the table read returns rows and token ids of equal length, the sellers are
addresses (non-empty strings) and `ownerOf` and `tokenURI` succeed for every row, the listings
collection after `fetchListings` consists, in table order, of exactly the rows whose seller is
not the zero address, whose price is not zero and whose `ownerOf` names the seller
case-insensitively, each with the row's token id, seller and `formatEther` of its price. -/
theorem fetchListings_keeps_exactly_valid_rows (s : App) (w : World) (rows : List RawListing)
    (ids : List Nat) (hc : s.contract.isSome = true)
    (hget : w.contract.getAllListings = .ok (rows, ids))
    (hlen : rows.length = ids.length)
    (haddr : ∀ r ∈ rows, r.seller ≠ "")
    (hreads : ∀ p ∈ rows.zip ids,
      (∃ o, w.contract.ownerOf p.2 = .ok o) ∧ ∃ u, w.contract.tokenURI p.2 = .ok u) :
    (s.after (fetchListings s w).trace).listings.map Listing.row =
      (rows.zip ids).filterMap (catalogRow w) := by
  obtain ⟨v, hv, hrow⟩ := loop_exact w rows ids [] hlen haddr hreads
  rw [fetchListings_trace_ok s w rows ids v hc hget hv]
  have hcalls : onlyCalls ([Event.call Call.getAllListings] ++ (fetchListings.loop w rows ids []).trace) :=
    onlyCalls_append (onlyCalls_single _) (loop_onlyCalls _ _ _ _)
  have : s.after ([Event.setLoading true, Event.call Call.getAllListings] ++
      (fetchListings.loop w rows ids []).trace ++ [Event.setListings v, Event.setLoading false]) =
      (((s.after [Event.setLoading true]).after
        ([Event.call Call.getAllListings] ++ (fetchListings.loop w rows ids []).trace)).after
          [Event.setListings v, Event.setLoading false]) := by
    rw [← after_append, ← after_append]
    simp
  rw [this, after_onlyCalls _ _ hcalls]
  simpa [App.after, App.apply] using hrow

/-- Witness of C2 (scenario S5): the tombstoned slot of token 3 is discarded and the listing of
token 9 by its owner is the only entry. -/
theorem fetchListings_keeps_exactly_valid_rows_witness :
    ((Sample.connected Sample.bob).after
        (fetchListings (Sample.connected Sample.bob) (Sample.worldOf Sample.catalogS5)).trace).listings.map
        Listing.row = [(9, Sample.alice, "2.0")] :=
  (fetchListings_keeps_exactly_valid_rows (Sample.connected Sample.bob)
    (Sample.worldOf Sample.catalogS5) [⟨ZERO_ADDRESS, 0⟩, ⟨Sample.alice, 2 * 10 ^ 18⟩] [3, 9]
    (by decide) rfl (by decide) (by decide)
    (by
      intro p hp
      simp only [List.zip_cons_cons, List.zip_nil_right, List.mem_cons, List.mem_singleton,
        List.not_mem_nil, or_false] at hp
      rcases hp with rfl | rfl <;> exact ⟨⟨_, rfl⟩, ⟨_, rfl⟩⟩)).trans (by decide)

/-! ## `buyNFT` -/

/-- The gas estimation block issues only the estimate and the fee-data read. -/
theorem estimation_trace (w : World) (id p b : Nat) :
    ∀ ev ∈ (buyNFT.estimation w id p b).trace,
      ev = Event.call (.estimateGas id p) ∨ ev = Event.call .getFeeData := by
  intro ev h
  unfold buyNFT.estimation buyNFT.costCheck buyNFT.gasCatch at h
  simp only [Run.bind_eq, Run.pure_eq, Run.mem_trace_tryCatch, Run.mem_trace_andThen,
    Run.mem_trace_call, Run.result_call] at h
  rcases h with (h | ⟨g, _, h | ⟨fee, _, h⟩⟩) | ⟨e, _, h⟩
  · exact Or.inl h
  · exact Or.inr h
  · cases fee with
    | none => simp at h
    | some gp =>
      simp only [] at h
      split_ifs at h <;> simp at h
  · split_ifs at h <;> simp at h

/-- The purchase call is reached only through every validation of `buyNFT.body`; it is a call
for the token of the run, with the converted price argument as value. -/
theorem buy_requires (s : App) (w : World) (account : Address) (id : Nat) (price : String)
    (id' v g : Nat) (h : Event.call (.buyNFT id' v g) ∈ (buyNFT.body s w account id price).trace) :
    id' = id ∧ w.parseEther price = .ok v ∧
    ∃ l owner approved all, w.contract.listings id = .ok l ∧ l.seller ≠ ZERO_ADDRESS ∧ l.price ≠ 0 ∧
      w.contract.ownerOf id = .ok owner ∧ toLowerCase owner = toLowerCase l.seller ∧
      toLowerCase account ≠ toLowerCase l.seller ∧
      w.contract.getApproved id = .ok approved ∧
      w.contract.isApprovedForAll l.seller w.CONTRACT_ADDRESS = .ok all ∧
      (toLowerCase approved = toLowerCase w.CONTRACT_ADDRESS ∨ all = true) := by
  unfold buyNFT.body at h
  simp only [Run.bind_eq, Run.pure_eq, Run.mem_trace_andThen, Run.mem_trace_call, Run.result_call,
    Run.trace_ofExcept, Run.result_ofExcept, List.not_mem_nil, false_or, reduceCtorEq,
    Event.call.injEq] at h
  obtain ⟨wei, hp, l, hl, h⟩ := h
  by_cases hskip : (l.seller = "" || l.seller = ZERO_ADDRESS || l.price = 0) = true
  · simp [hskip] at h
  simp only [hskip, Bool.false_eq_true, if_false, Run.mem_trace_andThen, Run.mem_trace_call,
    Run.result_call, reduceCtorEq, false_or, Event.call.injEq] at h
  obtain ⟨owner, ho, h⟩ := h
  by_cases hown : toLowerCase owner = toLowerCase l.seller
  swap
  · simp [hown] at h
  by_cases hself : toLowerCase account = toLowerCase l.seller
  · simp [hown, hself] at h
  by_cases hprov : s.provider = true
  swap
  · simp [hown, hself, hprov, Run.mem_trace_andThen] at h
  simp only [hown, hself, hprov, ne_eq, not_true_eq_false, if_false, if_true,
    Run.mem_trace_andThen, Run.mem_trace_call, Run.result_call, reduceCtorEq, false_or,
    Event.call.injEq] at h
  obtain ⟨bal, hbal, h⟩ := h
  rcases h with h | ⟨_, _, h⟩
  · rcases estimation_trace _ _ _ _ _ h with h | h <;> simp at h
  obtain ⟨approved, hap, all, hall, h⟩ := h
  by_cases hnot : ¬toLowerCase approved = toLowerCase w.CONTRACT_ADDRESS ∧ all = false
  · simp [hnot] at h
  simp only [hnot, if_false, Run.mem_trace_andThen, Run.mem_trace_call, Run.mem_trace_emit,
    Run.result_call, Run.result_emit, Event.call.injEq, Call.buyNFT.injEq, reduceCtorEq, false_or,
    and_false, exists_false, or_false, exists_const] at h
  simp only [Bool.or_eq_true, decide_eq_true_eq, not_or] at hskip
  refine ⟨h.1, by rw [hp, h.2.1], l, owner, approved, all, hl, hskip.1.2, hskip.2, ho, hown, hself,
    hap, hall, ?_⟩
  by_cases ha : toLowerCase approved = toLowerCase w.CONTRACT_ADDRESS
  · exact Or.inl ha
  · right
    cases all with
    | true => rfl
    | false => exact absurd ⟨ha, rfl⟩ hnot

/-- The trace of `buyNFT` for a connected client: the guard, the body, the report of a
failure, and the cleanup. -/
theorem buyNFT_trace (s : App) (w : World) (account signer : Address) (id : Nat) (price : String)
    (hc : s.contract = some signer) (ha : s.account = some account) :
    (buyNFT s w id price).trace =
      Event.setLoading true :: (buyNFT.body s w account id price).trace ++
        (match (buyNFT.body s w account id price).result with
          | .ok _ => []
          | .error e => [Event.alert (buyNFT.errorMessage e)]) ++ [Event.setLoading false] := by
  unfold buyNFT
  simp only [hc, ha, Run.bind_eq, Run.andThen, Run.emit, Run.tryFinally, Run.tryCatch]
  cases (buyNFT.body s w account id price).result <;> simp

/-- The balance test has no effect: when the estimate and the fee data are available and the
balance is below the total cost, the error it throws is caught by the `catch` of the same
block and, having no `reason`, dropped, so the block returns normally. -/
theorem estimation_drops_balance_error (w : World) (id wei balance g gasPrice : Nat)
    (hg : w.buyNFTEstimateGas id wei = .ok g) (hf : w.getFeeData = .ok (some gasPrice))
    (hlow : balance < wei + g * gasPrice) :
    (buyNFT.estimation w id wei balance).result = .ok () ∧
      (buyNFT.estimation w id wei balance).trace =
        [.call (.estimateGas id wei), .call .getFeeData] := by
  simp [buyNFT.estimation, buyNFT.costCheck, buyNFT.gasCatch, Run.tryCatch, Run.andThen, Run.call,
    Run.raise, Run.ret, hg, hf, hlow]

/-- With the validations passed, the estimate and the fee data available, the balance below
the total cost and the marketplace approved, `buyNFT` submits the purchase call. -/
theorem buyNFT_submits_below_total_cost (s : App) (w : World) (account signer : Address)
    (id : Nat) (price : String) (wei balance g gasPrice : Nat) (l : RawListing)
    (owner approved : Address) (all : Bool)
    (hc : s.contract = some signer) (ha : s.account = some account)
    (hp : w.parseEther price = .ok wei) (hl : w.contract.listings id = .ok l)
    (h1 : l.seller ≠ "") (h2 : l.seller ≠ ZERO_ADDRESS) (h3 : l.price ≠ 0)
    (ho : w.contract.ownerOf id = .ok owner) (hown : toLowerCase owner = toLowerCase l.seller)
    (hself : toLowerCase account ≠ toLowerCase l.seller) (hprov : s.provider = true)
    (hbal : w.getBalance account = .ok balance) (hg : w.buyNFTEstimateGas id wei = .ok g)
    (hf : w.getFeeData = .ok (some gasPrice)) (hlow : balance < wei + g * gasPrice)
    (hap : w.contract.getApproved id = .ok approved)
    (hall : w.contract.isApprovedForAll l.seller w.CONTRACT_ADDRESS = .ok all)
    (happroved : toLowerCase approved = toLowerCase w.CONTRACT_ADDRESS ∨ all = true) :
    Event.call (.buyNFT id wei (buyNFT.gasLimit (some g))) ∈ (buyNFT s w id price).trace := by
  obtain ⟨hest, _⟩ := estimation_drops_balance_error w id wei balance g gasPrice hg hf hlow
  have hnot : ¬ (¬ toLowerCase approved = toLowerCase w.CONTRACT_ADDRESS ∧ all = false) := by
    rintro ⟨hn, hfalse⟩
    rcases happroved with h | h
    · exact hn h
    · rw [hfalse] at h; cases h
  have hge : buyNFT.gasEstimate w id wei = some g := by simp [buyNFT.gasEstimate, hg]
  rw [buyNFT_trace s w account signer id price hc ha]
  cases hb : w.buyNFT id wei (buyNFT.gasLimit (some g)) with
  | error e =>
    simp [buyNFT.body, Run.andThen, Run.ofExcept, Run.call, Run.raise, hp, hl, h1, h2, h3, ho, hown,
      hself, hprov, hbal, hest, hap, hall, hnot, hge, hb]
  | ok tx =>
    cases hw : tx.wait with
    | error e =>
      simp [buyNFT.body, Run.andThen, Run.ofExcept, Run.call, Run.raise, hp, hl, h1, h2, h3, ho,
        hown, hself, hprov, hbal, hest, hap, hall, hnot, hge, hb, hw]
    | ok after =>
      simp [buyNFT.body, Run.andThen, Run.ofExcept, Run.call, Run.raise, hp, hl, h1, h2, h3, ho,
        hown, hself, hprov, hbal, hest, hap, hall, hnot, hge, hb, hw]

/-- C3, at the input of scenario S3 (price 1.5 ether, balance 1.2 ether, estimate and fee data
available, so the total cost exceeds the balance): the error raised by the balance test is
caught by the `catch` of the estimation block and, carrying no `reason`, dropped; the run
goes on to the approval test and submits the purchase call, and the failure it reports is the
answer of the wallet to that call. -/
theorem buyNFT_submits_with_insufficient_balance :
    (buyNFT (Sample.connected Sample.bob) Sample.buyS3 9 "1.5").trace =
      [.setLoading true, .call (.listings 9), .call (.ownerOf 9), .call (.getBalance Sample.bob),
        .call (.estimateGas 9 1500000000000000000), .call .getFeeData, .call (.getApproved 9),
        .call (.isApprovedForAll Sample.alice Sample.market),
        .call (.buyNFT 9 1500000000000000000 120000),
        .alert "Purchase failed: Insufficient funds in your wallet", .setLoading false] ∧
      Sample.buyS3.getBalance Sample.bob = .ok 1200000000000000000 ∧
      Sample.buyS3.buyNFTEstimateGas 9 1500000000000000000 = .ok 100000 ∧
      Sample.buyS3.getFeeData = .ok (some 1000000000) ∧
      1200000000000000000 < 1500000000000000000 + 100000 * 1000000000 := by
  decide


theorem buyNFT_errorMessage_notListed :
    buyNFT.errorMessage { message := "NFT is no longer listed for sale" } =
      "Purchase failed: This NFT is no longer available for purchase" := by decide

theorem buyNFT_errorMessage_notOwner :
    buyNFT.errorMessage { message := "Seller no longer owns this NFT" } =
      "Purchase failed: The seller no longer owns this NFT" := by decide

theorem buyNFT_errorMessage_self :
    buyNFT.errorMessage { message := "You cannot buy your own NFT" } =
      "Purchase failed: You cannot purchase your own NFT" := by decide

theorem buyNFT_errorMessage_notApproved :
    buyNFT.errorMessage
        { message := "Marketplace is not approved to transfer this NFT. Seller needs to approve first." } =
      "Purchase failed: The marketplace is not approved to transfer this NFT" := by decide

/-- C4, as amended. For a connected client and a price text that converts to wei:
the purchase call is in the trace only if the re-read listing has a non-zero seller and price,
`ownerOf` names that seller, the account is not the seller and the marketplace is approved;
a failing listing, ownership or self-purchase test ends the run in its own failure; a failing
approval test ends the run in the marketplace-not-approved failure when the run reaches it
(the balance is read and the estimation block does not throw). In each of these failures the
trace holds no purchase call. -/
theorem buyNFT_validation (s : App) (w : World) (account signer : Address) (id : Nat)
    (price : String) (wei : Nat) (hc : s.contract = some signer) (ha : s.account = some account)
    (hp : w.parseEther price = .ok wei) :
    (∀ id' v g, Event.call (.buyNFT id' v g) ∈ (buyNFT s w id price).trace →
      ∃ l owner approved all, w.contract.listings id = .ok l ∧ l.seller ≠ ZERO_ADDRESS ∧
        l.price ≠ 0 ∧ w.contract.ownerOf id = .ok owner ∧
        toLowerCase owner = toLowerCase l.seller ∧ toLowerCase account ≠ toLowerCase l.seller ∧
        w.contract.getApproved id = .ok approved ∧
        w.contract.isApprovedForAll l.seller w.CONTRACT_ADDRESS = .ok all ∧
        (toLowerCase approved = toLowerCase w.CONTRACT_ADDRESS ∨ all = true)) ∧
    (∀ l, w.contract.listings id = .ok l → (l.seller = ZERO_ADDRESS ∨ l.price = 0) →
      (buyNFT s w id price).trace =
        [.setLoading true, .call (.listings id),
          .alert "Purchase failed: This NFT is no longer available for purchase",
          .setLoading false]) ∧
    (∀ l owner, w.contract.listings id = .ok l → l.seller ≠ "" → l.seller ≠ ZERO_ADDRESS →
      l.price ≠ 0 → w.contract.ownerOf id = .ok owner →
      toLowerCase owner ≠ toLowerCase l.seller →
      (buyNFT s w id price).trace =
        [.setLoading true, .call (.listings id), .call (.ownerOf id),
          .alert "Purchase failed: The seller no longer owns this NFT", .setLoading false]) ∧
    (∀ l owner, w.contract.listings id = .ok l → l.seller ≠ "" → l.seller ≠ ZERO_ADDRESS →
      l.price ≠ 0 → w.contract.ownerOf id = .ok owner →
      toLowerCase owner = toLowerCase l.seller → toLowerCase account = toLowerCase l.seller →
      (buyNFT s w id price).trace =
        [.setLoading true, .call (.listings id), .call (.ownerOf id),
          .alert "Purchase failed: You cannot purchase your own NFT", .setLoading false]) ∧
    (∀ l owner balance approved, w.contract.listings id = .ok l → l.seller ≠ "" →
      l.seller ≠ ZERO_ADDRESS → l.price ≠ 0 → w.contract.ownerOf id = .ok owner →
      toLowerCase owner = toLowerCase l.seller → toLowerCase account ≠ toLowerCase l.seller →
      s.provider = true → w.getBalance account = .ok balance →
      (buyNFT.estimation w id wei balance).result = .ok () →
      w.contract.getApproved id = .ok approved →
      w.contract.isApprovedForAll l.seller w.CONTRACT_ADDRESS = .ok false →
      toLowerCase approved ≠ toLowerCase w.CONTRACT_ADDRESS →
      (buyNFT s w id price).trace =
        [.setLoading true, .call (.listings id), .call (.ownerOf id), .call (.getBalance account)] ++
          (buyNFT.estimation w id wei balance).trace ++
          [.call (.getApproved id), .call (.isApprovedForAll l.seller w.CONTRACT_ADDRESS),
            .alert "Purchase failed: The marketplace is not approved to transfer this NFT",
            .setLoading false]) := by
  refine ⟨?_, ?_, ?_, ?_, ?_⟩
  · intro id' v g h
    rw [buyNFT_trace s w account signer id price hc ha] at h
    have hb : Event.call (.buyNFT id' v g) ∈ (buyNFT.body s w account id price).trace := by
      cases hr : (buyNFT.body s w account id price).result <;> simp [hr] at h <;> exact h
    exact (buy_requires s w account id price id' v g hb).2.2
  · intro l hl hz
    have hskip : (l.seller = "" ∨ l.seller = ZERO_ADDRESS) ∨ l.price = 0 := by
      rcases hz with hz | hz
      · exact Or.inl (Or.inr hz)
      · exact Or.inr hz
    rw [buyNFT_trace s w account signer id price hc ha]
    simp [buyNFT.body, Run.andThen, Run.ofExcept, Run.call, Run.raise, hp, hl, hskip,
      buyNFT_errorMessage_notListed]
  · intro l owner hl h1 h2 h3 ho hne
    rw [buyNFT_trace s w account signer id price hc ha]
    simp [buyNFT.body, Run.andThen, Run.ofExcept, Run.call, Run.raise, hp, hl, h1, h2, h3, ho, hne,
      buyNFT_errorMessage_notOwner]
  · intro l owner hl h1 h2 h3 ho hown hself
    rw [buyNFT_trace s w account signer id price hc ha]
    simp [buyNFT.body, Run.andThen, Run.ofExcept, Run.call, Run.raise, hp, hl, h1, h2, h3, ho, hown,
      hself, buyNFT_errorMessage_self]
  · intro l owner balance approved hl h1 h2 h3 ho hown hself hprov hbal hest hap hall hne
    rw [buyNFT_trace s w account signer id price hc ha]
    simp [buyNFT.body, Run.andThen, Run.ofExcept, Run.call, Run.raise, hp, hl, h1, h2, h3, ho, hown,
      hself, hprov, hbal, hest, hap, hall, hne, buyNFT_errorMessage_notApproved]

/-- Witness of C4 as amended: the marketplace is not approved and the node refuses to simulate,
so the run reaches the approval test and ends in the marketplace-not-approved failure. -/
theorem buyNFT_validation_witness :
    (buyNFT (Sample.connected Sample.bob) Sample.buyUnapprovedNoEstimate 9 "1.5").trace =
      [.setLoading true, .call (.listings 9), .call (.ownerOf 9), .call (.getBalance Sample.bob)] ++
        (buyNFT.estimation Sample.buyUnapprovedNoEstimate 9 1500000000000000000
          2000000000000000000).trace ++
        [.call (.getApproved 9),
          .call (.isApprovedForAll Sample.alice Sample.buyUnapprovedNoEstimate.CONTRACT_ADDRESS),
          .alert "Purchase failed: The marketplace is not approved to transfer this NFT",
          .setLoading false] :=
  (buyNFT_validation (Sample.connected Sample.bob) Sample.buyUnapprovedNoEstimate Sample.bob
    Sample.bob 9 "1.5" 1500000000000000000 rfl rfl (by decide)).2.2.2.2
    ⟨Sample.alice, 15 * 10 ^ 17⟩ Sample.alice 2000000000000000000 ZERO_ADDRESS
    (by decide) (by decide) (by decide) (by decide) (by decide) (by decide) (by decide) (by decide)
    (by decide) (by decide) (by decide) (by decide) (by decide)

/-- Counterexample to C4 as stated: the marketplace is not approved for token 9 (neither
`getApproved` nor `isApprovedForAll` grants it) while the other validations pass, and the run
ends in the failure of the gas estimation, not in the marketplace-not-approved failure. -/
theorem buyNFT_unapproved_ends_in_estimation_failure :
    Sample.buyUnapproved.contract.listings 9 = .ok ⟨Sample.alice, 1500000000000000000⟩ ∧
      Sample.buyUnapproved.contract.ownerOf 9 = .ok Sample.alice ∧
      toLowerCase Sample.bob ≠ toLowerCase Sample.alice ∧
      Sample.buyUnapproved.contract.getApproved 9 = .ok ZERO_ADDRESS ∧
      toLowerCase ZERO_ADDRESS ≠ toLowerCase Sample.buyUnapproved.CONTRACT_ADDRESS ∧
      Sample.buyUnapproved.contract.isApprovedForAll Sample.alice
        Sample.buyUnapproved.CONTRACT_ADDRESS = .ok false ∧
      (buyNFT (Sample.connected Sample.bob) Sample.buyUnapproved 9 "1.5").trace =
        [.setLoading true, .call (.listings 9), .call (.ownerOf 9), .call (.getBalance Sample.bob),
          .call (.estimateGas 9 1500000000000000000),
          .alert "Purchase failed: Transaction would fail: ERC721: caller is not token owner or approved",
          .setLoading false] := by
  decide


/-- A purchase call in the trace of `buyNFT` was issued by its `try` block, for a connected
client. -/
theorem buyNFT_call_in_body (s : App) (w : World) (id : Nat) (price : String) (id' v g : Nat)
    (h : Event.call (.buyNFT id' v g) ∈ (buyNFT s w id price).trace) :
    ∃ account, s.account = some account ∧
      Event.call (.buyNFT id' v g) ∈ (buyNFT.body s w account id price).trace := by
  cases hc : s.contract with
  | none => simp [buyNFT, hc, Run.emit, Run.andThen] at h
  | some signer =>
    cases ha : s.account with
    | none => simp [buyNFT, hc, ha, Run.emit, Run.andThen] at h
    | some account =>
      rw [buyNFT_trace s w account signer id price hc ha] at h
      refine ⟨account, rfl, ?_⟩
      cases hr : (buyNFT.body s w account id price).result <;> simpa [hr] using h

/-- C18, as amended. Whenever `buyNFT` submits the purchase call, the call is for the token of
the run and the value attached is the conversion to wei of the price argument the workflow
was invoked with (the price shown in the catalog). The listing re-read during validation is
tested for a non-zero seller and a non-zero price only; its price is not compared with the
value, so the value is the re-read listed price exactly when the price argument converts to
it. -/
theorem buyNFT_value_is_price_argument (s : App) (w : World) (id : Nat) (price : String)
    (id' v g : Nat) (h : Event.call (.buyNFT id' v g) ∈ (buyNFT s w id price).trace) :
    id' = id ∧ w.parseEther price = .ok v ∧
      ∃ l, w.contract.listings id = .ok l ∧ l.seller ≠ ZERO_ADDRESS ∧ l.price ≠ 0 ∧
        (v = l.price ↔ w.parseEther price = .ok l.price) := by
  obtain ⟨account, _, hb⟩ := buyNFT_call_in_body s w id price id' v g h
  obtain ⟨hid, hp, l, _, _, _, hl, hs, hpr, _⟩ := buy_requires s w account id price id' v g hb
  refine ⟨hid, hp, l, hl, hs, hpr, ?_⟩
  rw [hp]
  constructor
  · intro e; rw [e]
  · intro e; cases e; rfl

/-- Witness of C18 as amended: scenario S3, in which the purchase call is submitted with the
conversion of the price argument "1.5". -/
theorem buyNFT_value_is_price_argument_witness :
    Event.call (.buyNFT 9 1500000000000000000 120000) ∈
        (buyNFT (Sample.connected Sample.bob) Sample.buyS3 9 "1.5").trace ∧
      Sample.buyS3.parseEther "1.5" = .ok 1500000000000000000 :=
  ⟨by decide,
    (buyNFT_value_is_price_argument (Sample.connected Sample.bob) Sample.buyS3 9 "1.5" 9
      1500000000000000000 120000 (by decide)).2.1⟩

/-- Counterexample to C18 as stated: the catalog showed token 9 at 1.5 ether and the seller
has since raised the price to 2 ether. The listing re-read during validation has price
2 ether, and the purchase call is submitted with value 1.5 ether. -/
theorem buyNFT_pays_catalog_price :
    (Sample.worldOf Sample.repriced9).contract.listings 9 =
        .ok ⟨Sample.alice, 2000000000000000000⟩ ∧
      (buyNFT (Sample.connected Sample.bob) (Sample.worldOf Sample.repriced9) 9 "1.5").trace =
        [.setLoading true, .call (.listings 9), .call (.ownerOf 9), .call (.getBalance Sample.bob),
          .call (.estimateGas 9 1500000000000000000), .call (.getApproved 9),
          .call (.isApprovedForAll Sample.alice Sample.market),
          .call (.buyNFT 9 1500000000000000000 500000),
          .alert "Purchase failed: Transaction cancelled by user", .setLoading false] := by
  decide

/-- The estimation block when the estimate call errors: an error without a `reason` is
dropped and the block returns normally; an error with a `reason` is thrown again as
"Transaction would fail: " followed by the reason. No fee data is read. -/
theorem estimation_of_failed_estimate (w : World) (id wei balance : Nat) (e : Err)
    (hg : w.buyNFTEstimateGas id wei = .error e) :
    (buyNFT.estimation w id wei balance).trace = [.call (.estimateGas id wei)] ∧
      (buyNFT.estimation w id wei balance).result =
        if e.reason = "" then .ok ()
        else .error { message := "Transaction would fail: " ++ e.reason } := by
  by_cases hr : e.reason = "" <;>
    simp [buyNFT.estimation, buyNFT.gasCatch, Run.tryCatch, Run.andThen, Run.call, Run.raise,
      Run.ret, hg, hr]


/-- C19, as amended. For every `buyNFT` run of a connected client in which the price
converts to wei, the listing, ownership and self-purchase validations pass, the balance is
read, and the gas estimation call errors:
when the error carries no `reason`, the run does not fail at that step: no fee data is read
(the balance test is skipped), the approval is read next and, when approval is in place, the
purchase call is submitted with the fallback gas limit 500000;
when the error carries a `reason`, the run fails at that step: it is reported as
"Transaction would fail: " followed by the reason, the approval is not read and no purchase
call is submitted. -/
theorem buyNFT_estimation_failure (s : App) (w : World) (account signer : Address) (id : Nat)
    (price : String) (wei balance : Nat) (l : RawListing) (owner : Address) (e : Err)
    (hc : s.contract = some signer) (ha : s.account = some account)
    (hp : w.parseEther price = .ok wei) (hl : w.contract.listings id = .ok l)
    (h1 : l.seller ≠ "") (h2 : l.seller ≠ ZERO_ADDRESS) (h3 : l.price ≠ 0)
    (ho : w.contract.ownerOf id = .ok owner) (hown : toLowerCase owner = toLowerCase l.seller)
    (hself : toLowerCase account ≠ toLowerCase l.seller) (hprov : s.provider = true)
    (hbal : w.getBalance account = .ok balance)
    (hg : w.buyNFTEstimateGas id wei = .error e) :
    (e.reason = "" →
      (∃ rest, (buyNFT s w id price).trace =
          [.setLoading true, .call (.listings id), .call (.ownerOf id),
            .call (.getBalance account), .call (.estimateGas id wei), .call (.getApproved id)] ++
            rest ∧ Event.call .getFeeData ∉ rest) ∧
      ∀ approved all, w.contract.getApproved id = .ok approved →
        w.contract.isApprovedForAll l.seller w.CONTRACT_ADDRESS = .ok all →
        (toLowerCase approved = toLowerCase w.CONTRACT_ADDRESS ∨ all = true) →
        Event.call (.buyNFT id wei 500000) ∈ (buyNFT s w id price).trace) ∧
    (e.reason ≠ "" →
      (buyNFT s w id price).trace =
        [.setLoading true, .call (.listings id), .call (.ownerOf id),
          .call (.getBalance account), .call (.estimateGas id wei),
          .alert (buyNFT.errorMessage { message := "Transaction would fail: " ++ e.reason }),
          .setLoading false]) := by
  obtain ⟨htr, hres⟩ := estimation_of_failed_estimate w id wei balance e hg
  have hge : buyNFT.gasEstimate w id wei = none := by simp [buyNFT.gasEstimate, hg]
  rw [buyNFT_trace s w account signer id price hc ha]
  refine ⟨fun hr => ?_, fun hr => ?_⟩
  · rw [if_pos hr] at hres
    refine ⟨?_, ?_⟩
    · cases hap : w.contract.getApproved id with
      | error e1 =>
        exact ⟨_, by
          simp [buyNFT.body, Run.andThen, Run.ofExcept, Run.call, Run.raise, hp, hl, h1, h2, h3,
            ho, hown, hself, hprov, hbal, hres, htr, hap]; rfl, by simp⟩
      | ok approved =>
        cases hall : w.contract.isApprovedForAll l.seller w.CONTRACT_ADDRESS with
        | error e1 =>
          exact ⟨_, by
            simp [buyNFT.body, Run.andThen, Run.ofExcept, Run.call, Run.raise, hp, hl, h1, h2, h3,
              ho, hown, hself, hprov, hbal, hres, htr, hap, hall]; rfl, by simp⟩
        | ok all =>
          by_cases hnot : ¬ toLowerCase approved = toLowerCase w.CONTRACT_ADDRESS ∧ all = false
          · exact ⟨_, by
              simp [buyNFT.body, Run.andThen, Run.ofExcept, Run.call, Run.raise, hp, hl, h1, h2,
                h3, ho, hown, hself, hprov, hbal, hres, htr, hap, hall, hnot]; rfl, by simp⟩
          · cases hb : w.buyNFT id wei 500000 with
            | error e1 =>
              exact ⟨_, by
                simp [buyNFT.body, Run.andThen, Run.ofExcept, Run.call, Run.raise, hp, hl, h1, h2,
                  h3, ho, hown, hself, hprov, hbal, hres, htr, hap, hall, hnot, hge,
                  buyNFT.gasLimit, hb]; rfl, by simp⟩
            | ok tx =>
              cases hw : tx.wait with
              | error e1 =>
                exact ⟨_, by
                  simp [buyNFT.body, Run.andThen, Run.ofExcept, Run.call, Run.raise, hp, hl, h1,
                    h2, h3, ho, hown, hself, hprov, hbal, hres, htr, hap, hall, hnot, hge,
                    buyNFT.gasLimit, hb, hw]; rfl, by simp⟩
              | ok after =>
                exact ⟨_, by
                  simp [buyNFT.body, Run.andThen, Run.ofExcept, Run.call, Run.raise, Run.emit, hp,
                    hl, h1, h2, h3, ho, hown, hself, hprov, hbal, hres, htr, hap, hall, hnot, hge,
                    buyNFT.gasLimit, hb, hw]; rfl, by simp⟩
    · intro approved all hap hall happroved
      have hnot : ¬ (¬ toLowerCase approved = toLowerCase w.CONTRACT_ADDRESS ∧ all = false) := by
        rintro ⟨hn, hfalse⟩
        rcases happroved with h | h
        · exact hn h
        · rw [hfalse] at h; cases h
      cases hb : w.buyNFT id wei 500000 with
      | error e1 =>
        simp [buyNFT.body, Run.andThen, Run.ofExcept, Run.call, Run.raise, hp, hl, h1, h2, h3, ho,
          hown, hself, hprov, hbal, hres, htr, hap, hall, hnot, hge, buyNFT.gasLimit, hb]
      | ok tx =>
        cases hw : tx.wait with
        | error e1 =>
          simp [buyNFT.body, Run.andThen, Run.ofExcept, Run.call, Run.raise, hp, hl, h1, h2, h3,
            ho, hown, hself, hprov, hbal, hres, htr, hap, hall, hnot, hge, buyNFT.gasLimit, hb, hw]
        | ok after =>
          simp [buyNFT.body, Run.andThen, Run.ofExcept, Run.call, Run.raise, hp, hl, h1, h2, h3,
            ho, hown, hself, hprov, hbal, hres, htr, hap, hall, hnot, hge, buyNFT.gasLimit, hb, hw]
  · rw [if_neg hr] at hres
    simp [buyNFT.body, Run.andThen, Run.ofExcept, Run.call, Run.raise, hp, hl, h1, h2, h3, ho,
      hown, hself, hprov, hbal, hres, htr]

/-- Witness of C19 as amended: the marketplace is approved for token 9 and the node refuses
to simulate, its error carrying no reason; the purchase call is submitted with gas limit
500000. -/
theorem buyNFT_estimation_failure_witness :
    Sample.buyNoEstimate.buyNFTEstimateGas 9 1500000000000000000 =
        .error { message := "missing revert data", code := "CALL_EXCEPTION" } ∧
      Event.call (.buyNFT 9 1500000000000000000 500000) ∈
        (buyNFT (Sample.connected Sample.bob) Sample.buyNoEstimate 9 "1.5").trace :=
  ⟨by decide,
    ((buyNFT_estimation_failure (Sample.connected Sample.bob) Sample.buyNoEstimate Sample.bob
      Sample.bob 9 "1.5" 1500000000000000000 2000000000000000000 ⟨Sample.alice, 15 * 10 ^ 17⟩
      Sample.alice { message := "missing revert data", code := "CALL_EXCEPTION" }
      rfl rfl (by decide) (by decide) (by decide) (by decide) (by decide) (by decide) (by decide)
      (by decide) (by decide) (by decide) (by decide)).1 (by decide)).2
      Sample.market false (by decide) (by decide) (Or.inl rfl)⟩

/-- Counterexample to C19 as stated: token 9 is listed by its owner `alice`, the buyer is
`bob`, the marketplace is approved, and the gas estimation call errors with a revert reason.
The run fails at that step: the approval is not read and no purchase call is submitted. -/
theorem buyNFT_fails_at_estimation_with_reason :
    Sample.buyRevertingEstimate.contract.listings 9 = .ok ⟨Sample.alice, 1500000000000000000⟩ ∧
      Sample.buyRevertingEstimate.contract.ownerOf 9 = .ok Sample.alice ∧
      toLowerCase Sample.bob ≠ toLowerCase Sample.alice ∧
      Sample.buyRevertingEstimate.contract.getApproved 9 =
        .ok Sample.buyRevertingEstimate.CONTRACT_ADDRESS ∧
      Sample.buyRevertingEstimate.buyNFTEstimateGas 9 1500000000000000000 =
        .error { message := "execution reverted: Marketplace: sale is paused",
                 reason := "Marketplace: sale is paused", code := "CALL_EXCEPTION" } ∧
      (buyNFT (Sample.connected Sample.bob) Sample.buyRevertingEstimate 9 "1.5").trace =
        [.setLoading true, .call (.listings 9), .call (.ownerOf 9), .call (.getBalance Sample.bob),
          .call (.estimateGas 9 1500000000000000000),
          .alert "Purchase failed: Transaction would fail: Marketplace: sale is paused",
          .setLoading false] := by
  decide

/-! ## `handleListNFT` -/

/-- The trace of `handleListNFT` past the entry test. -/
theorem handleListNFT_trace (s : App) (w : World) (signer : Address) (tok : TokenRecord)
    (hc : s.contract = some signer) (hsel : s.selectedNFT = some tok)
    (hprice : s.listingPrice ≠ "") (hpos : w.parseFloatLeZero s.listingPrice = false) :
    (handleListNFT s w).trace =
      Event.setLoading true :: (handleListNFT.body s w tok).trace ++
        (match (handleListNFT.body s w tok).result with
          | .ok _ => []
          | .error e => [Event.alert (handleListNFT.errorMessage e)]) ++ [Event.setLoading false] := by
  unfold handleListNFT
  simp only [hc, hsel, hprice, hpos, decide_False, Bool.or_self, Bool.false_eq_true, if_false,
    Run.bind_eq, Run.andThen, Run.emit, Run.tryFinally, Run.tryCatch]
  cases (handleListNFT.body s w tok).result <;> simp

/-- A run of `handleListNFT` that issues any remote call has passed the entry test. -/
theorem handleListNFT_call_passes_guard (s : App) (w : World) (c : Call)
    (h : Event.call c ∈ (handleListNFT s w).trace) :
    ∃ signer tok, s.contract = some signer ∧ s.selectedNFT = some tok ∧ s.listingPrice ≠ "" ∧
      w.parseFloatLeZero s.listingPrice = false := by
  unfold handleListNFT at h
  cases hc : s.contract with
  | none => simp [hc, Run.emit] at h
  | some signer =>
    cases hsel : s.selectedNFT with
    | none => simp [hc, hsel, Run.emit] at h
    | some tok =>
      by_cases hg : (s.listingPrice = "" || w.parseFloatLeZero s.listingPrice) = true
      · simp [hc, hsel, hg, Run.emit] at h
      · simp only [Bool.or_eq_true, decide_eq_true_eq, not_or, Bool.not_eq_true] at hg
        exact ⟨signer, tok, rfl, rfl, hg.1, hg.2⟩

theorem handleListNFT_errorMessage_notOwner :
    handleListNFT.errorMessage { message := "You no longer own this NFT" } =
      "Listing failed: You no longer own this NFT" := by decide

theorem handleListNFT_errorMessage_listed :
    handleListNFT.errorMessage { message := "This NFT is already listed for sale" } =
      "Listing failed: This NFT is already listed for sale" := by decide

theorem handleListNFT_errorMessage_approval :
    handleListNFT.errorMessage { message := "Approval failed - please try again" } =
      "Listing failed: Failed to approve marketplace - please try again" := by decide

/-- C6. In every run of `handleListNFT` that performs the ownership read and finds an owner
different (case-insensitively) from the acting account, the run consists of that read and the
not-owner failure: neither the approve call nor the listing call is attempted. -/
theorem handleListNFT_not_owner (s : App) (w : World) (tok : TokenRecord) (account owner : Address)
    (hsel : s.selectedNFT = some tok) (ha : s.account = some account)
    (hread : Event.call (.ownerOf tok.tokenId) ∈ (handleListNFT s w).trace)
    (ho : w.contract.ownerOf tok.tokenId = .ok owner)
    (hne : toLowerCase owner ≠ toLowerCase account) :
    (handleListNFT s w).trace =
        [.setLoading true, .call (.ownerOf tok.tokenId),
          .alert "Listing failed: You no longer own this NFT", .setLoading false] ∧
      (∀ op id, Event.call (.approve op id) ∉ (handleListNFT s w).trace) ∧
      (∀ id p, Event.call (.listing id p) ∉ (handleListNFT s w).trace) := by
  obtain ⟨signer, tok', hc, hsel', hprice, hpos⟩ := handleListNFT_call_passes_guard s w _ hread
  rw [hsel] at hsel'
  cases hsel'
  rw [handleListNFT_trace s w signer tok hc hsel hprice hpos] at hread ⊢
  cases hp : w.parseEther s.listingPrice with
  | error e =>
    simp [handleListNFT.body, Run.andThen, Run.ofExcept, hp] at hread
  | ok wei =>
    have htr : Event.setLoading true :: (handleListNFT.body s w tok).trace ++
        (match (handleListNFT.body s w tok).result with
          | .ok _ => []
          | .error e => [Event.alert (handleListNFT.errorMessage e)]) ++ [Event.setLoading false] =
        [.setLoading true, .call (.ownerOf tok.tokenId),
          .alert "Listing failed: You no longer own this NFT", .setLoading false] := by
      simp [handleListNFT.body, Run.andThen, Run.ofExcept, Run.call, Run.raise, Run.ret, hp, ho, ha,
        hne, handleListNFT_errorMessage_notOwner]
    rw [htr]
    refine ⟨rfl, ?_, ?_⟩
    · intro op id hmem
      simp at hmem
    · intro id p hmem
      simp at hmem

/-- Witness of C6: `bob` tries to list token 9, which `alice` owns. -/
theorem handleListNFT_not_owner_witness :
    (handleListNFT (Sample.draft Sample.bob 9 "1") (Sample.worldOf (Sample.saleOf9 true))).trace =
      [.setLoading true, .call (.ownerOf 9), .alert "Listing failed: You no longer own this NFT",
        .setLoading false] :=
  (handleListNFT_not_owner (Sample.draft Sample.bob 9 "1") (Sample.worldOf (Sample.saleOf9 true))
    ⟨9, unknownMetadata, false, "0"⟩ Sample.bob Sample.alice rfl rfl (by decide) (by decide)
    (by decide)).1


/-- A remote call is in the trace of `handleListNFT` exactly when the body issues it. -/
theorem handleListNFT_mem_call (s : App) (w : World) (signer : Address) (tok : TokenRecord)
    (hc : s.contract = some signer) (hsel : s.selectedNFT = some tok)
    (hprice : s.listingPrice ≠ "") (hpos : w.parseFloatLeZero s.listingPrice = false) (c : Call) :
    Event.call c ∈ (handleListNFT s w).trace ↔ Event.call c ∈ (handleListNFT.body s w tok).trace := by
  rw [handleListNFT_trace s w signer tok hc hsel hprice hpos]
  cases (handleListNFT.body s w tok).result <;> simp

/-- The approval step submits the approve call and nothing else that changes state. -/
theorem approval_mem_listing (w : World) (id id' p : Nat) :
    Event.call (.listing id' p) ∉ (handleListNFT.approval w id).trace := by
  unfold handleListNFT.approval
  simp only [Run.bind_eq, Run.pure_eq, Run.mem_trace_andThen, Run.mem_trace_call, Run.mem_trace_emit,
    Run.result_call, Run.result_emit, reduceCtorEq, false_or, Event.call.injEq]
  rintro ⟨_, _, _, _, _, _, _, _, h⟩
  split_ifs at h <;> simp at h

theorem approval_mem_approve (w : World) (id : Nat) :
    Event.call (.approve w.CONTRACT_ADDRESS id) ∈ (handleListNFT.approval w id).trace := by
  unfold handleListNFT.approval
  simp only [Run.bind_eq, Run.pure_eq, Run.mem_trace_andThen, Run.mem_trace_call, Run.mem_trace_emit,
    Run.result_call, Run.result_emit, reduceCtorEq, false_or, Event.call.injEq]
  exact ⟨(), trivial, Or.inl trivial⟩

theorem approval_result_ok (w : World) (id : Nat)
    (h : (handleListNFT.approval w id).result = .ok ()) :
    ∃ tx after newApproval, w.approve w.CONTRACT_ADDRESS id = .ok tx ∧ tx.wait = .ok after ∧
      after.getApproved id = .ok newApproval ∧
      toLowerCase newApproval = toLowerCase w.CONTRACT_ADDRESS := by
  unfold handleListNFT.approval at h
  simp only [Run.bind_eq, Run.pure_eq, Run.result_andThen_ok, Run.result_call, Run.result_emit] at h
  obtain ⟨_, _, tx, htx, after, hafter, ap, hap, h⟩ := h
  refine ⟨tx, after, ap, htx, hafter, hap, ?_⟩
  by_contra hne
  simp [hne] at h

/-- A state-changing call (approve or listing) is issued by the body of `handleListNFT` only
after the ownership test and the not-already-listed test have passed. -/
theorem list_body_passed_checks (s : App) (w : World) (tok : TokenRecord) (ev : Event)
    (hev : (∃ op id, ev = .call (.approve op id)) ∨ (∃ id p, ev = .call (.listing id p)))
    (h : ev ∈ (handleListNFT.body s w tok).trace) :
    ∃ wei account owner l currentApproval all, w.parseEther s.listingPrice = .ok wei ∧
      s.account = some account ∧
      w.contract.ownerOf tok.tokenId = .ok owner ∧ toLowerCase owner = toLowerCase account ∧
      w.contract.listings tok.tokenId = .ok l ∧ ¬ (l.seller ≠ ZERO_ADDRESS ∧ l.price > 0) ∧
      w.contract.getApproved tok.tokenId = .ok currentApproval ∧
      w.contract.isApprovedForAll account w.CONTRACT_ADDRESS = .ok all := by
  unfold handleListNFT.body at h
  simp only [Run.bind_eq, Run.pure_eq, Run.mem_trace_andThen, Run.mem_trace_call, Run.result_call,
    Run.trace_ofExcept, Run.result_ofExcept, List.not_mem_nil, false_or] at h
  obtain ⟨wei, hp, h⟩ := h
  rcases h with h | ⟨owner, ho, h⟩
  · rcases hev with ⟨_, _, rfl⟩ | ⟨_, _, rfl⟩ <;> simp at h
  cases ha : s.account with
  | none => simp [ha] at h
  | some account =>
    simp only [ha, Run.trace_ret, Run.result_ret, List.not_mem_nil, false_or, Except.ok.injEq,
      exists_eq_left'] at h
    by_cases hown : toLowerCase owner = toLowerCase account
    swap
    · simp [hown] at h
    simp only [hown, ne_eq, not_true_eq_false, if_false, Run.mem_trace_andThen, Run.mem_trace_call,
      Run.result_call] at h
    rcases h with h | ⟨l, hl, h⟩
    · rcases hev with ⟨_, _, rfl⟩ | ⟨_, _, rfl⟩ <;> simp at h
    by_cases hact : l.seller ≠ ZERO_ADDRESS ∧ l.price > 0
    · simp [hact] at h
    simp only [hact, if_false, Run.mem_trace_andThen, Run.mem_trace_call, Run.result_call] at h
    rcases h with h | ⟨ap, hap, h⟩
    · rcases hev with ⟨_, _, rfl⟩ | ⟨_, _, rfl⟩ <;> simp at h
    rcases h with h | ⟨all, hall, h⟩
    · rcases hev with ⟨_, _, rfl⟩ | ⟨_, _, rfl⟩ <;> simp at h
    exact ⟨wei, account, owner, l, ap, all, hp, rfl, ho, hown, hl, hact, hap, hall⟩

/-- C5, as amended. In a run of `handleListNFT` on a selected token with a positive proposed
price, when the contract's listing of the token is active: no approve call and no listing
call is submitted; and when the price converts to wei and the ownership test passes, the run
consists of the two reads and the already-listed failure. -/
theorem handleListNFT_already_listed (s : App) (w : World) (signer : Address) (tok : TokenRecord)
    (l : RawListing) (hc : s.contract = some signer) (hsel : s.selectedNFT = some tok)
    (hprice : s.listingPrice ≠ "") (hpos : w.parseFloatLeZero s.listingPrice = false)
    (hl : w.contract.listings tok.tokenId = .ok l)
    (hact : l.seller ≠ ZERO_ADDRESS ∧ l.price > 0) :
    (∀ op id, Event.call (.approve op id) ∉ (handleListNFT s w).trace) ∧
    (∀ id p, Event.call (.listing id p) ∉ (handleListNFT s w).trace) ∧
    (∀ wei account owner, w.parseEther s.listingPrice = .ok wei → s.account = some account →
      w.contract.ownerOf tok.tokenId = .ok owner → toLowerCase owner = toLowerCase account →
      (handleListNFT s w).trace =
        [.setLoading true, .call (.ownerOf tok.tokenId), .call (.listings tok.tokenId),
          .alert "Listing failed: This NFT is already listed for sale", .setLoading false]) := by
  refine ⟨?_, ?_, ?_⟩
  · intro op id hmem
    rw [handleListNFT_mem_call s w signer tok hc hsel hprice hpos] at hmem
    obtain ⟨_, _, _, l', _, _, _, _, _, _, hl', hnot, _⟩ :=
      list_body_passed_checks s w tok _ (Or.inl ⟨op, id, rfl⟩) hmem
    rw [hl] at hl'
    cases hl'
    exact hnot hact
  · intro id p hmem
    rw [handleListNFT_mem_call s w signer tok hc hsel hprice hpos] at hmem
    obtain ⟨_, _, _, l', _, _, _, _, _, _, hl', hnot, _⟩ :=
      list_body_passed_checks s w tok _ (Or.inr ⟨id, p, rfl⟩) hmem
    rw [hl] at hl'
    cases hl'
    exact hnot hact
  · intro wei account owner hp ha ho hown
    rw [handleListNFT_trace s w signer tok hc hsel hprice hpos]
    simp [handleListNFT.body, Run.andThen, Run.ofExcept, Run.call, Run.raise, Run.ret, hp, ho, ha,
      hown, hl, hact.1, hact.2, handleListNFT_errorMessage_listed]

/-- Witness of C5 as amended: `alice` tries to list token 9, which `alice` owns and has listed. -/
theorem handleListNFT_already_listed_witness :
    (handleListNFT (Sample.draft Sample.alice 9 "1") (Sample.worldOf (Sample.saleOf9 true))).trace =
      [.setLoading true, .call (.ownerOf 9), .call (.listings 9),
        .alert "Listing failed: This NFT is already listed for sale", .setLoading false] :=
  (handleListNFT_already_listed (Sample.draft Sample.alice 9 "1")
    (Sample.worldOf (Sample.saleOf9 true)) Sample.alice ⟨9, unknownMetadata, false, "0"⟩
    ⟨Sample.alice, 15 * 10 ^ 17⟩ rfl rfl (by decide) (by decide) (by decide) (by decide)).2.2
    1000000000000000000 Sample.alice Sample.alice (by decide) rfl (by decide) rfl

/-- Counterexample to C5 as stated: token 9 is actively listed (by its owner `alice`), `bob`
has it selected with the positive price 1, and the run ends in the not-owner failure, not in
the already-listed failure. -/
theorem handleListNFT_listed_token_of_other_owner :
    (Sample.worldOf (Sample.saleOf9 true)).contract.listings 9 =
        .ok ⟨Sample.alice, 1500000000000000000⟩ ∧
      (Sample.draft Sample.bob 9 "1").selectedNFT = some ⟨9, unknownMetadata, false, "0"⟩ ∧
      (Sample.worldOf (Sample.saleOf9 true)).parseFloatLeZero "1" = false ∧
      (handleListNFT (Sample.draft Sample.bob 9 "1") (Sample.worldOf (Sample.saleOf9 true))).trace =
        [.setLoading true, .call (.ownerOf 9), .alert "Listing failed: You no longer own this NFT",
          .setLoading false] := by
  decide


/-- The events of the body of `handleListNFT` once the ownership test and the
not-already-listed test have passed and both approval reads have returned. -/
theorem list_body_after_checks (s : App) (w : World) (tok : TokenRecord)
    (account owner : Address) (wei : Nat) (l : RawListing) (ap : Address) (all : Bool)
    (hp : w.parseEther s.listingPrice = .ok wei) (ha : s.account = some account)
    (ho : w.contract.ownerOf tok.tokenId = .ok owner)
    (hown : toLowerCase owner = toLowerCase account)
    (hl : w.contract.listings tok.tokenId = .ok l)
    (hfree : ¬ (l.seller ≠ ZERO_ADDRESS ∧ l.price > 0))
    (hap : w.contract.getApproved tok.tokenId = .ok ap)
    (hall : w.contract.isApprovedForAll account w.CONTRACT_ADDRESS = .ok all) (ev : Event) :
    ev ∈ (handleListNFT.body s w tok).trace ↔
      ev = .call (.ownerOf tok.tokenId) ∨ ev = .call (.listings tok.tokenId) ∨
      ev = .call (.getApproved tok.tokenId) ∨
      ev = .call (.isApprovedForAll account w.CONTRACT_ADDRESS) ∨
      ((toLowerCase ap ≠ toLowerCase w.CONTRACT_ADDRESS ∧ all = false) ∧
        (ev ∈ (handleListNFT.approval w tok.tokenId).trace ∨
          ((handleListNFT.approval w tok.tokenId).result = .ok () ∧
            ev ∈ (handleListNFT.submit s w tok wei).trace))) ∨
      (¬ (toLowerCase ap ≠ toLowerCase w.CONTRACT_ADDRESS ∧ all = false) ∧
        ev ∈ (handleListNFT.submit s w tok wei).trace) := by
  unfold handleListNFT.body
  simp only [Run.bind_eq, Run.pure_eq]
  rw [Run.mem_trace_andThen]
  simp only [Run.trace_ofExcept, Run.result_ofExcept, List.not_mem_nil, false_or, hp,
    Except.ok.injEq, exists_eq_left']
  rw [Run.mem_trace_andThen]
  simp only [Run.mem_trace_call, Run.result_call, ho, Except.ok.injEq, exists_eq_left', ha]
  rw [Run.mem_trace_andThen]
  simp only [Run.trace_ret, Run.result_ret, List.not_mem_nil, false_or, Except.ok.injEq,
    exists_eq_left', hown, ne_eq, not_true_eq_false, if_false]
  rw [Run.mem_trace_andThen]
  simp only [Run.mem_trace_call, Run.result_call, hl, Except.ok.injEq, exists_eq_left', hfree,
    if_false]
  rw [Run.mem_trace_andThen]
  simp only [Run.mem_trace_call, Run.result_call, hap, Except.ok.injEq, exists_eq_left']
  rw [Run.mem_trace_andThen]
  simp only [Run.mem_trace_call, Run.result_call, hall, Except.ok.injEq, exists_eq_left']
  rw [Run.mem_trace_andThen]
  by_cases hneed : ¬toLowerCase ap = toLowerCase w.CONTRACT_ADDRESS ∧ all = false
  · simp only [hneed, and_self, if_true, not_true_eq_false, false_and, or_false, true_and, ne_eq,
      not_false_eq_true, exists_const]
    have hunit : (∃ a, (handleListNFT.approval w tok.tokenId).result = Except.ok a ∧
          ev ∈ (handleListNFT.submit s w tok wei).trace) ↔
        ((handleListNFT.approval w tok.tokenId).result = Except.ok () ∧
          ev ∈ (handleListNFT.submit s w tok wei).trace) :=
      ⟨fun ⟨_, h⟩ => h, fun h => ⟨(), h⟩⟩
    rw [hunit]
  · simp only [hneed, if_false, Run.trace_ret, Run.result_ret, List.not_mem_nil, false_or,
      Except.ok.injEq, exists_const, ne_eq, false_and, not_false_eq_true, true_and]

/-- The calls of the submit step: the listing call and the wait for its finality. -/
theorem submit_mem_call (s : App) (w : World) (tok : TokenRecord) (wei : Nat) (c : Call)
    (h : Event.call c ∈ (handleListNFT.submit s w tok wei).trace) :
    c = .listing tok.tokenId wei ∨ ∃ hash, c = .wait hash := by
  unfold handleListNFT.submit at h
  simp only [Run.bind_eq, Run.mem_trace_andThen, Run.mem_trace_call, Run.mem_trace_emit,
    Run.result_call, Run.result_emit, reduceCtorEq, false_or, Event.call.injEq, and_false,
    exists_false, or_false, exists_const] at h
  rcases h with h | ⟨tx, _, h⟩
  · exact Or.inl h
  · exact Or.inr ⟨tx.hash, h⟩

/-- C7, as amended. In a run of `handleListNFT` that passes the ownership test and the
not-already-listed test (both approval reads returning): the approve call for the marketplace
and the token is submitted exactly when `getApproved` is not the marketplace address and
`isApprovedForAll` is false; a listing call is submitted only if approval was already granted
or the approve transaction reached finality and the approval read afterwards is the
marketplace address; and when the approve transaction reached finality and that read is
another address, the run ends in the approval-failed failure without a listing call. -/
theorem handleListNFT_approval_step (s : App) (w : World) (signer : Address) (tok : TokenRecord)
    (account owner : Address) (wei : Nat) (l : RawListing) (ap : Address) (all : Bool)
    (hc : s.contract = some signer) (hsel : s.selectedNFT = some tok)
    (hprice : s.listingPrice ≠ "") (hpos : w.parseFloatLeZero s.listingPrice = false)
    (hp : w.parseEther s.listingPrice = .ok wei) (ha : s.account = some account)
    (ho : w.contract.ownerOf tok.tokenId = .ok owner)
    (hown : toLowerCase owner = toLowerCase account)
    (hl : w.contract.listings tok.tokenId = .ok l)
    (hfree : ¬ (l.seller ≠ ZERO_ADDRESS ∧ l.price > 0))
    (hap : w.contract.getApproved tok.tokenId = .ok ap)
    (hall : w.contract.isApprovedForAll account w.CONTRACT_ADDRESS = .ok all) :
    (Event.call (.approve w.CONTRACT_ADDRESS tok.tokenId) ∈ (handleListNFT s w).trace ↔
      (toLowerCase ap ≠ toLowerCase w.CONTRACT_ADDRESS ∧ all = false)) ∧
    (∀ id p, Event.call (.listing id p) ∈ (handleListNFT s w).trace →
      (toLowerCase ap = toLowerCase w.CONTRACT_ADDRESS ∨ all = true) ∨
      ∃ tx after newApproval, w.approve w.CONTRACT_ADDRESS tok.tokenId = .ok tx ∧
        tx.wait = .ok after ∧ after.getApproved tok.tokenId = .ok newApproval ∧
        toLowerCase newApproval = toLowerCase w.CONTRACT_ADDRESS) ∧
    (∀ tx after newApproval, toLowerCase ap ≠ toLowerCase w.CONTRACT_ADDRESS → all = false →
      w.approve w.CONTRACT_ADDRESS tok.tokenId = .ok tx → tx.wait = .ok after →
      after.getApproved tok.tokenId = .ok newApproval →
      toLowerCase newApproval ≠ toLowerCase w.CONTRACT_ADDRESS →
      (handleListNFT s w).trace =
        [.setLoading true, .call (.ownerOf tok.tokenId), .call (.listings tok.tokenId),
          .call (.getApproved tok.tokenId), .call (.isApprovedForAll account w.CONTRACT_ADDRESS),
          .alert "Please approve the marketplace contract in the next transaction to list your NFT.",
          .call (.approve w.CONTRACT_ADDRESS tok.tokenId), .call (.wait tx.hash),
          .call (.getApproved tok.tokenId),
          .alert "Listing failed: Failed to approve marketplace - please try again",
          .setLoading false]) := by
  have hmem := fun c => (handleListNFT_mem_call s w signer tok hc hsel hprice hpos c).trans
    (list_body_after_checks s w tok account owner wei l ap all hp ha ho hown hl hfree hap hall
      (Event.call c))
  refine ⟨?_, ?_, ?_⟩
  · rw [hmem]
    simp only [Event.call.injEq, reduceCtorEq, false_or]
    constructor
    · rintro (⟨hneed, _⟩ | ⟨_, h⟩)
      · exact hneed
      · rcases submit_mem_call s w tok wei _ h with h | ⟨_, h⟩ <;> cases h
    · intro hneed
      exact Or.inl ⟨hneed, Or.inl (approval_mem_approve w tok.tokenId)⟩
  · intro id p h
    rw [hmem] at h
    simp only [Event.call.injEq, reduceCtorEq, false_or] at h
    rcases h with ⟨_, h | ⟨hok, _⟩⟩ | ⟨hno, _⟩
    · exact absurd h (approval_mem_listing w tok.tokenId id p)
    · exact Or.inr (approval_result_ok w tok.tokenId hok)
    · left
      by_cases h1 : toLowerCase ap = toLowerCase w.CONTRACT_ADDRESS
      · exact Or.inl h1
      · right
        cases all with
        | true => rfl
        | false => exact absurd ⟨h1, rfl⟩ hno
  · intro tx after newApproval h1 h2 htx hwait hnew hne
    rw [handleListNFT_trace s w signer tok hc hsel hprice hpos]
    have hfree' : ¬ (¬ l.seller = ZERO_ADDRESS ∧ 0 < l.price) := hfree
    simp [handleListNFT.body, handleListNFT.approval, Run.andThen, Run.ofExcept, Run.call,
      Run.raise, Run.ret, Run.emit, hp, ho, ha, hown, hl, hfree', hap, hall, h1, h2, htx, hwait,
      hnew, hne, handleListNFT_errorMessage_approval]

/-- Witness of C7 as amended: `alice` lists token 5 without any approval in place, so the approve call is
submitted. -/
theorem handleListNFT_approval_step_witness :
    Event.call (.approve Sample.listWorld.CONTRACT_ADDRESS 5) ∈
      (handleListNFT (Sample.draft Sample.alice 5 "0.25") Sample.listWorld).trace :=
  (handleListNFT_approval_step (Sample.draft Sample.alice 5 "0.25") Sample.listWorld Sample.alice
    ⟨5, unknownMetadata, false, "0"⟩ Sample.alice Sample.alice 250000000000000000
    ⟨ZERO_ADDRESS, 0⟩ ZERO_ADDRESS false rfl rfl (by decide) (by decide) (by decide) rfl
    (by decide) rfl (by decide) (by decide) (by decide) (by decide)).1.mpr ⟨by decide, rfl⟩

/-- Counterexample to C7 as stated: the ownership test and the not-already-listed test pass,
approval is not granted, and the user rejects the approve transaction, so neither condition
for the listing call holds; no listing call is submitted, but the run ends in the
user-rejected failure, not in the approval-failed failure. -/
theorem handleListNFT_rejected_approval_ends_in_rejection :
    Sample.unlisted5.getApproved 5 = .ok ZERO_ADDRESS ∧
      toLowerCase ZERO_ADDRESS ≠ toLowerCase (Sample.worldOf Sample.unlisted5).CONTRACT_ADDRESS ∧
      Sample.unlisted5.isApprovedForAll Sample.alice Sample.market = .ok false ∧
      (∃ e, (Sample.worldOf Sample.unlisted5).approve Sample.market 5 = .error e) ∧
      (handleListNFT (Sample.draft Sample.alice 5 "0.25") (Sample.worldOf Sample.unlisted5)).trace =
        [.setLoading true, .call (.ownerOf 5), .call (.listings 5), .call (.getApproved 5),
          .call (.isApprovedForAll Sample.alice Sample.market),
          .alert "Please approve the marketplace contract in the next transaction to list your NFT.",
          .call (.approve Sample.market 5),
          .alert "Listing failed: Transaction cancelled by user", .setLoading false] := by
  refine ⟨by decide, by decide, by decide, ⟨_, rfl⟩, by decide⟩


/-! ## `fetchMyNFTs`: the enumeration -/

/-- The indexed loop leaves on `tokenIds` what it started with followed by answers of
`tokenOfOwnerByIndex`, and issues only those lookups. -/
theorem byIndex_tokenIds (c : Contract) (account : Address) (k : Nat) :
    ∀ (i : Nat) (acc : List Nat),
      (∀ id ∈ (fetchMyNFTs.byIndex c account i k acc).tokenIds,
        id ∈ acc ∨ ∃ j, i ≤ j ∧ j < i + k ∧ c.tokenOfOwnerByIndex account j = .ok id) ∧
      (∀ ev ∈ (fetchMyNFTs.byIndex c account i k acc).run.trace,
        ∃ j, ev = .call (.tokenOfOwnerByIndex account j)) := by
  induction k with
  | zero =>
    intro i acc
    simp only [fetchMyNFTs.byIndex, Run.pure_eq, Run.trace_ret, List.not_mem_nil, false_implies,
      implies_true, and_true]
    exact fun id hid => Or.inl hid
  | succ k ih =>
    intro i acc
    unfold fetchMyNFTs.byIndex
    cases h : c.tokenOfOwnerByIndex account i with
    | error e =>
      simp only []
      exact ⟨fun id hid => Or.inl hid, fun ev hev => ⟨i, by simpa using hev⟩⟩
    | ok tokenId =>
      simp only []
      obtain ⟨ih1, ih2⟩ := ih (i + 1) (acc ++ [tokenId])
      constructor
      · intro id hid
        rcases ih1 id hid with hmem | ⟨j, hj1, hj2, hj3⟩
        · rcases List.mem_append.mp hmem with hmem | hmem
          · exact Or.inl hmem
          · simp only [List.mem_singleton] at hmem
            subst hmem
            exact Or.inr ⟨i, le_refl _, by omega, h⟩
        · exact Or.inr ⟨j, by omega, by omega, hj3⟩
      · intro ev hev
        simp only [List.mem_cons] at hev
        rcases hev with rfl | hev
        · exact ⟨i, rfl⟩
        · exact ih2 ev hev

/-- When every lookup succeeds, the indexed loop appends the answers in index order. -/
theorem byIndex_complete (c : Contract) (account : Address) (f : Nat → Nat) (k : Nat) :
    ∀ (i : Nat) (acc : List Nat),
      (∀ j, i ≤ j → j < i + k → c.tokenOfOwnerByIndex account j = .ok (f j)) →
      (fetchMyNFTs.byIndex c account i k acc).tokenIds = acc ++ (List.range' i k).map f ∧
      (fetchMyNFTs.byIndex c account i k acc).run.result = .ok () := by
  induction k with
  | zero =>
    intro i acc _
    simp [fetchMyNFTs.byIndex, Run.ret]
  | succ k ih =>
    intro i acc h
    unfold fetchMyNFTs.byIndex
    rw [h i (le_refl _) (by omega)]
    simp only []
    obtain ⟨h1, h2⟩ := ih (i + 1) (acc ++ [f i]) (fun j hj1 hj2 => h j (by omega) (by omega))
    exact ⟨by rw [h1]; simp [List.range'_succ], h2⟩

/-- The manual scan never throws: it appends, in ascending order, the ids of its range whose
`ownerOf` read succeeds and names the account, and issues only `ownerOf` reads. -/
theorem scan_result (c : Contract) (account : Address) (k : Nat) :
    ∀ (i : Nat) (acc : List Nat),
      (fetchMyNFTs.scan c account i k acc).result =
          .ok (acc ++ (List.range' i k).filter (fun id => ownedBy c id account)) ∧
      (∀ ev ∈ (fetchMyNFTs.scan c account i k acc).trace, ∃ id, ev = .call (.ownerOf id)) := by
  induction k with
  | zero =>
    intro i acc
    simp [fetchMyNFTs.scan, Run.ret]
  | succ k ih =>
    intro i acc
    unfold fetchMyNFTs.scan
    simp only [Run.bind_eq, Run.pure_eq]
    cases h : c.ownerOf i with
    | error e =>
      obtain ⟨ih1, ih2⟩ := ih (i + 1) acc
      have hown : ownedBy c i account = false := by simp [ownedBy, h]
      constructor
      · simp [Run.andThen, Run.tryCatch, Run.call, Run.ret, h, ih1, List.range'_succ, hown]
      · intro ev hev
        simp [Run.andThen, Run.tryCatch, Run.call, Run.ret, h] at hev
        rcases hev with rfl | hev
        · exact ⟨i, rfl⟩
        · exact ih2 ev hev
    | ok owner =>
      by_cases hm : toLowerCase owner = toLowerCase account
      · obtain ⟨ih1, ih2⟩ := ih (i + 1) (acc ++ [i])
        have hown : ownedBy c i account = true := by simp [ownedBy, h, hm]
        constructor
        · simp [Run.andThen, Run.tryCatch, Run.call, Run.ret, h, hm, ih1, List.range'_succ, hown]
        · intro ev hev
          simp [Run.andThen, Run.tryCatch, Run.call, Run.ret, h, hm] at hev
          rcases hev with rfl | hev
          · exact ⟨i, rfl⟩
          · exact ih2 ev hev
      · obtain ⟨ih1, ih2⟩ := ih (i + 1) acc
        have hown : ownedBy c i account = false := by simp [ownedBy, h, hm]
        constructor
        · simp [Run.andThen, Run.tryCatch, Run.call, Run.ret, h, hm, ih1, List.range'_succ, hown]
        · intro ev hev
          simp [Run.andThen, Run.tryCatch, Run.call, Run.ret, h, hm] at hev
          rcases hev with rfl | hev
          · exact ⟨i, rfl⟩
          · exact ih2 ev hev


/-- Method 2 leaves on `tokenIds` only answers of `tokenOfOwnerByIndex` at indices below the
balance, and issues only the balance read and those lookups. -/
theorem method2_tokenIds (c : Contract) (account : Address) :
    (∀ id ∈ (fetchMyNFTs.method2 c account).tokenIds,
      ∃ n j, c.balanceOf account = .ok n ∧ j < n ∧ c.tokenOfOwnerByIndex account j = .ok id) ∧
    (∀ ev ∈ (fetchMyNFTs.method2 c account).run.trace, ev.isManualScanRead = false) := by
  unfold fetchMyNFTs.method2
  cases hb : c.balanceOf account with
  | error e =>
    simp only []
    exact ⟨fun id hid => by simp at hid, fun ev hev => by
      simp only [List.mem_singleton] at hev; subst hev; rfl⟩
  | ok n =>
    simp only []
    obtain ⟨h1, h2⟩ := byIndex_tokenIds c account n 0 []
    constructor
    · intro id hid
      rcases h1 id hid with hmem | ⟨j, _, hj, hjid⟩
      · simp at hmem
      · exact ⟨n, j, rfl, by omega, hjid⟩
    · intro ev hev
      simp only [List.mem_cons] at hev
      rcases hev with rfl | hev
      · rfl
      · obtain ⟨j, rfl⟩ := h2 ev hev
        rfl

/-- Method 3 on the array `acc`: it fails exactly when the total-supply read fails, and
otherwise returns `acc` followed by the ids below the total supply that `ownerOf` gives to
the account, in ascending order. -/
theorem method3_result (c : Contract) (account : Address) (acc : List Nat) :
    (fetchMyNFTs.method3 c account acc).result =
      match totalSupplyRead c with
      | .ok n => .ok (acc ++ (List.range n).filter (fun id => ownedBy c id account))
      | .error _ =>
        .error { message := "Could not fetch your NFTs. Please check contract implementation." } := by
  unfold fetchMyNFTs.method3 totalSupplyRead
  by_cases hg : c.hasGetTotalSupply = true
  · simp only [hg, if_true, Run.bind_eq]
    cases hs : c.getTotalSupply with
    | error e => simp [Run.tryCatch, Run.andThen, Run.call, Run.raise, hs]
    | ok n =>
      simp [Run.tryCatch, Run.andThen, Run.call, Run.raise, hs, (scan_result c account n 0 acc).1,
        List.range_eq_range']
  · simp only [hg, Bool.false_eq_true, if_false, Run.bind_eq]
    cases hs : c.totalSupply with
    | error e => simp [Run.tryCatch, Run.andThen, Run.call, Run.raise, hs]
    | ok n =>
      simp [Run.tryCatch, Run.andThen, Run.call, Run.raise, hs, (scan_result c account n 0 acc).1,
        List.range_eq_range']

/-- The value of `tokenIds` by strategy: the answer of `tokensOfOwner`; else what method 2
pushed when it completes; else what method 2 pushed before it threw, followed by the result of
the manual scan. -/
theorem tokenIds_result (c : Contract) (account : Address) :
    (fetchMyNFTs.tokenIds c account).result =
      match c.tokensOfOwner account with
      | .ok ids => .ok ids
      | .error _ =>
        match (fetchMyNFTs.method2 c account).run.result with
        | .ok _ => .ok (fetchMyNFTs.method2 c account).tokenIds
        | .error _ =>
          match totalSupplyRead c with
          | .ok n => .ok ((fetchMyNFTs.method2 c account).tokenIds ++
              (List.range n).filter (fun id => ownedBy c id account))
          | .error _ =>
            .error { message := "Could not fetch your NFTs. Please check contract implementation." } := by
  unfold fetchMyNFTs.tokenIds
  cases h1 : c.tokensOfOwner account with
  | ok ids => simp [Run.tryCatch, Run.call, h1]
  | error e =>
    simp only [Run.tryCatch, Run.call, h1]
    cases h2 : (fetchMyNFTs.method2 c account).run.result with
    | ok u => simp
    | error e2 => simp [method3_result]


/-- Building the record of a token reads its URI, its listing status and its metadata: no
total-supply read and no `ownerOf` read. -/
theorem record_trace (w : World) (account : Address) (id : Nat) :
    ∀ ev ∈ (fetchMyNFTs.record w account id).trace, ev.isManualScanRead = false := by
  intro ev h
  unfold fetchMyNFTs.record fetchMyNFTs.listingStatus fetchMyNFTs.metadata at h
  simp only [Run.bind_eq, Run.pure_eq, Run.mem_trace_tryCatch, Run.mem_trace_andThen,
    Run.mem_trace_call, Run.result_call, Run.trace_ret, List.not_mem_nil, and_false, exists_false,
    or_false, exists_const] at h
  rcases h with rfl | ⟨uri, _, h⟩
  · rfl
  rcases h with h | ⟨st, _, h⟩
  · by_cases hg : w.contract.hasGetListingInfo = true
    · simp only [hg, if_true, Run.mem_trace_andThen, Run.mem_trace_call, Run.result_call,
        Run.trace_ret, List.not_mem_nil, and_false, exists_false, or_false] at h
      subst h
      rfl
    · simp only [hg, Bool.false_eq_true, if_false, Run.mem_trace_andThen, Run.mem_trace_call,
        Run.result_call, Run.trace_ret, List.not_mem_nil, and_false, exists_false, or_false] at h
      subst h
      rfl
  · rcases h with (rfl | ⟨r, _, h⟩)
    · rfl
    · split_ifs at h <;> simp at h

/-- Building the records never throws, keeps one record per id in order, and adds no read of
the manual scan to the trace. -/
theorem records_result (w : World) (account : Address) (ids : List Nat) :
    (∃ rs, (fetchMyNFTs.records w account ids).result = .ok rs ∧ rs.map (·.tokenId) = ids) ∧
    (∀ ev ∈ (fetchMyNFTs.records w account ids).trace, ev.isManualScanRead = false) := by
  induction ids with
  | nil => simp [fetchMyNFTs.records, Run.ret]
  | cons id rest ih =>
    obtain ⟨⟨rs, hrs, hmap⟩, htr⟩ := ih
    have hrec : ∃ r, (fetchMyNFTs.record w account id).result = .ok r ∧ r.tokenId = id := by
      unfold fetchMyNFTs.record
      simp only [Run.bind_eq, Run.pure_eq]
      cases hres : (Run.andThen (call (.tokenURI id) (w.contract.tokenURI id)) fun tokenURI =>
          Run.andThen (fetchMyNFTs.listingStatus w account id) fun status =>
            Run.andThen (fetchMyNFTs.metadata w tokenURI) fun metadata =>
              Run.ret ({ tokenId := id, metadata := metadata, isListed := status.1,
                         listingPrice := status.2 } : TokenRecord)).result with
      | error e =>
        exact ⟨{ tokenId := id, metadata := .record "Error" "Failed to load NFT data" none,
                 isListed := false, listingPrice := "0" },
          by rw [Run.tryCatch_result_of_error _ hres]; rfl, rfl⟩
      | ok r =>
        refine ⟨r, Run.tryCatch_result_of_ok _ hres, ?_⟩
        simp only [Run.result_andThen_ok, Run.result_ret, Except.ok.injEq] at hres
        obtain ⟨_, _, _, _, _, _, hr⟩ := hres
        rw [← hr]
    obtain ⟨r, hr, hid⟩ := hrec
    constructor
    · refine ⟨r :: rs, ?_, by simp [hid, hmap]⟩
      simp [fetchMyNFTs.records, Run.andThen, hr, hrs, Run.ret]
    · intro ev hev
      simp only [fetchMyNFTs.records, Run.bind_eq, Run.pure_eq, Run.mem_trace_andThen,
        Run.trace_ret, List.not_mem_nil, and_false, exists_false, or_false] at hev
      rcases hev with hev | ⟨_, _, hev⟩
      · exact record_trace w account id ev hev
      · exact htr ev hev


/-- Method 2 when the balance read and every lookup below the balance succeed. -/
theorem method2_complete (c : Contract) (account : Address) (n : Nat) (f : Nat → Nat)
    (hb : c.balanceOf account = .ok n)
    (hidx : ∀ i, i < n → c.tokenOfOwnerByIndex account i = .ok (f i)) :
    (fetchMyNFTs.method2 c account).tokenIds = (List.range n).map f ∧
      (fetchMyNFTs.method2 c account).run.result = .ok () := by
  obtain ⟨h1, h2⟩ := byIndex_complete c account f n 0 [] (fun j _ hj => hidx j (by omega))
  unfold fetchMyNFTs.method2
  simp only [hb]
  exact ⟨by rw [h1]; simp [List.range_eq_range'], h2⟩

/-- C10. When `tokensOfOwner` fails, `balanceOf` returns `n` and every indexed lookup below `n`
succeeds, the enumerated id list is the lookups in index order, these are the token ids of the
records that `fetchMyNFTs` stores, and the run issues no total-supply read and no `ownerOf`
read. -/
theorem fetchMyNFTs_indexed_lookup (s : App) (w : World) (signer account : Address) (e : Err)
    (n : Nat) (f : Nat → Nat) (hc : s.contract = some signer) (ha : s.account = some account)
    (h1 : w.contract.tokensOfOwner account = .error e)
    (hb : w.contract.balanceOf account = .ok n)
    (hidx : ∀ i, i < n → w.contract.tokenOfOwnerByIndex account i = .ok (f i)) :
    (fetchMyNFTs.tokenIds w.contract account).result = .ok ((List.range n).map f) ∧
    (∃ nfts, Event.setMyNFTs nfts ∈ (fetchMyNFTs s w).trace ∧
      nfts.map (·.tokenId) = (List.range n).map f) ∧
    (∀ ev ∈ (fetchMyNFTs s w).trace, ev.isManualScanRead = false) := by
  obtain ⟨hm2ids, hm2ok⟩ := method2_complete w.contract account n f hb hidx
  have hres : (fetchMyNFTs.tokenIds w.contract account).result = .ok ((List.range n).map f) := by
    rw [tokenIds_result, h1]
    simp only [hm2ok, hm2ids]
  have htrace : (fetchMyNFTs.tokenIds w.contract account).trace =
      Event.call (.tokensOfOwner account) :: (fetchMyNFTs.method2 w.contract account).run.trace := by
    unfold fetchMyNFTs.tokenIds
    simp [Run.tryCatch, Run.call, h1, hm2ok]
  obtain ⟨⟨rs, hrs, hmap⟩, hrtr⟩ := records_result w account ((List.range n).map f)
  have hfull : (fetchMyNFTs s w).trace =
      [Event.setLoading true, Event.call (.tokensOfOwner account)] ++
        (fetchMyNFTs.method2 w.contract account).run.trace ++
        (fetchMyNFTs.records w account ((List.range n).map f)).trace ++
        [Event.setMyNFTs rs, Event.setLoading false] := by
    unfold fetchMyNFTs
    simp [hc, ha, Run.andThen, Run.emit, Run.tryFinally, Run.tryCatch, hres, htrace, hrs]
  refine ⟨hres, ⟨rs, ?_, hmap⟩, ?_⟩
  · rw [hfull]; simp
  · intro ev hev
    rw [hfull] at hev
    simp only [List.mem_append, List.mem_cons, List.mem_singleton, List.not_mem_nil, or_false] at hev
    rcases hev with ((hev | hev) | hev) | hev
    · rcases hev with rfl | rfl <;> rfl
    · exact (method2_tokenIds w.contract account).2 ev hev
    · exact hrtr ev hev
    · rcases hev with rfl | rfl <;> rfl

/-- Witness of C10 (scenario S1): balance 2 and lookups 7 and 19 give the id list `[7, 19]`. -/
theorem fetchMyNFTs_indexed_lookup_witness :
    (fetchMyNFTs.tokenIds (Sample.worldOf Sample.enumS1).contract Sample.alice).result =
      .ok [7, 19] :=
  (fetchMyNFTs_indexed_lookup (Sample.connected Sample.alice) (Sample.worldOf Sample.enumS1)
    Sample.alice Sample.alice Sample.missing 2 (fun i => if i = 0 then 7 else 19) rfl rfl rfl rfl
    (by
      intro i hi
      interval_cases i <;> rfl)).1

/-- C8, as amended. When the contract's own enumeration answers are consistent with `ownerOf`
(every id in the answer of `tokensOfOwner(account)` and every answer of
`tokenOfOwnerByIndex(account, j)` below the balance is one that `ownerOf` gives to the
account), every id that `fetchMyNFTs` enumerates, by whichever strategy, is one that `ownerOf`
gives to the account. The ids found by the manual scan need no such assumption. -/
theorem fetchMyNFTs_tokenIds_owned (c : Contract) (account : Address) (ids : List Nat)
    (hdirect : ∀ l, c.tokensOfOwner account = .ok l → ∀ id ∈ l, ownedBy c id account = true)
    (hindexed : ∀ n j id, c.balanceOf account = .ok n → j < n →
      c.tokenOfOwnerByIndex account j = .ok id → ownedBy c id account = true)
    (h : (fetchMyNFTs.tokenIds c account).result = .ok ids) :
    ∀ id ∈ ids, ∃ owner, c.ownerOf id = .ok owner ∧ toLowerCase owner = toLowerCase account := by
  intro id hid
  rw [← ownedBy_iff]
  have hm2 : ∀ id ∈ (fetchMyNFTs.method2 c account).tokenIds, ownedBy c id account = true := by
    intro id hid
    obtain ⟨n, j, hb, hj, hjid⟩ := (method2_tokenIds c account).1 id hid
    exact hindexed n j id hb hj hjid
  rw [tokenIds_result] at h
  cases h1 : c.tokensOfOwner account with
  | ok l =>
    simp only [h1, Except.ok.injEq] at h
    subst h
    exact hdirect _ h1 id hid
  | error e =>
    simp only [h1] at h
    cases h2 : (fetchMyNFTs.method2 c account).run.result with
    | ok u =>
      simp only [h2, Except.ok.injEq] at h
      subst h
      exact hm2 id hid
    | error e2 =>
      simp only [h2] at h
      cases h3 : totalSupplyRead c with
      | error e3 => simp [h3] at h
      | ok n =>
        simp only [h3, Except.ok.injEq] at h
        subst h
        rcases List.mem_append.mp hid with hid | hid
        · exact hm2 id hid
        · exact (List.mem_filter.mp hid).2

/-- Witness of C8 as amended (scenario S1): the id list is `[7, 19]`, and the id 19 returned
by the indexed lookups is a token that `ownerOf` gives to `alice`. -/
theorem fetchMyNFTs_tokenIds_owned_witness :
    (fetchMyNFTs.tokenIds Sample.enumS1 Sample.alice).result = .ok [7, 19] ∧
      ∃ owner, Sample.enumS1.ownerOf 19 = .ok owner ∧
        toLowerCase owner = toLowerCase Sample.alice :=
  ⟨by decide,
    fetchMyNFTs_tokenIds_owned Sample.enumS1 Sample.alice [7, 19]
      (by intro l hl; cases hl)
      (by
        intro n j id hb hj hjid
        cases hb
        interval_cases j
        · cases hjid; decide
        · cases hjid; decide)
      (by decide) 19 (by decide)⟩

/-- Counterexample to C8 as stated: `tokensOfOwner` lists token 7 for `alice`, `fetchMyNFTs`
enumerates it and stores its record, and `ownerOf(7)` is `bob` in the same contract state. -/
theorem fetchMyNFTs_reports_token_of_other_owner :
    (fetchMyNFTs.tokenIds Sample.enumOfMinter Sample.alice).result = .ok [7] ∧
      ((Sample.connected Sample.alice).after
        (fetchMyNFTs (Sample.connected Sample.alice) (Sample.worldOf Sample.enumOfMinter)).trace).myNFTs.map
          (·.tokenId) = [7] ∧
      Sample.enumOfMinter.ownerOf 7 = .ok Sample.bob ∧
      toLowerCase Sample.bob ≠ toLowerCase Sample.alice := by
  decide

/-- C9, at a failing input: `tokensOfOwner` fails, method 2 fails at its second lookup after
pushing token 0, the total supply is 5 and the owners are `[A, B, A, B, A]`. The ids owned by
the account are `[0, 2, 4]`, and the enumerated list is `[0, 0, 2, 4]`: the id pushed by the
abandoned method 2 stays on `tokenIds` and the manual scan appends to it. -/
theorem fetchMyNFTs_tokenIds_keeps_abandoned_lookups :
    (∃ e, Sample.enumInterrupted.tokensOfOwner Sample.alice = .error e) ∧
      (∃ e, (fetchMyNFTs.method2 Sample.enumInterrupted Sample.alice).run.result = .error e) ∧
      totalSupplyRead Sample.enumInterrupted = .ok 5 ∧
      (List.range 5).filter (fun id => ownedBy Sample.enumInterrupted id Sample.alice) = [0, 2, 4] ∧
      (fetchMyNFTs.tokenIds Sample.enumInterrupted Sample.alice).result = .ok [0, 0, 2, 4] ∧
      ((Sample.connected Sample.alice).after
        (fetchMyNFTs (Sample.connected Sample.alice) (Sample.worldOf Sample.enumInterrupted)).trace).myNFTs.map
          (·.tokenId) = [0, 0, 2, 4] := by
  refine ⟨⟨_, rfl⟩, ⟨_, rfl⟩, ?_, ?_, ?_, ?_⟩ <;> decide


/-! ## `fetchMyNFTs`: failure of the enumeration and the records -/

theorem method2_onlyCalls (c : Contract) (account : Address) :
    onlyCalls (fetchMyNFTs.method2 c account).run.trace := by
  unfold fetchMyNFTs.method2
  cases hb : c.balanceOf account with
  | error e => exact onlyCalls_single _
  | ok n =>
    intro ev hev
    simp only [List.mem_cons] at hev
    rcases hev with rfl | hev
    · exact ⟨_, rfl⟩
    · obtain ⟨j, rfl⟩ := (byIndex_tokenIds c account n 0 []).2 ev hev
      exact ⟨_, rfl⟩

theorem method3_onlyCalls (c : Contract) (account : Address) (acc : List Nat) :
    onlyCalls (fetchMyNFTs.method3 c account acc).trace := by
  unfold fetchMyNFTs.method3
  apply onlyCalls_tryCatch
  · have hscan : ∀ n, onlyCalls (fetchMyNFTs.scan c account 0 n acc).trace := by
      intro n ev hev
      obtain ⟨id, rfl⟩ := (scan_result c account n 0 acc).2 ev hev
      exact ⟨_, rfl⟩
    simp only [Run.bind_eq]
    split
    · exact onlyCalls_andThen _ _ (onlyCalls_call _ _) hscan
    · exact onlyCalls_andThen _ _ (onlyCalls_call _ _) hscan
  · intro e
    simp [onlyCalls_nil]

theorem tokenIds_onlyCalls (c : Contract) (account : Address) :
    onlyCalls (fetchMyNFTs.tokenIds c account).trace := by
  unfold fetchMyNFTs.tokenIds
  apply onlyCalls_tryCatch
  · exact onlyCalls_call _ _
  · intro e
    simp only []
    split
    · exact method2_onlyCalls c account
    · exact onlyCalls_append (method2_onlyCalls c account) (method3_onlyCalls c account _)

theorem listingStatus_onlyCalls (w : World) (account : Address) (id : Nat) :
    onlyCalls (fetchMyNFTs.listingStatus w account id).trace := by
  unfold fetchMyNFTs.listingStatus
  apply onlyCalls_tryCatch
  · split
    · simp only [Run.bind_eq]
      apply onlyCalls_andThen
      · exact onlyCalls_call _ _
      · intro a; simp [onlyCalls_nil]
    · simp only [Run.bind_eq]
      apply onlyCalls_andThen
      · exact onlyCalls_call _ _
      · intro a; simp [onlyCalls_nil]
  · intro e; simp [onlyCalls_nil]

theorem ownedMetadata_onlyCalls (w : World) (u : String) :
    onlyCalls (fetchMyNFTs.metadata w u).trace := by
  unfold fetchMyNFTs.metadata
  apply onlyCalls_tryCatch
  · simp only [Run.bind_eq]
    apply onlyCalls_andThen
    · exact onlyCalls_call _ _
    · intro a; split
      · simp [onlyCalls_nil]
      · simp [onlyCalls_nil]
  · intro e; simp [onlyCalls_nil]

theorem record_onlyCalls (w : World) (account : Address) (id : Nat) :
    onlyCalls (fetchMyNFTs.record w account id).trace := by
  unfold fetchMyNFTs.record
  apply onlyCalls_tryCatch
  · simp only [Run.bind_eq]
    apply onlyCalls_andThen
    · exact onlyCalls_call _ _
    · intro u
      apply onlyCalls_andThen
      · exact listingStatus_onlyCalls _ _ _
      · intro st
        apply onlyCalls_andThen
        · exact ownedMetadata_onlyCalls _ _
        · intro m; simp [onlyCalls_nil]
  · intro e; simp [onlyCalls_nil]

theorem records_onlyCalls (w : World) (account : Address) (ids : List Nat) :
    onlyCalls (fetchMyNFTs.records w account ids).trace := by
  induction ids with
  | nil => simp [fetchMyNFTs.records, onlyCalls_nil]
  | cons id rest ih =>
    simp only [fetchMyNFTs.records, Run.bind_eq]
    apply onlyCalls_andThen
    · exact record_onlyCalls _ _ _
    · intro r
      apply onlyCalls_andThen
      · exact ih
      · intro rs; simp [onlyCalls_nil]

/-- The trace of `fetchMyNFTs` for a connected client when the enumeration returns `ids`. -/
theorem fetchMyNFTs_trace_ok (s : App) (w : World) (signer account : Address) (ids : List Nat)
    (rs : List TokenRecord) (hc : s.contract = some signer) (ha : s.account = some account)
    (hids : (fetchMyNFTs.tokenIds w.contract account).result = .ok ids)
    (hrs : (fetchMyNFTs.records w account ids).result = .ok rs) :
    (fetchMyNFTs s w).trace =
      [Event.setLoading true] ++ (fetchMyNFTs.tokenIds w.contract account).trace ++
        (fetchMyNFTs.records w account ids).trace ++ [.setMyNFTs rs, .setLoading false] := by
  unfold fetchMyNFTs
  simp [hc, ha, Run.andThen, Run.emit, Run.tryFinally, Run.tryCatch, hids, hrs]

/-- The trace of `fetchMyNFTs` for a connected client when the enumeration fails. -/
theorem fetchMyNFTs_trace_error (s : App) (w : World) (signer account : Address) (e : Err)
    (hc : s.contract = some signer) (ha : s.account = some account)
    (hids : (fetchMyNFTs.tokenIds w.contract account).result = .error e) :
    (fetchMyNFTs s w).trace =
      [Event.setLoading true] ++ (fetchMyNFTs.tokenIds w.contract account).trace ++
        [.alert ("Error fetching your NFTs: " ++ e.message), .setMyNFTs [], .setLoading false] := by
  unfold fetchMyNFTs
  simp [hc, ha, Run.andThen, Run.emit, Run.tryFinally, Run.tryCatch, hids]

/-- The indexed loop throws exactly when one of its lookups fails. -/
theorem byIndex_fails_iff (c : Contract) (account : Address) (k : Nat) :
    ∀ (i : Nat) (acc : List Nat),
      (∃ e, (fetchMyNFTs.byIndex c account i k acc).run.result = .error e) ↔
        ∃ j e, i ≤ j ∧ j < i + k ∧ c.tokenOfOwnerByIndex account j = .error e := by
  induction k with
  | zero =>
    intro i acc
    simp only [fetchMyNFTs.byIndex, Run.pure_eq, Run.result_ret, reduceCtorEq, exists_false,
      false_iff]
    rintro ⟨j, e, h1, h2, _⟩
    omega
  | succ k ih =>
    intro i acc
    unfold fetchMyNFTs.byIndex
    cases h : c.tokenOfOwnerByIndex account i with
    | error e =>
      simp only []
      exact ⟨fun _ => ⟨i, e, le_refl _, by omega, h⟩, fun _ => ⟨e, rfl⟩⟩
    | ok id =>
      simp only []
      rw [ih (i + 1) (acc ++ [id])]
      constructor
      · rintro ⟨j, e, h1, h2, h3⟩
        exact ⟨j, e, by omega, by omega, h3⟩
      · rintro ⟨j, e, h1, h2, h3⟩
        have hne : j ≠ i := by
          rintro rfl
          rw [h] at h3
          cases h3
        exact ⟨j, e, by omega, by omega, h3⟩

/-- Method 2 throws exactly when the balance read fails or a lookup below the balance fails. -/
theorem method2_fails_iff (c : Contract) (account : Address) :
    (∃ e, (fetchMyNFTs.method2 c account).run.result = .error e) ↔
      (∃ e, c.balanceOf account = .error e) ∨
      ∃ n i e, c.balanceOf account = .ok n ∧ i < n ∧ c.tokenOfOwnerByIndex account i = .error e := by
  unfold fetchMyNFTs.method2
  cases hb : c.balanceOf account with
  | error e => simp
  | ok n =>
    simp only [reduceCtorEq, exists_false, false_or, Except.ok.injEq, exists_and_left,
      exists_eq_left']
    rw [byIndex_fails_iff c account n 0 []]
    constructor
    · rintro ⟨j, e, _, h2, h3⟩
      exact ⟨j, by omega, e, h3⟩
    · rintro ⟨j, h2, e, h3⟩
      exact ⟨j, e, Nat.zero_le _, by omega, h3⟩

/-- The enumeration throws exactly when all three strategies fail, and then with the
enumeration-unavailable error. -/
theorem tokenIds_fails_iff (c : Contract) (account : Address) (e : Err) :
    (fetchMyNFTs.tokenIds c account).result = .error e ↔
      allStrategiesFail c account ∧
        e = { message := "Could not fetch your NFTs. Please check contract implementation." } := by
  rw [tokenIds_result]
  unfold allStrategiesFail
  rw [← method2_fails_iff]
  cases h1 : c.tokensOfOwner account with
  | ok ids => simp
  | error e1 =>
    cases h2 : (fetchMyNFTs.method2 c account).run.result with
    | ok u => simp
    | error e2 =>
      cases h3 : totalSupplyRead c with
      | ok n => simp
      | error e3 =>
        simp only [Except.error.injEq, exists_eq', true_and]
        exact ⟨fun h => h.symm, fun h => h.symm⟩

/-- C11. For a connected client, `fetchMyNFTs` reports a failure exactly when all three
strategies fail: `tokensOfOwner` fails, the balance read or an indexed lookup below the
balance fails, and the total-supply read fails. The failure reported is then the
enumeration-unavailable error and the owned collection is set to empty. When the total-supply
read succeeds the enumeration returns a list whatever the `ownerOf` reads of the scan do. -/
theorem fetchMyNFTs_unavailable_iff (s : App) (w : World) (signer account : Address)
    (hc : s.contract = some signer) (ha : s.account = some account) :
    ((∃ msg, Event.alert msg ∈ (fetchMyNFTs s w).trace) ↔ allStrategiesFail w.contract account) ∧
    (allStrategiesFail w.contract account →
      Event.alert ("Error fetching your NFTs: " ++
          "Could not fetch your NFTs. Please check contract implementation.") ∈
        (fetchMyNFTs s w).trace ∧
      (s.after (fetchMyNFTs s w).trace).myNFTs = []) ∧
    (∀ n, totalSupplyRead w.contract = .ok n →
      ∃ ids, (fetchMyNFTs.tokenIds w.contract account).result = .ok ids) := by
  have hcalls := tokenIds_onlyCalls w.contract account
  refine ⟨?_, ?_, ?_⟩
  · cases hr : (fetchMyNFTs.tokenIds w.contract account).result with
    | ok ids =>
      obtain ⟨⟨rs, hrs, _⟩, _⟩ := records_result w account ids
      rw [fetchMyNFTs_trace_ok s w signer account ids rs hc ha hr hrs]
      constructor
      · rintro ⟨msg, hmem⟩
        simp only [List.mem_append, List.mem_cons, List.mem_singleton, List.not_mem_nil,
          or_false, reduceCtorEq, false_or] at hmem
        rcases hmem with hmem | hmem
        · obtain ⟨c, hc'⟩ := hcalls _ hmem
          cases hc'
        · obtain ⟨c, hc'⟩ := records_onlyCalls w account ids _ hmem
          cases hc'
      · intro hall
        have := (tokenIds_fails_iff w.contract account _).mpr ⟨hall, rfl⟩
        rw [hr] at this
        cases this
    | error e =>
      rw [fetchMyNFTs_trace_error s w signer account e hc ha hr]
      constructor
      · intro _
        exact ((tokenIds_fails_iff w.contract account e).mp hr).1
      · intro _
        exact ⟨"Error fetching your NFTs: " ++ e.message, by simp⟩
  · intro hall
    have hr := (tokenIds_fails_iff w.contract account _).mpr ⟨hall, rfl⟩
    rw [fetchMyNFTs_trace_error s w signer account _ hc ha hr]
    constructor
    · simp
    · rw [after_append, after_append, after_onlyCalls _ _ hcalls]
      simp [App.after, App.apply]
  · intro n hn
    rw [tokenIds_result]
    cases h1 : w.contract.tokensOfOwner account with
    | ok ids => exact ⟨_, rfl⟩
    | error e1 =>
      cases h2 : (fetchMyNFTs.method2 w.contract account).run.result with
      | ok u => exact ⟨_, rfl⟩
      | error e2 =>
        simp only [hn]
        exact ⟨_, rfl⟩

/-- Witness of C11: a contract without any enumeration capability. -/
theorem fetchMyNFTs_unavailable_iff_witness :
    Event.alert ("Error fetching your NFTs: " ++
        "Could not fetch your NFTs. Please check contract implementation.") ∈
      (fetchMyNFTs (Sample.connected Sample.alice) (Sample.worldOf Sample.noContract)).trace :=
  ((fetchMyNFTs_unavailable_iff (Sample.connected Sample.alice) (Sample.worldOf Sample.noContract)
    Sample.alice Sample.alice rfl rfl).2.1
    ⟨⟨_, rfl⟩, Or.inl ⟨_, rfl⟩, ⟨_, rfl⟩⟩).1

/-- The listing status of an owned token never throws, and a status "listed" rests on what
the contract returned. -/
theorem listingStatus_result (w : World) (account : Address) (id : Nat) :
    ∃ st, (fetchMyNFTs.listingStatus w account id).result = .ok st ∧
      (st.1 = true → listingEvidence w account id st.2) := by
  unfold fetchMyNFTs.listingStatus listingEvidence
  by_cases hg : w.contract.hasGetListingInfo = true
  · simp only [hg, if_true, Run.bind_eq, Run.pure_eq]
    cases hread : w.contract.getListingInfo id with
    | error e =>
      exact ⟨(false, "0"), by simp [Run.tryCatch, Run.andThen, Run.call, Run.ret, hread], by simp⟩
    | ok info =>
      obtain ⟨listed, seller, price⟩ := info
      refine ⟨_, by simp [Run.tryCatch, Run.andThen, Run.call, Run.ret, hread]; rfl, ?_⟩
      intro hl
      simp only [Bool.and_eq_true, beq_iff_eq] at hl
      left
      refine ⟨trivial, seller, price, ?_, hl.2, ?_⟩
      · rw [hl.1]
      · simp [hl.1, hl.2]
  · have hg' : w.contract.hasGetListingInfo = false := by simpa using hg
    simp only [hg', Bool.false_eq_true, if_false, Run.bind_eq, Run.pure_eq]
    cases hread : w.contract.listings id with
    | error e =>
      exact ⟨(false, "0"), by simp [Run.tryCatch, Run.andThen, Run.call, Run.ret, hread], by simp⟩
    | ok l =>
      refine ⟨_, by simp [Run.tryCatch, Run.andThen, Run.call, Run.ret, hread]; rfl, ?_⟩
      intro hl
      simp only [Bool.and_eq_true, beq_iff_eq, decide_eq_true_eq] at hl
      right
      refine ⟨trivial, l, rfl, hl.1, hl.2, ?_⟩
      simp [hl.1, hl.2]

/-- Metadata resolution for an owned token always yields a value. -/
theorem ownedMetadata_total (w : World) (u : String) :
    ∃ m, (fetchMyNFTs.metadata w u).result = .ok m := by
  unfold fetchMyNFTs.metadata
  simp only [Run.bind_eq, Run.pure_eq, Run.tryCatch, Run.andThen, Run.call, Run.ofExcept, Run.ret,
    Run.raise]
  cases h : w.fetch (gatewayURL u) with
  | error e => exact ⟨_, rfl⟩
  | ok r =>
    by_cases hok : r.ok = true
    · simp only [hok, Bool.not_true, Bool.false_eq_true, if_false]
      cases hj : r.json with
      | error e => exact ⟨_, rfl⟩
      | ok m => exact ⟨_, rfl⟩
    · simp only [hok, Bool.not_false, if_true]
      exact ⟨_, rfl⟩

/-- The record of a token: never a throw, the id as `tokenId`, the degraded record when the
content-URI read fails, and a status "listed" only on the contract's word. -/
theorem record_result (w : World) (account : Address) (id : Nat) :
    ∃ r, (fetchMyNFTs.record w account id).result = .ok r ∧ r.tokenId = id ∧
      ((∃ e, w.contract.tokenURI id = .error e) → r = degradedRecord id) ∧
      (r.isListed = true → listingEvidence w account id r.listingPrice) := by
  unfold fetchMyNFTs.record
  simp only [Run.bind_eq, Run.pure_eq]
  cases hu : w.contract.tokenURI id with
  | error e =>
    refine ⟨degradedRecord id, ?_, rfl, fun _ => rfl, by simp [degradedRecord]⟩
    simp [Run.tryCatch, Run.andThen, Run.call, Run.ret, hu, degradedRecord]
  | ok uri =>
    obtain ⟨st, hst, hev⟩ := listingStatus_result w account id
    obtain ⟨m, hm⟩ := ownedMetadata_total w uri
    refine ⟨{ tokenId := id, metadata := m, isListed := st.1, listingPrice := st.2 }, ?_, rfl,
      ?_, hev⟩
    · simp [Run.tryCatch, Run.andThen, Run.call, Run.ret, hu, hst, hm]
    · rintro ⟨e, he⟩
      cases he

/-- The records of an id list: one per id, in order, each as `record_result` describes. -/
theorem records_spec (w : World) (account : Address) (ids : List Nat) :
    ∃ rs, (fetchMyNFTs.records w account ids).result = .ok rs ∧ rs.map (·.tokenId) = ids ∧
      ∀ r ∈ rs, ((∃ e, w.contract.tokenURI r.tokenId = .error e) → r = degradedRecord r.tokenId) ∧
        (r.isListed = true → listingEvidence w account r.tokenId r.listingPrice) := by
  induction ids with
  | nil => exact ⟨[], by simp [fetchMyNFTs.records, Run.ret], rfl, by simp⟩
  | cons id rest ih =>
    obtain ⟨rs, hrs, hmap, hall⟩ := ih
    obtain ⟨r, hr, hid, hdeg, hlist⟩ := record_result w account id
    refine ⟨r :: rs, ?_, by simp [hid, hmap], ?_⟩
    · simp [fetchMyNFTs.records, Run.andThen, hr, hrs, Run.ret]
    · intro r' hr'
      rcases List.mem_cons.mp hr' with rfl | hr'
      · rw [hid]
        exact ⟨hdeg, hlist⟩
      · exact hall r' hr'

/-- The owned collection after `fetchMyNFTs`, for a connected client: the records of the
enumerated ids, or the empty collection when the enumeration fails. -/
theorem fetchMyNFTs_myNFTs (s : App) (w : World) (signer account : Address)
    (hc : s.contract = some signer) (ha : s.account = some account) :
    (∃ ids rs, (fetchMyNFTs.tokenIds w.contract account).result = .ok ids ∧
      (fetchMyNFTs.records w account ids).result = .ok rs ∧
      (s.after (fetchMyNFTs s w).trace).myNFTs = rs) ∨
    ((∃ e, (fetchMyNFTs.tokenIds w.contract account).result = .error e) ∧
      (s.after (fetchMyNFTs s w).trace).myNFTs = []) := by
  have hcalls := tokenIds_onlyCalls w.contract account
  cases hr : (fetchMyNFTs.tokenIds w.contract account).result with
  | ok ids =>
    obtain ⟨rs, hrs, _⟩ := records_spec w account ids
    left
    refine ⟨ids, rs, rfl, hrs, ?_⟩
    rw [fetchMyNFTs_trace_ok s w signer account ids rs hc ha hr hrs, after_append, after_append,
      after_append, after_onlyCalls _ _ hcalls, after_onlyCalls _ _ (records_onlyCalls w account ids)]
    simp [App.after, App.apply]
  | error e =>
    right
    refine ⟨⟨e, rfl⟩, ?_⟩
    rw [fetchMyNFTs_trace_error s w signer account e hc ha hr, after_append, after_append,
      after_onlyCalls _ _ hcalls]
    simp [App.after, App.apply]

/-- C12. For a connected client and an enumerated id list, the owned collection after
`fetchMyNFTs` holds exactly one record per enumerated id, in enumeration order and with that id
as `tokenId`, whatever reads fail for the single tokens; and the record of a token whose
content-URI read fails is the degraded record. -/
theorem fetchMyNFTs_one_record_per_id (s : App) (w : World) (signer account : Address)
    (ids : List Nat) (hc : s.contract = some signer) (ha : s.account = some account)
    (hids : (fetchMyNFTs.tokenIds w.contract account).result = .ok ids) :
    (s.after (fetchMyNFTs s w).trace).myNFTs.map (·.tokenId) = ids ∧
    ∀ r ∈ (s.after (fetchMyNFTs s w).trace).myNFTs,
      (∃ e, w.contract.tokenURI r.tokenId = .error e) → r = degradedRecord r.tokenId := by
  rcases fetchMyNFTs_myNFTs s w signer account hc ha with ⟨ids', rs, hids', hrs, hmy⟩ | ⟨⟨e, he⟩, _⟩
  · rw [hids] at hids'
    cases hids'
    obtain ⟨rs', hrs', hmap, hall⟩ := records_spec w account ids
    rw [hrs] at hrs'
    cases hrs'
    rw [hmy]
    exact ⟨hmap, fun r hr => (hall r hr).1⟩
  · rw [hids] at he
    cases he

/-- C14, as amended. Every record that `fetchMyNFTs` stores with `isListed = true` rests on
what the contract returned for its token: on the raw `listings` path a row whose seller is the
account and whose price is positive; on the `getListingInfo` path the answer "listed" with the
account as seller, the price being formatted without a test. -/
theorem fetchMyNFTs_listed_records (s : App) (w : World) (signer account : Address)
    (r : TokenRecord) (hc : s.contract = some signer) (ha : s.account = some account)
    (hr : r ∈ (s.after (fetchMyNFTs s w).trace).myNFTs) (hl : r.isListed = true) :
    listingEvidence w account r.tokenId r.listingPrice := by
  rcases fetchMyNFTs_myNFTs s w signer account hc ha with ⟨ids, rs, _, hrs, hmy⟩ | ⟨_, hmy⟩
  · obtain ⟨rs', hrs', _, hall⟩ := records_spec w account ids
    rw [hrs] at hrs'
    cases hrs'
    rw [hmy] at hr
    exact (hall r hr).2 hl
  · rw [hmy] at hr
    cases hr

/-- Witness of C12: `alice` holds tokens 7 and 8 and the content-URI read of token 7 fails;
the collection has a record for each, the one of token 7 degraded. -/
theorem fetchMyNFTs_one_record_per_id_witness :
    ((Sample.connected Sample.alice).after
        (fetchMyNFTs (Sample.connected Sample.alice) (Sample.worldOf Sample.enumMixed)).trace).myNFTs.map
        (·.tokenId) = [7, 8] ∧
      ((Sample.connected Sample.alice).after
        (fetchMyNFTs (Sample.connected Sample.alice) (Sample.worldOf Sample.enumMixed)).trace).myNFTs =
        [degradedRecord 7, ⟨8, unknownMetadata, false, "0"⟩] :=
  ⟨(fetchMyNFTs_one_record_per_id (Sample.connected Sample.alice) (Sample.worldOf Sample.enumMixed)
    Sample.alice Sample.alice [7, 8] rfl rfl (by decide)).1, by decide⟩

/-- Witness of C14 as amended: token 9, listed by `alice` for 1.5 ether in the raw table. -/
theorem fetchMyNFTs_listed_records_witness :
    listingEvidence (Sample.worldOf Sample.ownedSale9) Sample.alice 9 "1.5" :=
  fetchMyNFTs_listed_records (Sample.connected Sample.alice) (Sample.worldOf Sample.ownedSale9)
    Sample.alice Sample.alice ⟨9, unknownMetadata, true, "1.5"⟩ rfl rfl (by decide) rfl

/-- Counterexample to C14 as stated: `getListingInfo` reports token 7 as listed by `alice` at
price zero, and `fetchMyNFTs` stores the record with `isListed = true` and the price text of
zero. -/
theorem fetchMyNFTs_listed_at_price_zero :
    Sample.listedAtZero.hasGetListingInfo = true ∧
      Sample.listedAtZero.getListingInfo 7 = .ok (true, Sample.alice, 0) ∧
      ((Sample.connected Sample.alice).after
        (fetchMyNFTs (Sample.connected Sample.alice) (Sample.worldOf Sample.listedAtZero)).trace).myNFTs =
        [⟨7, unknownMetadata, true, "0.0"⟩] := by
  decide

/-! ## Metadata resolution -/

/-- C13, as amended. Metadata resolution, in `fetchListings` and in `fetchMyNFTs` alike, always
yields a value and never throws; the value is the fallback record when the fetch throws,
returns a non-success status, or the body fails to parse, and otherwise it is the parsed body
as the gateway sent it, whatever its shape. -/
theorem metadata_resolution (w : World) (tokenURI : String) :
    ∃ m, (fetchListings.metadata w tokenURI).result = .ok m ∧
      (fetchMyNFTs.metadata w tokenURI).result = .ok m ∧
      ((∃ e, w.fetch (gatewayURL tokenURI) = .error e) → m = unknownMetadata) ∧
      (∀ r, w.fetch (gatewayURL tokenURI) = .ok r → r.ok = false → m = unknownMetadata) ∧
      (∀ r e, w.fetch (gatewayURL tokenURI) = .ok r → r.ok = true → r.json = .error e →
        m = unknownMetadata) ∧
      (∀ r v, w.fetch (gatewayURL tokenURI) = .ok r → r.ok = true → r.json = .ok v → m = v) := by
  unfold fetchListings.metadata fetchMyNFTs.metadata
  simp only [Run.bind_eq, Run.pure_eq, Run.tryCatch, Run.andThen, Run.call, Run.ofExcept, Run.ret,
    Run.raise]
  cases h : w.fetch (gatewayURL tokenURI) with
  | error e =>
    refine ⟨unknownMetadata, ?_, ?_, ?_, ?_, ?_, ?_⟩ <;> simp
  | ok r =>
    by_cases hok : r.ok = true
    · cases hj : r.json with
      | error e =>
        refine ⟨unknownMetadata, ?_, ?_, ?_, ?_, ?_, ?_⟩ <;> simp [hok, hj]
        rintro r' v rfl _ hv
        rw [hj] at hv
        cases hv
      | ok v =>
        refine ⟨v, ?_, ?_, ?_, ?_, ?_, ?_⟩ <;> simp [hok, hj]
        · rintro r' e rfl _ he
          rw [hj] at he
          cases he
        · rintro r' v' rfl _ hv
          rw [hj] at hv
          cases hv
          rfl
    · have hok' : r.ok = false := by simpa using hok
      refine ⟨unknownMetadata, ?_, ?_, ?_, ?_, ?_, ?_⟩ <;> simp [hok']
      rintro r' v rfl hyes
      rw [hok'] at hyes
      cases hyes

/-- Witness of C13 as amended: with the gateway down, both resolutions yield the fallback. -/
theorem metadata_resolution_witness :
    (fetchListings.metadata (Sample.worldOf Sample.catalogS5) "ipfs://QmToken").result =
        .ok unknownMetadata ∧
      (fetchMyNFTs.metadata (Sample.worldOf Sample.catalogS5) "ipfs://QmToken").result =
        .ok unknownMetadata :=
  match metadata_resolution (Sample.worldOf Sample.catalogS5) "ipfs://QmToken" with
  | ⟨_, h1, h2, h3, _⟩ => by
    have hm := h3 ⟨_, rfl⟩
    subst hm
    exact ⟨h1, h2⟩

/-- Counterexample to C13 as stated: the gateway answers with status 200 and the body `null`;
both resolutions yield that value, which is not a record with name, description and image
reference, and the catalog stores it as the metadata of the listing of token 9. -/
theorem metadata_resolution_yields_any_json :
    (fetchListings.metadata (Sample.nullGateway Sample.catalogS5) "ipfs://QmToken").result =
        .ok (.other "null") ∧
      (fetchMyNFTs.metadata (Sample.nullGateway Sample.catalogS5) "ipfs://QmToken").result =
        .ok (.other "null") ∧
      (MetaValue.other "null").isRecord = false ∧
      ((Sample.connected Sample.bob).after
        (fetchListings (Sample.connected Sample.bob) (Sample.nullGateway Sample.catalogS5)).trace).listings =
        [⟨9, Sample.alice, "2.0", .other "null"⟩] := by
  decide


/-! ## The operation guard -/

/-- After a block whose `finally` clears the busy flag, the flag is clear. -/
theorem after_tryFinally_loading {α : Type} (s : App) (x : Run α) :
    (s.after (Run.tryFinally x (Run.emit (.setLoading false))).trace).loading = false := by
  simp [Run.tryFinally, Run.emit, after_append, App.after, App.apply]

/-- C15. In each of the four mutation workflows, a run that sets the busy flag ends with the
flag clear, on every exit path: the flag is set only inside a `try` whose `finally` clears it
last. -/
theorem mutation_workflows_release_guard (s : App) (w : World) (tokenId : Nat) (price : String) :
    (Event.setLoading true ∈ (handleMint s w).trace →
      (s.after (handleMint s w).trace).loading = false) ∧
    (Event.setLoading true ∈ (handleListNFT s w).trace →
      (s.after (handleListNFT s w).trace).loading = false) ∧
    (Event.setLoading true ∈ (buyNFT s w tokenId price).trace →
      (s.after (buyNFT s w tokenId price).trace).loading = false) ∧
    (Event.setLoading true ∈ (cancelListing s w tokenId).trace →
      (s.after (cancelListing s w tokenId).trace).loading = false) := by
  refine ⟨?_, ?_, ?_, ?_⟩
  · intro h
    unfold handleMint at h ⊢
    by_cases h1 : s.contract.isNone = true
    · simp [h1, Run.emit] at h
    · by_cases h2 : (s.nftName = "" || s.nftDescription = "" || s.imageFile.isNone) = true
      · simp [h1, h2, Run.emit] at h
      · simp only [h1, h2, Bool.false_eq_true, if_false]
        exact after_tryFinally_loading s _
  · intro h
    unfold handleListNFT at h ⊢
    cases hc : s.contract with
    | none => simp [hc, Run.emit] at h
    | some signer =>
      cases hsel : s.selectedNFT with
      | none => simp [hc, hsel, Run.emit] at h
      | some tok =>
        by_cases hg : (s.listingPrice = "" || w.parseFloatLeZero s.listingPrice) = true
        · simp [hc, hsel, hg, Run.emit] at h
        · simp only [hg, Bool.false_eq_true, if_false, Run.bind_eq]
          have := after_tryFinally_loading (s.after [Event.setLoading true])
            (Run.tryCatch (handleListNFT.body s w tok)
              (fun error => Run.emit (.alert (handleListNFT.errorMessage error))))
          simpa [Run.andThen, Run.emit, after_append] using this
  · intro h
    unfold buyNFT at h ⊢
    cases hc : s.contract with
    | none => simp [hc, Run.emit, Run.andThen] at h
    | some signer =>
      cases ha : s.account with
      | none => simp [hc, ha, Run.emit, Run.andThen] at h
      | some account =>
        simp only [Run.bind_eq]
        have := after_tryFinally_loading (s.after [Event.setLoading true])
          (Run.tryCatch (buyNFT.body s w account tokenId price)
            (fun error => Run.emit (.alert (buyNFT.errorMessage error))))
        simpa [Run.andThen, Run.emit, after_append] using this
  · intro h
    unfold cancelListing at h ⊢
    cases hc : s.contract with
    | none => simp [hc, Run.emit] at h
    | some signer =>
      cases ha : s.account with
      | none => simp [hc, ha, Run.emit] at h
      | some account => exact after_tryFinally_loading s _

/-- Witness of C15: a cancellation that the wallet rejects; the run sets the flag and ends
with the flag clear. -/
theorem mutation_workflows_release_guard_witness :
    Event.setLoading true ∈
        (cancelListing (Sample.connected Sample.alice) (Sample.worldOf (Sample.saleOf9 true)) 9).trace ∧
      ((Sample.connected Sample.alice).after
        (cancelListing (Sample.connected Sample.alice) (Sample.worldOf (Sample.saleOf9 true)) 9).trace).loading =
        false :=
  ⟨by decide,
    (mutation_workflows_release_guard (Sample.connected Sample.alice)
      (Sample.worldOf (Sample.saleOf9 true)) 9 "1.5").2.2.2 (by decide)⟩


/-- The `try` block of `cancelListing` never clears the busy flag. -/
theorem cancelListing_body_keeps_flag (w : World) (tokenId : Nat) :
    Event.setLoading false ∉ (cancelListing.body w tokenId).trace := by
  unfold cancelListing.body
  simp [Run.mem_trace_andThen]

/-- The `try` block of `buyNFT` never clears the busy flag. -/
theorem buyNFT_body_keeps_flag (s : App) (w : World) (account : Address) (tokenId : Nat)
    (price : String) : Event.setLoading false ∉ (buyNFT.body s w account tokenId price).trace := by
  intro h
  unfold buyNFT.body at h
  simp only [Run.bind_eq, Run.pure_eq, Run.mem_trace_andThen, Run.mem_trace_call, Run.result_call,
    Run.trace_ofExcept, Run.result_ofExcept, List.not_mem_nil, false_or, reduceCtorEq] at h
  obtain ⟨wei, _, l, _, h⟩ := h
  by_cases hskip : (l.seller = "" || l.seller = ZERO_ADDRESS || l.price = 0) = true
  · simp [hskip] at h
  simp only [hskip, Bool.false_eq_true, if_false, Run.mem_trace_andThen, Run.mem_trace_call,
    Run.result_call, reduceCtorEq, false_or] at h
  obtain ⟨owner, _, h⟩ := h
  by_cases hown : toLowerCase owner = toLowerCase l.seller
  swap
  · simp [hown] at h
  by_cases hself : toLowerCase account = toLowerCase l.seller
  · simp [hown, hself] at h
  by_cases hprov : s.provider = true
  swap
  · simp [hown, hself, hprov, Run.mem_trace_andThen] at h
  simp only [hown, hself, hprov, ne_eq, not_true_eq_false, if_false, if_true,
    Run.mem_trace_andThen, Run.mem_trace_call, Run.result_call, reduceCtorEq, false_or] at h
  obtain ⟨bal, _, h⟩ := h
  rcases h with h | ⟨_, _, h⟩
  · rcases estimation_trace _ _ _ _ _ h with h | h <;> simp at h
  obtain ⟨approved, _, all, _, h⟩ := h
  by_cases hnot : ¬toLowerCase approved = toLowerCase w.CONTRACT_ADDRESS ∧ all = false
  · simp [hnot] at h
  simp [hnot, Run.mem_trace_andThen] at h

/-- The `try` block of `handleListNFT` never clears the busy flag. -/
theorem handleListNFT_body_keeps_flag (s : App) (w : World) (tok : TokenRecord) :
    Event.setLoading false ∉ (handleListNFT.body s w tok).trace := by
  intro h
  unfold handleListNFT.body at h
  simp only [Run.bind_eq, Run.pure_eq, Run.mem_trace_andThen, Run.mem_trace_call, Run.result_call,
    Run.trace_ofExcept, Run.result_ofExcept, List.not_mem_nil, false_or, reduceCtorEq] at h
  obtain ⟨wei, _, owner, _, h⟩ := h
  cases ha : s.account with
  | none => simp [ha] at h
  | some account =>
    simp only [ha, Run.trace_ret, Run.result_ret, List.not_mem_nil, false_or, Except.ok.injEq,
      exists_eq_left'] at h
    by_cases hown : toLowerCase owner = toLowerCase account
    swap
    · simp [hown] at h
    simp only [hown, ne_eq, not_true_eq_false, if_false, Run.mem_trace_andThen, Run.mem_trace_call,
      Run.result_call, reduceCtorEq, false_or] at h
    obtain ⟨l, _, h⟩ := h
    by_cases hact : l.seller ≠ ZERO_ADDRESS ∧ l.price > 0
    · simp [hact] at h
    simp only [hact, if_false, Run.mem_trace_andThen, Run.mem_trace_call, Run.result_call,
      reduceCtorEq, false_or] at h
    obtain ⟨ap, _, all, _, h⟩ := h
    rcases h with h | ⟨_, _, h⟩
    · split_ifs at h
      · unfold handleListNFT.approval at h
        simp only [Run.bind_eq, Run.pure_eq, Run.mem_trace_andThen, Run.mem_trace_call,
          Run.mem_trace_emit, Run.result_call, Run.result_emit, reduceCtorEq, false_or] at h
        obtain ⟨_, _, _, _, _, _, _, _, h⟩ := h
        split_ifs at h <;> simp at h
      · simp at h
    · unfold handleListNFT.submit at h
      simp [Run.mem_trace_andThen] at h

/-- The image upload of a chosen file sets the busy flag, issues the pinning request and
clears the busy flag, whatever the outcome of the request. -/
theorem uploadToIPFS_trace (w : World) (f : String) :
    (uploadToIPFS w (some f)).trace =
      [.setLoading true, .call (.pinFileToIPFS f), .setLoading false] := by
  unfold uploadToIPFS
  cases h : w.pinFileToIPFS f <;>
    simp [Run.tryFinally, Run.tryCatch, Run.andThen, Run.emit, Run.call, Run.ret, h]

/-- The steps of `handleMint` after the image upload never set the busy flag. -/
theorem handleMint_rest_never_sets_flag (s : App) (w : World) (cid : Option String) :
    Event.setLoading true ∉
      (match truthyCID cid with
        | none => emit (.alert "Image upload failed.")
        | some imageCID => do
          let metadataCID ← pinJSONToIPFS w s.nftName s.nftDescription imageCID
          match truthyCID metadataCID with
          | none => emit (.alert "Metadata upload failed.")
          | some metadataCID => handleMint.submit w metadataCID : Run Unit).trace := by
  cases truthyCID cid with
  | none => simp
  | some imageCID =>
    simp only [Run.bind_eq, Run.mem_trace_andThen, not_or, not_exists, not_and]
    constructor
    · unfold pinJSONToIPFS
      simp [Run.mem_trace_tryCatch]
    · intro m _
      cases truthyCID m with
      | none => simp
      | some metadataCID =>
        unfold handleMint.submit
        simp [Run.mem_trace_andThen]

/-- A guarded block that starts with the image upload: whatever follows the upload, the
upload has cleared the busy flag before it. -/
theorem guarded_upload_trace (w : World) (f : String) (k : Option String → Run Unit)
    (h : Err → Run Unit) (hk : ∀ cid, Event.setLoading true ∉ (k cid).trace)
    (hh : ∀ e, Event.setLoading true ∉ (h e).trace) :
    ∃ rest, (tryFinally (tryCatch ((emit (.setLoading true)).andThen fun _ =>
          (uploadToIPFS w (some f)).andThen k) h) (emit (.setLoading false))).trace =
        [.setLoading true, .setLoading true, .call (.pinFileToIPFS f), .setLoading false] ++ rest ∧
      Event.setLoading true ∉ rest := by
  have hup := uploadToIPFS_trace w f
  cases hr : (uploadToIPFS w (some f)).result with
  | error e =>
    refine ⟨(h e).trace ++ [.setLoading false], ?_, by simp [hh e]⟩
    simp [Run.tryFinally, Run.tryCatch, Run.andThen, Run.emit, hr, hup]
  | ok cid =>
    cases hkr : (k cid).result with
    | ok _ =>
      refine ⟨(k cid).trace ++ [.setLoading false], ?_, by simp [hk cid]⟩
      simp [Run.tryFinally, Run.tryCatch, Run.andThen, Run.emit, hr, hup, hkr]
    | error e =>
      refine ⟨(k cid).trace ++ (h e).trace ++ [.setLoading false], ?_, by simp [hk cid, hh e]⟩
      simp [Run.tryFinally, Run.tryCatch, Run.andThen, Run.emit, hr, hup, hkr]

/-- In every run of `handleMint` that passes the entry tests, the busy flag is set, the image
upload clears it in its own cleanup, and no later step of the run sets it again: every event
after the upload, the `mintNFT` call and the wait for its finality included, is recorded with
the flag clear. -/
theorem handleMint_trace_after_upload (s : App) (w : World) (signer : Address) (f : String)
    (hc : s.contract = some signer) (hn : s.nftName ≠ "") (hd : s.nftDescription ≠ "")
    (hf : s.imageFile = some f) :
    ∃ rest, (handleMint s w).trace =
        [.setLoading true, .setLoading true, .call (.pinFileToIPFS f), .setLoading false] ++ rest ∧
      Event.setLoading true ∉ rest := by
  unfold handleMint handleMint.body
  simp only [hc, hn, hd, hf, Option.isNone_some, Bool.false_eq_true, if_false, decide_False,
    Bool.or_self, Run.bind_eq]
  exact guarded_upload_trace w f _ _ (handleMint_rest_never_sets_flag s w) (by simp)

/-- C16, at a failing input: a mint with the form filled in, both uploads stored and the
transaction signed and confirmed. The cleanup of `uploadToIPFS` clears the busy flag after
the image upload, so the flag is clear when the `mintNFT` call is submitted and while its
finality is awaited. -/
theorem handleMint_flag_cleared_before_submission :
    (handleMint Sample.minting Sample.mintWorld).trace =
        [.setLoading true, .setLoading true, .call (.pinFileToIPFS "art.png"), .setLoading false,
          .call (.pinJSONToIPFS "Art" "A picture" "QmImage"),
          .call (.mintNFT "https://gateway.pinata.cloud/ipfs/QmMeta"), .call (.wait "0xd01"),
          .alert "NFT minted successfully!", .setNftName "", .setNftDescription "",
          .setImageFile none, .setImagePreview none, .refreshMyNFTs, .setLoading false] ∧
      loadingBefore Sample.minting (handleMint Sample.minting Sample.mintWorld).trace
        (.call (.pinFileToIPFS "art.png")) = true ∧
      loadingBefore Sample.minting (handleMint Sample.minting Sample.mintWorld).trace
        (.call (.pinJSONToIPFS "Art" "A picture" "QmImage")) = false ∧
      loadingBefore Sample.minting (handleMint Sample.minting Sample.mintWorld).trace
        (.call (.mintNFT "https://gateway.pinata.cloud/ipfs/QmMeta")) = false ∧
      loadingBefore Sample.minting (handleMint Sample.minting Sample.mintWorld).trace
        (.call (.wait "0xd01")) = false := by
  decide


/-- C17, as amended. No mutation entry point reads the busy flag: started in a state that
differs only in the flag, each of them makes the same run (the same calls, uploads, setters
and alerts). What a busy client has is disabled controls: the submit button of the mint
form, the list button of the modal, the buy button and the cancel buttons are all disabled
while the flag is set. -/
theorem entry_points_ignore_busy_flag (s : App) (w : World) (tokenId : Nat) (price : String)
    (b : Bool) :
    handleMint { s with loading := b } w = handleMint s w ∧
      handleListNFT { s with loading := b } w = handleListNFT s w ∧
      buyNFT { s with loading := b } w tokenId price = buyNFT s w tokenId price ∧
      cancelListing { s with loading := b } w tokenId = cancelListing s w tokenId ∧
      mintButtonDisabled { s with loading := true } = true ∧
      listButtonDisabled { s with loading := true } w = true ∧
      buyButtonDisabled { s with loading := true } = true ∧
      cancelButtonDisabled { s with loading := true } = true :=
  ⟨rfl, rfl, rfl, rfl, rfl, rfl, rfl, rfl⟩

/-- Counterexample to C17 as stated: the client is busy and `cancelListing` is invoked for
token 9; the cancellation is submitted and confirmed, and the run ends by clearing the busy
flag of the workflow in flight. -/
theorem cancelListing_runs_while_busy :
    Sample.busy.loading = true ∧
      (cancelListing Sample.busy Sample.cancelWorld 9).trace =
        [.setLoading true, .call (.cancelListing 9), .call (.wait "0xe01"),
          .alert "Listing cancelled successfully!", .refreshListings, .refreshMyNFTs,
          .setLoading false] ∧
      (Sample.busy.after (cancelListing Sample.busy Sample.cancelWorld 9).trace).loading = false := by
  decide


/-! ## `disconnectWallet` -/

/-- C20, as amended. For every client state and every outcome of the revocation requests,
`disconnectWallet` completes normally and leaves the account, the contract handle and the
provider cleared, the owned-token and listings collections empty, the listing draft cleared
(modal closed, no selected token, empty price), the mint form cleared and the mint tab
active; the busy flag is not touched and keeps the value it had. -/
theorem disconnectWallet_clears_session (s : App) (w : World) :
    (disconnectWallet w).result = .ok () ∧
      s.after (disconnectWallet w).trace =
        { account := none, contract := none, provider := false, loading := s.loading,
          nftName := "", nftDescription := "", imageFile := none, imagePreview := none,
          listings := [], myNFTs := [], activeTab := "mint", showListingModal := false,
          selectedNFT := none, listingPrice := "" } ∧
      Event.setLoading false ∉ (disconnectWallet w).trace := by
  unfold disconnectWallet disconnectWallet.revoke disconnectWallet.clear
  cases hE : w.hasEthereum <;> cases hP : w.walletRequestPermissions <;>
    cases hA : w.ethRequestAccounts <;>
    simp [Run.tryCatch, Run.andThen, Run.emit, Run.call, Run.ret, App.after, App.apply, hE, hP, hA]

/-- Counterexample to C20 as stated: a client that is busy (a workflow is in flight) is
disconnected; both revocation requests are rejected, the session is cleared, and the busy
flag is still set when `disconnectWallet` completes. -/
theorem disconnectWallet_leaves_busy_flag :
    Sample.busy.loading = true ∧
      (disconnectWallet (Sample.worldOf Sample.noContract)).result = .ok () ∧
      (Sample.busy.after (disconnectWallet (Sample.worldOf Sample.noContract)).trace).account = none ∧
      (Sample.busy.after (disconnectWallet (Sample.worldOf Sample.noContract)).trace).loading = true := by
  decide


/-! ## `handleAccountsChanged` -/

/-- The client state after `disconnectWallet`, for every outcome of the revocation requests:
everything but the busy flag is at its initial value. -/
theorem disconnectWallet_clears_state (s : App) (w : World) :
    (disconnectWallet w).result = .ok () ∧
      s.after (disconnectWallet w).trace =
        { account := none, contract := none, provider := false, loading := s.loading,
          nftName := "", nftDescription := "", imageFile := none, imagePreview := none,
          listings := [], myNFTs := [], activeTab := "mint", showListingModal := false,
          selectedNFT := none, listingPrice := "" } := by
  unfold disconnectWallet disconnectWallet.revoke disconnectWallet.clear
  cases hE : w.hasEthereum <;> cases hP : w.walletRequestPermissions <;>
    cases hA : w.ethRequestAccounts <;>
    simp [Run.tryCatch, Run.andThen, Run.emit, Run.call, Run.ret, App.after, App.apply, hE, hP, hA]

/-- C21, as amended. For every client state, handling an account-change notification with an
empty account list completes normally and clears the account, the contract handle, the
provider, the owned-token collection and the listings collection, and nothing else. Its
result agrees with the one of `disconnectWallet` on these five and on the pending-operation
flag, which both leave as it was; the selected listing draft is cleared by `disconnectWallet`
and kept by the handler, so the two session states are equal exactly when the draft was
already clear (no selected token, empty price, modal closed). -/
theorem handleAccountsChanged_empty_session (s : App) (w : World) :
    (handleAccountsChanged s w []).result = .ok () ∧
      s.after (handleAccountsChanged s w []).trace =
        { s with account := none, contract := none, provider := false, myNFTs := [],
                 listings := [] } ∧
      (s.after (handleAccountsChanged s w []).trace).session =
        { onAccountsChangedEmpty_spec s w with
          selectedNFT := s.selectedNFT, listingPrice := s.listingPrice,
          showListingModal := s.showListingModal } ∧
      ((s.after (handleAccountsChanged s w []).trace).session = onAccountsChangedEmpty_spec s w ↔
        s.selectedNFT = none ∧ s.listingPrice = "" ∧ s.showListingModal = false) := by
  have hd := (disconnectWallet_clears_state s w).2
  have hh : s.after (handleAccountsChanged s w []).trace =
      { s with account := none, contract := none, provider := false, myNFTs := [],
               listings := [] } := by
    simp [handleAccountsChanged, Run.andThen, Run.emit, App.after, App.apply]
  refine ⟨by simp [handleAccountsChanged, Run.andThen, Run.emit], hh, ?_, ?_⟩
  · rw [hh, onAccountsChangedEmpty_spec, hd]
    rfl
  · rw [hh, onAccountsChangedEmpty_spec, hd]
    simp only [App.session, Session.mk.injEq, true_and]

/-- Counterexample to C21 as stated: the listing modal is open on token 5 with the proposed
price "1.5" when the wallet reports an empty account list. The handler keeps the draft,
`disconnectWallet` clears it, and the two session states differ. -/
theorem handleAccountsChanged_keeps_listing_draft :
    ((Sample.draft Sample.alice 5 "1.5").after
        (handleAccountsChanged (Sample.draft Sample.alice 5 "1.5")
          (Sample.worldOf Sample.unlisted5) []).trace).session =
        { account := none, contract := none, provider := false, myNFTs := [], listings := [],
          loading := false, selectedNFT := some ⟨5, unknownMetadata, false, "0"⟩,
          listingPrice := "1.5", showListingModal := true } ∧
      onAccountsChangedEmpty_spec (Sample.draft Sample.alice 5 "1.5")
          (Sample.worldOf Sample.unlisted5) =
        { account := none, contract := none, provider := false, myNFTs := [], listings := [],
          loading := false, selectedNFT := none, listingPrice := "", showListingModal := false } ∧
      ((Sample.draft Sample.alice 5 "1.5").after
        (handleAccountsChanged (Sample.draft Sample.alice 5 "1.5")
          (Sample.worldOf Sample.unlisted5) []).trace).session ≠
        onAccountsChangedEmpty_spec (Sample.draft Sample.alice 5 "1.5")
          (Sample.worldOf Sample.unlisted5) := by
  decide

end NFTMarket
